import Mathlib

/-!
# iSCSI initiator client: portal codec, session resolver and output parsers

A shallow embedding of `src/utils/iscsi.js`.

* JavaScript strings are lists of characters (`Str`).  Lone surrogates are not
  representable; the administrative tool prints ASCII.
* A JavaScript number is an `Int`, with `none` standing for `NaN` where a
  conversion can fail.  Doubles are exact for every integer below `2 ^ 53`,
  which covers ports and session ids.
* Code that can raise (`TypeError` on a property access of `undefined`, a
  rejected child process, an explicit `throw`) returns `Except JsError _`.
* Collaborators that are not part of the file (`net.isIP`, `hostname_lookup`,
  the spawned process) are parameters.
-/

namespace Iscsi

/-- A JavaScript string. -/
abbrev Str := List Char

/-! ## String primitives -/

/-- Characters removed by `String.prototype.trim`: ECMAScript `WhiteSpace` and
`LineTerminator`. -/
def isWhiteSpace (c : Char) : Bool :=
  c.toNat == 0x09 || c.toNat == 0x0A || c.toNat == 0x0B || c.toNat == 0x0C ||
  c.toNat == 0x0D || c.toNat == 0x20 || c.toNat == 0xA0 || c.toNat == 0x1680 ||
  (0x2000 ≤ c.toNat && c.toNat ≤ 0x200A) || c.toNat == 0x2028 || c.toNat == 0x2029 ||
  c.toNat == 0x202F || c.toNat == 0x205F || c.toNat == 0x3000 || c.toNat == 0xFEFF

/-- Leading part of `trim`. -/
def trimStart (s : Str) : Str := s.dropWhile isWhiteSpace

/-- Trailing part of `trim`. -/
def trimEnd (s : Str) : Str := (s.reverse.dropWhile isWhiteSpace).reverse

/-- The method `String.prototype.trim`. -/
def trim (s : Str) : Str := trimEnd (trimStart s)

/-- The method `String.prototype.startsWith`. -/
def startsWith : Str → Str → Bool
  | _, [] => true
  | [], _ :: _ => false
  | c :: s, d :: p => c == d && startsWith s p

/-- The method `String.prototype.includes`. -/
def includes : Str → Str → Bool
  | [], p => startsWith [] p
  | c :: s, p => startsWith (c :: s) p || includes s p

/-- The call `s.split(sep)` for a one-character separator. -/
def splitOn (sep : Char) : Str → List Str
  | [] => [[]]
  | c :: s =>
    if c = sep then [] :: splitOn sep s
    else
      match splitOn sep s with
      | [] => [[c]]
      | f :: fs => (c :: f) :: fs

/-- The call `parts.join(sep)` for a one-character separator. -/
def joinWith (sep : Char) : List Str → Str
  | [] => []
  | [f] => f
  | f :: g :: fs => f ++ sep :: joinWith sep (g :: fs)

/-- The chain `s.split(sep).slice(1).join(sep)`. -/
def afterFirst (sep : Char) (s : Str) : Str := joinWith sep ((splitOn sep s).drop 1)

/-- The call `s.indexOf(c)` from position `i` on, `-1` when absent. -/
def indexOfFrom (c : Char) : Str → Nat → Int
  | [], _ => -1
  | x :: s, i => if x = c then (i : Int) else indexOfFrom c s (i + 1)

/-- The call `s.indexOf(c)`. -/
def indexOf (c : Char) (s : Str) : Int := indexOfFrom c s 0

/-- The call `s.lastIndexOf(c)`: `last` is the latest match seen before
position `i`. -/
def lastIndexOfFrom (c : Char) : Str → Nat → Int → Int
  | [], _, last => last
  | x :: s, i, last => lastIndexOfFrom c s (i + 1) (if x = c then (i : Int) else last)

/-- The call `s.lastIndexOf(c)`, `-1` when absent. -/
def lastIndexOf (c : Char) (s : Str) : Int := lastIndexOfFrom c s 0 (-1)

/-- The call `s.replaceAll(c, "")`. -/
def removeAll (c : Char) (s : Str) : Str := s.filter (fun x => x != c)

/-- The call `s.replace(c, "")` with a string pattern: only the first
occurrence goes. -/
def removeFirst (c : Char) : Str → Str
  | [] => []
  | x :: s => if x = c then s else x :: removeFirst c s

/-- The call `s.replace(/ /g, "_")`. -/
def spacesToUnderscores (s : Str) : Str := s.map (fun c => if c = ' ' then '_' else c)

/-- The regular-expression class `\w`. -/
def isWordChar (c : Char) : Bool :=
  (0x41 ≤ c.toNat && c.toNat ≤ 0x5A) || (0x61 ≤ c.toNat && c.toNat ≤ 0x7A) ||
  (0x30 ≤ c.toNat && c.toNat ≤ 0x39) || c == '_'

/-- The call `s.replace(/\W/g, "")`. -/
def stripNonWord (s : Str) : Str := s.filter isWordChar

/-- The regular-expression class `[A-Z]`. -/
def isUpperAZ (c : Char) : Bool := 0x41 ≤ c.toNat && c.toNat ≤ 0x5A

/-- Lower-casing of one character.  ASCII letters move by 32.  The Kelvin sign
and the dotted capital I are the two characters outside ASCII whose lower case
contains an ASCII letter; every other character outside ASCII lower-cases to
characters outside ASCII, and each caller either holds only word characters or
strips non-word characters right after, so those are left in place. -/
def lowerChar (c : Char) : Str :=
  if isUpperAZ c then [Char.ofNat (c.toNat + 32)]
  else if c.toNat = 0x212A then [ 'k']
  else if c.toNat = 0x130 then [ 'i', Char.ofNat 0x307]
  else [c]

/-- The method `String.prototype.toLowerCase`. -/
def toLowerCase (s : Str) : Str := s.flatMap lowerChar

/-! ## Numbers -/

/-- Value of a digit in the given radix, as `parseInt` reads it. -/
def digitValue (radix : Nat) (c : Char) : Option Nat :=
  let v : Option Nat :=
    if 0x30 ≤ c.toNat ∧ c.toNat ≤ 0x39 then some (c.toNat - 0x30)
    else if 0x61 ≤ c.toNat ∧ c.toNat ≤ 0x7A then some (c.toNat - 0x61 + 10)
    else if 0x41 ≤ c.toNat ∧ c.toNat ≤ 0x5A then some (c.toNat - 0x41 + 10)
    else none
  match v with
  | some d => if d < radix then some d else none
  | none => none

/-- Value of a run of digits, most significant first. -/
def digitsValue (radix : Nat) (ds : Str) : Nat :=
  ds.foldl (fun acc c => acc * radix + (digitValue radix c).getD 0) 0

/-- The call `parseInt(s)` without a radix: leading white space, an optional
sign, an optional `0x`, then the longest run of digits; `none` is `NaN`. -/
def parseInt (s : Str) : Option Int :=
  let s1 := trimStart s
  let negative := s1.head? = some '-'
  let s2 := if s1.head? = some '-' ∨ s1.head? = some '+' then s1.tail else s1
  let hex := startsWith s2 [ '0', 'x'] || startsWith s2 [ '0', 'X']
  let radix := if hex then 16 else 10
  let s3 := if hex then s2.drop 2 else s2
  let ds := s3.takeWhile (fun c => (digitValue radix c).isSome)
  if ds = [] then none
  else if negative then some (-(digitsValue radix ds : Int))
  else some (digitsValue radix ds : Int)

/-- Decimal digits of a natural number, most significant first. -/
def natToStr (n : Nat) : Str := Nat.toDigits 10 n

/-- Number to string conversion inside a template literal. -/
def numberToStr : Option Int → Str
  | none => "NaN".toList
  | some (Int.ofNat n) => natToStr n
  | some (Int.negSucc n) => '-' :: natToStr (n + 1)

/-! ## Portal codec -/

/-- The result of `parsePortal`. -/
structure Portal where
  host : Str
  port : Option Int
  deriving DecidableEq

/-- The method `ISCSI.parsePortal`. -/
def parsePortal (portal : Str) : Portal :=
  let portal := trim portal
  if startsWith portal [ '['] then
    let host := portal.take (indexOf ']' portal + 1).toNat
    let port := portal.drop (indexOf ']' portal + 2).toNat
    { host := host, port := if port = [] then some 3260 else parseInt port }
  else
    let lastIndex := lastIndexOf ':' portal
    if lastIndex ≠ -1 then
      let host := portal.take lastIndex.toNat
      let port := portal.drop (lastIndex + 1).toNat
      { host := host, port := if port = [] then some 3260 else parseInt port }
    else
      { host := portal, port := some 3260 }

/-- The method `ISCSI.devicePathByPortalIQNLUN`.  The flag is
`options.hostname_lookup`; `isIP` is `net.isIP` and `hostname_lookup` the
resolver of `./general`, whose falsy results are `none`. -/
def devicePathByPortalIQNLUN (isIP : Str → Nat) (hostname_lookup : Str → Option Str)
    (portal iqn lun : Str) (lookupRequested : Bool) : Str :=
  let parsedPortal := parsePortal portal
  let portalHost := removeAll ']' (removeAll '[' parsedPortal.host)
  let portalHost :=
    if lookupRequested && isIP portalHost == 0 then
      match hostname_lookup portalHost with
      | some ip => if ip = [] then portalHost else ip
      | none => portalHost
    else portalHost
  "/dev/disk/by-path/ip-".toList ++ portalHost ++ ":".toList ++ numberToStr parsedPortal.port
    ++ "-iscsi-".toList ++ iqn ++ "-lun-".toList ++ lun

/-! ## The command runner -/

/-- The object `exec` resolves or rejects with; `code` is `none` for `null`
(the time-out case). -/
structure ExecResult where
  code : Option Int
  stdout : Str
  stderr : Str
  timeout : Bool
  deriving DecidableEq

/-- The settled promise returned by `exec`. -/
inductive ExecOutcome where
  | resolved (result : ExecResult)
  | rejected (err : ExecResult)
  deriving DecidableEq

/-- What a call can raise.  `outOfFuel` is no JavaScript error: it marks a
bounded loop of the embedding that used up its iterations, which
`linesLoop_fuel` shows does not happen. -/
inductive JsError where
  | typeError
  | thrown (message : Str)
  | rejected (err : ExecResult)
  | outOfFuel
  deriving DecidableEq

/-- Equality of results is decidable. -/
instance decEqExcept {ε α : Type} [DecidableEq ε] [DecidableEq α] : DecidableEq (Except ε α)
  | Except.ok a, Except.ok b =>
    if h : a = b then isTrue (by rw [h]) else isFalse (fun e => h (Except.ok.inj e))
  | Except.error a, Except.error b =>
    if h : a = b then isTrue (by rw [h]) else isFalse (fun e => h (Except.error.inj e))
  | Except.ok _, Except.error _ => isFalse (fun e => Except.noConfusion e)
  | Except.error _, Except.ok _ => isFalse (fun e => Except.noConfusion e)

/-- A string-valued slot that may also hold `undefined` or `null`. -/
inductive JsValue where
  | undefined
  | null
  | str (s : Str)
  deriving DecidableEq

/-- An array read `a[i]` as a `JsValue`. -/
def JsValue.ofOption : Option Str → JsValue
  | none => JsValue.undefined
  | some s => JsValue.str s

/-! ## Interface listing -/

/-- The placeholder the tool prints for an unset field. -/
def emptyToken : Str := "<empty>".toList

/-- The function `getIscsiValue`. -/
def getIscsiValue (value : JsValue) : JsValue :=
  if value = JsValue.str emptyToken then JsValue.null else value

/-- One element of the array `listInterfaces` returns. -/
structure Interface where
  iface_name : Str
  transport_name : Str
  hwaddress : JsValue
  ipaddress : JsValue
  net_ifacename : JsValue
  initiatorname : JsValue
  deriving DecidableEq

/-- Body of the `forEach` callback of `listInterfaces`. -/
def interfaceOfEntry (entry : Str) : Except JsError Interface :=
  let fields := splitOn ' ' entry
  match fields[1]? with
  | none => Except.error JsError.typeError
  | some f1 =>
    Except.ok
      { iface_name := fields.headD [],
        transport_name := (splitOn ',' f1).headD [],
        hwaddress := getIscsiValue (JsValue.ofOption (splitOn ',' f1)[1]?),
        ipaddress := getIscsiValue (JsValue.ofOption (splitOn ',' f1)[2]?),
        net_ifacename := getIscsiValue (JsValue.ofOption (splitOn ',' f1)[3]?),
        initiatorname := getIscsiValue (JsValue.ofOption (splitOn ',' f1)[4]?) }

/-- The `forEach` of `listInterfaces`, pushing onto `interfaces`. -/
def interfacesLoop : List Str → List Interface → Except JsError (List Interface)
  | [], interfaces => Except.ok interfaces
  | entry :: entries, interfaces =>
    match interfaceOfEntry entry with
    | Except.error e => Except.error e
    | Except.ok i => interfacesLoop entries (interfaces ++ [i])

/-- The method `iscsiadm.listInterfaces`, given how the tool invocation settled. -/
def listInterfaces (outcome : ExecOutcome) : Except JsError (List Interface) :=
  match outcome with
  | ExecOutcome.rejected err => Except.error (JsError.rejected err)
  | ExecOutcome.resolved result =>
    if result.stdout = [] then Except.ok []
    else interfacesLoop (splitOn '\n' (trim result.stdout)) []

/-! ## Node database entries -/

/-- The diagnostic of the database contention failure. -/
def contentionPhrase : Str :=
  "Could not execute operation on all records: encountered iSCSI database failure".toList

/-- The constant `maxRetries`. -/
def maxRetries : Nat := 5

/-- The `while (retries < maxRetries)` loop of `createNodeDBEntry` for one
attribute.  The `k`-th invocation of the tool since the start of the loop
settles as `exec k`; the result comes with the final value of `retries`,
which is the number of invocations made.  The first argument bounds the
number of iterations. -/
def updateLoop (exec : Nat → ExecOutcome) : Nat → Nat → Except JsError Unit × Nat
  | 0, retries => (Except.ok (), retries)
  | fuel + 1, retries =>
    if retries < maxRetries then
      let retries := retries + 1
      match exec (retries - 1) with
      | ExecOutcome.resolved _ => (Except.ok (), retries)
      | ExecOutcome.rejected err =>
        if retries < maxRetries && includes err.stderr contentionPhrase then
          updateLoop exec fuel retries
        else (Except.error (JsError.rejected err), retries)
    else (Except.ok (), retries)

/-- The update of one attribute: the loop started at `retries = 0`. -/
def updateAttribute (exec : Nat → ExecOutcome) : Except JsError Unit × Nat :=
  updateLoop exec maxRetries 0

/-- The `for (let attribute in attributes)` loop: `calls` tool invocations
have been made so far, and invocation number `k` overall settles as `exec k`. -/
def attributesLoop (exec : Nat → ExecOutcome) : Nat → Nat → Except JsError Unit × Nat
  | 0, calls => (Except.ok (), calls)
  | attributes + 1, calls =>
    match updateAttribute (fun k => exec (calls + k)) with
    | (Except.ok _, n) => attributesLoop exec attributes (calls + n)
    | (Except.error e, n) => (Except.error e, calls + n)

/-- The method `iscsiadm.createNodeDBEntry` for a node with the given number
of attributes: the result and the number of tool invocations made. -/
def createNodeDBEntry (exec : Nat → ExecOutcome) (attributes : Nat) :
    Except JsError Unit × Nat :=
  match exec 0 with
  | ExecOutcome.rejected err => (Except.error (JsError.rejected err), 1)
  | ExecOutcome.resolved _ => attributesLoop exec attributes 1

/-! ## One-line session listing -/

/-- The call `Number(s)` on a string: white space is trimmed, the empty string
is `0`, and decimal, signed decimal, hexadecimal, octal and binary integer
literals have their value.  `none` is `NaN`, and also stands for literals with
a fraction, an exponent or `Infinity`, which have no value in this model. -/
def toNumber (s : Str) : Option Int :=
  let t := trim s
  let allDigits (radix : Nat) (ds : Str) : Bool := ds.all (fun c => (digitValue radix c).isSome)
  if t = [] then some 0
  else if allDigits 10 t then some (digitsValue 10 t : Int)
  else
    match t with
    | '+' :: ds => if ds ≠ [] ∧ allDigits 10 ds then some (digitsValue 10 ds : Int) else none
    | '-' :: ds => if ds ≠ [] ∧ allDigits 10 ds then some (-(digitsValue 10 ds : Int)) else none
    | '0' :: r :: ds =>
      let radix : Nat :=
        if r = 'x' ∨ r = 'X' then 16 else if r = 'o' ∨ r = 'O' then 8
        else if r = 'b' ∨ r = 'B' then 2 else 0
      if ds ≠ [] ∧ allDigits radix ds then some (digitsValue radix ds : Int) else none
    | _ => none

/-- One element of the array `getSessions` returns. -/
structure SessionSummary where
  protocol : Str
  id : Option Int
  portal : Str
  target_portal_group_tag : JsValue
  iqn : Str
  deriving DecidableEq

/-- Body of the `forEach` callback of `getSessions` for a non-empty entry. -/
def sessionOfEntry (entry : Str) : Except JsError SessionSummary :=
  let fields := splitOn ' ' entry
  match fields[1]?, fields[2]?, fields[3]? with
  | some f1, some f2, some f3 =>
    Except.ok
      { protocol := (splitOn ':' entry).headD [],
        id := toNumber (removeFirst ']' (removeFirst '[' f1)),
        portal := (splitOn ',' f2).headD [],
        target_portal_group_tag := JsValue.ofOption (splitOn ',' f2)[1]?,
        iqn := trim f3 }
  | _, _, _ => Except.error JsError.typeError

/-- The `forEach` of `getSessions`, pushing onto `sessions`; empty entries
are skipped. -/
def sessionsLoop : List Str → List SessionSummary → Except JsError (List SessionSummary)
  | [], sessions => Except.ok sessions
  | entry :: entries, sessions =>
    if entry = [] then sessionsLoop entries sessions
    else
      match sessionOfEntry entry with
      | Except.error e => Except.error e
      | Except.ok s => sessionsLoop entries (sessions ++ [s])

/-- The `try`/`catch` around the session listing: exit code 21 (no active
sessions) is taken as the result. -/
def sessionListingResult (outcome : ExecOutcome) : Except JsError ExecResult :=
  match outcome with
  | ExecOutcome.resolved result => Except.ok result
  | ExecOutcome.rejected err =>
    if err.code = some 21 then Except.ok err else Except.error (JsError.rejected err)

/-- The parsing part of `getSessions`, from the text of `stdout`. -/
def sessionsOfStdout (stdout : Str) : Except JsError (List SessionSummary) :=
  if stdout = [] then Except.ok []
  else sessionsLoop (splitOn '\n' (trim stdout)) []

/-- The method `iscsiadm.getSessions`, given how the tool invocation settled. -/
def getSessions (outcome : ExecOutcome) : Except JsError (List SessionSummary) :=
  match sessionListingResult outcome with
  | Except.error e => Except.error e
  | Except.ok result => sessionsOfStdout result.stdout

/-! ## Session resolver -/

/-- The string put in place of an address that could not be resolved. -/
def unmatchable : Str := "--------------------------------------".toList

/-- The value of `parsedPortalHostIP` after both `if` statements of
`getSession`. -/
def resolvedHostIP (isIP : Str → Nat) (hostname_lookup : Str → Option Str)
    (parsedPortal : Portal) : Str :=
  let parsedPortalHostIP : Str :=
    if parsedPortal.host ≠ [] then
      if isIP parsedPortal.host = 0 then (hostname_lookup parsedPortal.host).getD []
      else []
    else []
  if parsedPortalHostIP = [] then unmatchable else parsedPortalHostIP

/-- The condition of the `if` inside the `every` callback of `getSession`. -/
def sessionMatches (tgtIQN portal : Str) (parsedPortal : Portal) (parsedPortalHostIP : Str)
    (i_session : SessionSummary) : Bool :=
  i_session.iqn == tgtIQN &&
    (portal == i_session.portal ||
      parsedPortal.host ++ ':' :: numberToStr parsedPortal.port == i_session.portal ||
      parsedPortalHostIP ++ ':' :: numberToStr parsedPortal.port == i_session.portal ||
      '[' :: parsedPortal.host ++ ']' :: ':' :: numberToStr parsedPortal.port
        == i_session.portal ||
      '[' :: parsedPortalHostIP ++ ']' :: ':' :: numberToStr parsedPortal.port
        == i_session.portal)

/-- The `sessions.every` scan of `getSession`: it stops at the first session
the callback accepts; `none` is the initial `false`. -/
def everyLoop (accepts : SessionSummary → Bool) : List SessionSummary → Option SessionSummary
  | [] => none
  | i_session :: sessions => if accepts i_session then some i_session else everyLoop accepts sessions

/-- The method `iscsiadm.getSession` on the list `getSessions` returned. -/
def getSession (isIP : Str → Nat) (hostname_lookup : Str → Option Str)
    (sessions : List SessionSummary) (tgtIQN portal : Str) : Option SessionSummary :=
  let parsedPortal := parsePortal portal
  let parsedPortalHostIP := resolvedHostIP isIP hostname_lookup parsedPortal
  everyLoop (sessionMatches tgtIQN portal parsedPortal parsedPortalHostIP) sessions

/-! ## Session rescan -/

/-- A session id as JavaScript holds it. -/
inductive IdValue where
  | num (n : Int)
  | nan
  | undefined
  deriving DecidableEq

/-- The argument of `rescanSession`: a bare id, or a session record with its
`id` property. -/
inductive SessionArg where
  | bare (id : IdValue)
  | record (id : IdValue)
  deriving DecidableEq

/-- What `rescanSession` did: the value or error it settled with, and the `sid`
handed to the tool when the tool was invoked. -/
structure RescanRun where
  result : Except JsError Bool
  issued : Option IdValue
  deriving DecidableEq

/-- The comparison `session > 0`: a record converts to `NaN`. -/
def greaterThanZero : SessionArg → Bool
  | SessionArg.bare (IdValue.num n) => decide (0 < n)
  | SessionArg.bare IdValue.nan => false
  | SessionArg.bare IdValue.undefined => false
  | SessionArg.record _ => false

/-- The comparison `session !== 0`. -/
def notStrictlyZero : SessionArg → Bool
  | SessionArg.bare (IdValue.num n) => decide (n ≠ 0)
  | _ => true

/-- The method `iscsiadm.rescanSession`; `exec` is how the tool invocation
settles if it is made. -/
def rescanSession (exec : ExecOutcome) (session : SessionArg) : RescanRun :=
  let sid : IdValue :=
    match session with
    | SessionArg.record id => id
    | SessionArg.bare id => id
  if notStrictlyZero session && greaterThanZero session then
    { result := Except.error (JsError.thrown "cannot scan empty session id".toList),
      issued := none }
  else
    match exec with
    | ExecOutcome.rejected err =>
      { result := Except.error (JsError.rejected err), issued := some sid }
    | ExecOutcome.resolved _ => { result := Except.ok true, issued := some sid }

/-! ## Detailed session listing -/

/-- The variables of the grouping loop of `getSessionsDetails`.  A group holds
`currentTarget` as its first element, which is `undefined` (`none`) until a
`Target:` line has been seen. -/
structure GroupState where
  currentTarget : Option Str
  sessionGroups : List (List (Option Str))
  currentSession : List (Option Str)
  deriving DecidableEq

/-- The `if`/`else if`/`else` of the grouping loop for one entry. -/
def groupStep (st : GroupState) (entry : Str) : GroupState :=
  if startsWith entry "Target:".toList then
    { st with currentTarget := some entry }
  else if startsWith (trim entry) "Current Portal:".toList then
    { currentTarget := st.currentTarget,
      sessionGroups :=
        if st.currentSession.length > 0 then st.sessionGroups ++ [st.currentSession]
        else st.sessionGroups,
      currentSession := [st.currentTarget, some entry] }
  else
    { st with currentSession := st.currentSession ++ [some entry] }

/-- The grouping loop over the entries from index `i` on; the test
`i + 1 == entries.length` holds when no entry follows. -/
def groupLoop : List Str → GroupState → List (List (Option Str))
  | [], st => st.sessionGroups
  | entry :: entries, st =>
    let st := groupStep st entry
    if entries = [] then st.sessionGroups ++ [st.currentSession]
    else groupLoop entries st

/-- The line-grouping stage of `getSessionsDetails` on the entries left after
the two `shift` calls. -/
def groupSessions (entries : List Str) : List (List (Option Str)) :=
  groupLoop entries { currentTarget := none, sessionGroups := [], currentSession := [] }

/-- A record of `host.devices`. -/
structure Device where
  channel : JsValue
  id : JsValue
  lun : JsValue
  attached_scsi_disk : Str
  state : Str
  deriving DecidableEq

/-- The `host` object of the `attached_scsi_devices` section; `devices` is
`undefined` until a `scsi` line has been seen. -/
structure Host where
  number : Str
  state : Str
  devices : Option (List Device)
  deriving DecidableEq

/-- A property value of a section object. -/
inductive SectionValue where
  | str (s : Str)
  | host (h : Host)
  deriving DecidableEq

/-- A section object, as the list of its own properties. -/
abbrev Section := List (Str × SectionValue)

/-- A property value of a session object. -/
inductive SessionValue where
  | str (s : Str)
  | section (fields : Section)
  deriving DecidableEq

/-- A session object of `getSessionsDetails`, as the list of its own
properties.  Properties inherited from `Object.prototype` are not modelled: a
key such as `constructor` is a key like any other. -/
abbrev SessionDetail := List (Str × SessionValue)

/-- The assignment `o[key] = value`. -/
def setField {α : Type} (key : Str) (value : α) : List (Str × α) → List (Str × α)
  | [] => [(key, value)]
  | (k, v) :: o => if k = key then (key, value) :: o else (k, v) :: setField key value o

/-- The read `o[key]`. -/
def getField {α : Type} (key : Str) : List (Str × α) → Option α
  | [] => none
  | (k, v) :: o => if k = key then some v else getField key o

/-- The expression `String.prototype.concat(...new Set(line))`: the distinct
characters of `line` in order of first occurrence, after those in `seen`. -/
def uniqueChars : Str → Str → Str
  | [], seen => seen
  | c :: line, seen => if c ∈ seen then uniqueChars line seen else uniqueChars line (seen ++ [c])

/-- The section name read from the line after a line of stars. -/
def sectionName (next : Str) : Str :=
  stripNonWord (spacesToUnderscores (toLowerCase (trim next)))

/-- The variable `key` as first computed from a trimmed line. -/
def lineKey (line : Str) : Str :=
  stripNonWord (spacesToUnderscores (trim ((splitOn ':' line).headD [])))

/-- The variable `value` as first computed from a trimmed line. -/
def lineValue (line : Str) : Str := trim (afterFirst ':' line)

/-- The chain `.split("\t").slice(1).join("\t").split(":").slice(1).join(":").trim()`
that reads a `State:` value. -/
def stateOf (s : Str) : Str := trim (afterFirst ':' (afterFirst '\t' s))

/-- The statement `key.charAt(0).toLowerCase() + key.slice(1)`. -/
def lowerFirst : Str → Str
  | [] => []
  | c :: key => lowerChar c ++ key

/-- The replacement of every `[A-Z]` by an underscore and its lower case. -/
def snakeCase (key : Str) : Str :=
  key.flatMap (fun c => if isUpperAZ c then '_' :: lowerChar c else [c])

/-- The object pushed onto `host.devices` for the lines `line1` and `line2`,
where `disk` is `line2.split(" ")[3]`. -/
def deviceRecord (line1 line2 disk : Str) : Device :=
  { channel := JsValue.ofOption (splitOn ' ' line1)[2]?,
    id := JsValue.ofOption (splitOn ' ' line1)[4]?,
    lun := JsValue.ofOption (splitOn ' ' line1)[6]?,
    attached_scsi_disk := (splitOn '\t' disk).headD [],
    state := stateOf (trim line2) }

/-- The `while` loop that reads device records.  The first argument holds
`sessionLines` from index `j + 1` on, the second `host.devices`; the result is
`host.devices` at exit with `sessionLines` from the final `j + 1` on. -/
def devicesLoop : List (Option Str) → Option (List Device) →
    Except JsError (Option (List Device) × List (Option Str))
  | [], devices => Except.ok (devices, [])
  | none :: lines, devices => Except.ok (devices, none :: lines)
  | some line1 :: lines, devices =>
    if line1 ≠ [] ∧ startsWith (trim line1) "scsi".toList then
      let current : List Device := devices.getD []
      match lines with
      | [] => Except.ok (some current, [])
      | none :: lines2 => devicesLoop lines2 (some current)
      | some line2 :: lines2 =>
        if line2 ≠ [] then
          match (splitOn ' ' line2)[3]? with
          | none => Except.error JsError.typeError
          | some disk => devicesLoop lines2 (some (current ++ [deviceRecord line1 line2 disk]))
        else devicesLoop lines2 (some current)
    else Except.ok (devices, some line1 :: lines)

/-- The statement `session[currentSection] = session[currentSection] || {}`
followed by a property write on the result: a non-empty string there makes
that write a `TypeError` (the file is strict-mode code). -/
def openSection (session : SessionDetail) (currentSection : Str) : Except JsError Section :=
  match getField currentSection session with
  | none => Except.ok []
  | some (SessionValue.section fields) => Except.ok fields
  | some (SessionValue.str s) => if s = [] then Except.ok [] else Except.error JsError.typeError

/-- One iteration of the inner `for` loop of `getSessionsDetails`, `j++`
included: `entry` is `sessionLines[j]` and `lines` holds `sessionLines` from
index `j + 1` on.  The result is `sessionLines` from the next value of `j` on,
with `session` and `currentSection`. -/
def forBody (entry : Option Str) (lines : List (Option Str)) (session : SessionDetail)
    (currentSection : Option Str) :
    Except JsError (List (Option Str) × SessionDetail × Option Str) :=
  match entry with
  | none => Except.error JsError.typeError
  | some raw =>
    let line := trim raw
    if uniqueChars line [] = [ '*'] then
      match lines with
      | [] => Except.error JsError.typeError
      | none :: _ => Except.error JsError.typeError
      | some next :: lines2 => Except.ok (lines2.drop 1, session, some (sectionName next))
    else
      let key := lineKey line
      let value := lineValue line
      if currentSection.getD [] ≠ [] then
        let name := currentSection.getD []
        match openSection session name with
        | Except.error e => Except.error e
        | Except.ok fields =>
          if name = "attached_scsi_devices".toList ∧ toLowerCase key = "host_number".toList then
            let number := (splitOn '\t' value).headD []
            let state := stateOf value
            match devicesLoop lines none with
            | Except.error e => Except.error e
            | Except.ok (devices, lines2) =>
              Except.ok
                (lines2,
                  setField name
                    (SessionValue.section
                      (setField "host".toList
                        (SectionValue.host { number := number, state := state, devices := devices })
                        fields))
                    session,
                  currentSection)
          else
            let key :=
              if name = "attached_scsi_devices".toList then toLowerCase key
              else if name = "negotiated_iscsi_params".toList then snakeCase (lowerFirst key)
              else key
            Except.ok
              (lines,
                setField name
                  (SessionValue.section
                    (setField (toLowerCase key) (SectionValue.str value) fields))
                  session,
                currentSection)
      else
        let key := toLowerCase key
        let value := if key = "target".toList then (splitOn ' ' value).headD [] else value
        Except.ok
          (lines, setField (trim key) (SessionValue.str (trim value)) session, currentSection)

/-- The inner `for` loop of `getSessionsDetails` over `sessionLines` from index
`j` on, with `session` and `currentSection`.  The first argument bounds the
number of iterations. -/
def linesLoop : Nat → List (Option Str) → SessionDetail → Option Str →
    Except JsError SessionDetail
  | _, [], session, _ => Except.ok session
  | 0, _ :: _, _, _ => Except.error JsError.outOfFuel
  | fuel + 1, entry :: lines, session, currentSection =>
    match forBody entry lines session currentSection with
    | Except.error e => Except.error e
    | Except.ok (lines2, session2, currentSection2) =>
      linesLoop fuel lines2 session2 currentSection2

/-- The parse of one session group: the body of the outer `for` loop. -/
def parseSession (sessionLines : List (Option Str)) : Except JsError SessionDetail :=
  linesLoop sessionLines.length sessionLines [] none

/-- The outer `for` loop of `getSessionsDetails` over `sessionGroups`, pushing
onto `sessions`. -/
def sessionsOfGroups : List (List (Option Str)) → List SessionDetail →
    Except JsError (List SessionDetail)
  | [], sessions => Except.ok sessions
  | sessionLines :: groups, sessions =>
    match parseSession sessionLines with
    | Except.error e => Except.error e
    | Except.ok session => sessionsOfGroups groups (sessions ++ [session])

/-- The part of `getSessionsDetails` after the two `shift` calls. -/
def sessionsOfBody (entries : List Str) : Except JsError (List SessionDetail) :=
  sessionsOfGroups (groupSessions entries) []

/-- The parsing part of `getSessionsDetails`, from the text of `stdout`. -/
def sessionDetailsOfStdout (stdout : Str) : Except JsError (List SessionDetail) :=
  if stdout = [] then Except.ok []
  else sessionsOfBody ((splitOn '\n' (trim stdout)).drop 2)

/-- The method `iscsiadm.getSessionsDetails`, given how the tool invocation
settled. -/
def getSessionsDetails (outcome : ExecOutcome) : Except JsError (List SessionDetail) :=
  match sessionListingResult outcome with
  | Except.error e => Except.error e
  | Except.ok result => sessionDetailsOfStdout result.stdout

/-! ## Completion of the spawned process -/

/-- The `close` handler of `exec`: the promise settles with the exit `code`
(`none` is `null`, the time-out case) and the collected output.  A `null`
code rejects with `timeout` set; the `resolve` that follows it has no effect
on a promise already rejected. -/
def execClose (code : Option Int) (stdout stderr : Str) : ExecOutcome :=
  match code with
  | none =>
    ExecOutcome.rejected { code := none, stdout := stdout, stderr := stderr, timeout := true }
  | some c =>
    if c ≠ 0 then
      ExecOutcome.rejected
        { code := some c, stdout := stdout, stderr := stderr, timeout := false }
    else
      ExecOutcome.resolved
        { code := some c, stdout := stdout, stderr := stderr, timeout := false }

/-! ## Interface details -/

/-- Body of the `forEach` callback of `showInterface` on the object `i`. -/
def showInterfaceEntry (entry : Str) (i : List (Str × JsValue)) :
    Except JsError (List (Str × JsValue)) :=
  if startsWith entry [ '#'] then Except.ok i
  else
    let fields := splitOn '=' entry
    match fields[1]? with
    | none => Except.error JsError.typeError
    | some f1 => Except.ok (setField (trim (fields.headD [])) (getIscsiValue (JsValue.str (trim f1))) i)

/-- The `forEach` of `showInterface`. -/
def showInterfaceLoop : List Str → List (Str × JsValue) → Except JsError (List (Str × JsValue))
  | [], i => Except.ok i
  | entry :: entries, i =>
    match showInterfaceEntry entry i with
    | Except.error e => Except.error e
    | Except.ok i2 => showInterfaceLoop entries i2

/-- The method `iscsiadm.showInterface`, given how the tool invocation settled. -/
def showInterface (outcome : ExecOutcome) : Except JsError (List (Str × JsValue)) :=
  match outcome with
  | ExecOutcome.rejected err => Except.error (JsError.rejected err)
  | ExecOutcome.resolved result => showInterfaceLoop (splitOn '\n' (trim result.stdout)) []

/-! ## Target discovery -/

/-- One element of the array `discoverTargets` returns. -/
structure Target where
  portal : Str
  target_portal_group_tag : JsValue
  iqn : Str
  target : JsValue
  deriving DecidableEq

/-- Body of the `forEach` callback of `discoverTargets`. -/
def targetOfEntry (entry : Str) : Except JsError Target :=
  match (splitOn ' ' entry)[1]? with
  | none => Except.error JsError.typeError
  | some f1 =>
    Except.ok
      { portal := (splitOn ',' entry).headD [],
        target_portal_group_tag :=
          JsValue.ofOption (splitOn ',' ((splitOn ' ' entry).headD []))[1]?,
        iqn := (splitOn ':' f1).headD [],
        target := JsValue.ofOption (splitOn ':' f1)[1]? }

/-- The `forEach` of `discoverTargets`, pushing onto `targets`. -/
def targetsLoop : List Str → List Target → Except JsError (List Target)
  | [], targets => Except.ok targets
  | entry :: entries, targets =>
    match targetOfEntry entry with
    | Except.error e => Except.error e
    | Except.ok t => targetsLoop entries (targets ++ [t])

/-- The method `iscsiadm.discoverTargets`, given how the tool invocation settled. -/
def discoverTargets (outcome : ExecOutcome) : Except JsError (List Target) :=
  match outcome with
  | ExecOutcome.rejected err => Except.error (JsError.rejected err)
  | ExecOutcome.resolved result =>
    if result.stdout = [] then Except.ok []
    else targetsLoop (splitOn '\n' (trim result.stdout)) []

/-! ## Login and logout -/

/-- The method `iscsiadm.login`, given how the tool invocation settled. -/
def login (outcome : ExecOutcome) : Except JsError Bool :=
  match outcome with
  | ExecOutcome.resolved _ => Except.ok true
  | ExecOutcome.rejected err =>
    if err.code = some 15 then Except.ok true else Except.error (JsError.rejected err)

/-- The argument `portals` of `logout`: one portal, or an array of them. -/
inductive PortalsArg where
  | single (portal : Str)
  | array (portals : List Str)
  deriving DecidableEq

/-- The array the `for` loop of `logout` goes through. -/
def PortalsArg.toArray : PortalsArg → List Str
  | PortalsArg.single portal => [portal]
  | PortalsArg.array portals => portals

/-- The `for` loop of `logout` from index `i` on.  The invocation made at index
`i` for the portal `p` settles as `exec i p`.  The result comes with the
portals the tool was invoked for, in order. -/
def logoutLoop (exec : Nat → Str → ExecOutcome) : Nat → List Str →
    Except JsError Bool × List Str
  | _, [] => (Except.ok true, [])
  | i, p :: portals =>
    match exec i p with
    | ExecOutcome.resolved _ =>
      ((logoutLoop exec (i + 1) portals).1, p :: (logoutLoop exec (i + 1) portals).2)
    | ExecOutcome.rejected err =>
      if err.code = some 21 then
        ((logoutLoop exec (i + 1) portals).1, p :: (logoutLoop exec (i + 1) portals).2)
      else (Except.error (JsError.rejected err), [p])

/-- The method `iscsiadm.logout`. -/
def logout (exec : Nat → Str → ExecOutcome) (portals : PortalsArg) :
    Except JsError Bool × List Str :=
  logoutLoop exec 0 portals.toArray

/-! ## Specification vocabulary -/

/-- A decimal digit. -/
def isDigit (c : Char) : Bool := 0x30 ≤ c.toNat && c.toNat ≤ 0x39

/-- A non-empty run of decimal digits. -/
def IsDecimalNumeral (p : Str) : Prop := p ≠ [] ∧ ∀ c ∈ p, isDigit c = true

/-- The number a decimal numeral denotes. -/
def decimalValue (p : Str) : Int := (digitsValue 10 p : Int)

/-- The string has no leading and no trailing white space. -/
def NoOuterWhiteSpace (s : Str) : Prop :=
  (∀ c, s.head? = some c → isWhiteSpace c = false) ∧
  (∀ c, s.getLast? = some c → isWhiteSpace c = false)


/-- A decimal numeral without superfluous leading zeros. -/
def IsCanonicalDecimal (p : Str) : Prop :=
  IsDecimalNumeral p ∧ (p.head? = some '0' → p = [ '0'])

/-- The first character, if any, is neither white space nor an opening
bracket.  Every IPv6 literal is of this kind: it starts with a hexadecimal
digit or a colon. -/
def PlainStart (h : Str) : Prop :=
  ∀ c, h.head? = some c → c ≠ '[' ∧ isWhiteSpace c = false

/-- The address the resolver compares with: the resolved address of `host`,
or the unmatchable string when `host` is empty or a literal IP address, or
when the resolver returns nothing. -/
def resolvedAddress (isIP : Str → Nat) (hostname_lookup : Str → Option Str) (host : Str) : Str :=
  if host = [] ∨ isIP host ≠ 0 then unmatchable
  else
    match hostname_lookup host with
    | none => unmatchable
    | some ip => if ip = [] then unmatchable else ip

/-- The printed portals that a query `r` with parsed `host`, rendered `port`
and resolved address `ip` is matched against: `r`, `host:port`, `ip:port`,
`[host]:port`, `[ip]:port`. -/
def portalForms (r host port ip : Str) : List Str :=
  [r, host ++ [ ':'] ++ port, ip ++ [ ':'] ++ port,
    [ '['] ++ host ++ [ ']', ':'] ++ port, [ '['] ++ ip ++ [ ']', ':'] ++ port]

/-- The acceptance rule of the session resolver for target IQN `q` and portal
argument `r`. -/
def SessionAccepted (isIP : Str → Nat) (hostname_lookup : Str → Option Str) (q r : Str)
    (s : SessionSummary) : Prop :=
  s.iqn = q ∧
    s.portal ∈ portalForms r (parsePortal r).host (numberToStr (parsePortal r).port)
      (resolvedAddress isIP hostname_lookup (parsePortal r).host)

/-- The session `s` is the first element of `sessions` that satisfies `P`. -/
def IsFirstWith (P : SessionSummary → Prop) (sessions : List SessionSummary)
    (s : SessionSummary) : Prop :=
  ∃ before after, sessions = before ++ s :: after ∧ P s ∧ ∀ x ∈ before, ¬ P x

/-- A line that sets the current target: it starts with `Target:`. -/
def isTargetLine (e : Str) : Bool := startsWith e "Target:".toList

/-- A line that opens a session: after trimming it starts with `Current Portal:`. -/
def isPortalLine (e : Str) : Bool := startsWith (trim e) "Current Portal:".toList

/-- The number of `Current Portal:` lines of a dump body. -/
def portalCount (body : List Str) : Nat := (body.filter isPortalLine).length

/-- Every `Current Portal:` line of the entries, in order, paired with the most
recent `Target:` line before it; `target` is the one in force at the start. -/
def portalHeads : Str → List Str → List (Str × Str)
  | _, [] => []
  | target, e :: es =>
    if isTargetLine e then portalHeads e es
    else if isPortalLine e then (target, e) :: portalHeads target es
    else portalHeads target es

/-- Every session block begins with its `Current Portal:` line: no line other
than a `Target:` line comes before the first `Current Portal:` line. -/
def blocksStartWithPortal (body : List Str) : Bool :=
  (body.takeWhile (fun e => !isPortalLine e)).all isTargetLine

/-- The groups once the loop has gone through `entries`, the open group flushed. -/
def flushed (st : GroupState) (entries : List Str) : List (List (Option Str)) :=
  (entries.foldl groupStep st).sessionGroups ++ [(entries.foldl groupStep st).currentSession]

/-- The inner loop of `getSessionsDetails` resumed at the lines given, in the
state given, with as many iterations as there are lines left. -/
def parseFrom (lines : List (Option Str)) (session : SessionDetail)
    (currentSection : Option Str) : Except JsError SessionDetail :=
  linesLoop lines.length lines session currentSection

/-- A line the device scan takes as the first line of a device: it is not
empty and, once trimmed, starts with `scsi`. -/
def isScsiLine (l : Str) : Bool := decide (l ≠ []) && startsWith (trim l) "scsi".toList

/-- The lines of a device block made of the given pairs of lines. -/
def deviceBlock (pairs : List (Str × Str)) : List (Option Str) :=
  pairs.flatMap (fun p => [some p.1, some p.2])

/-- The lines after a device block do not continue it: there is no next line,
or it is not the first line of a device. -/
def StopsScan (post : List (Option Str)) : Prop :=
  ∀ l, post.head? = some (some l) → isScsiLine l = false

/-- The records of the pairs whose second line is not empty, in order. -/
def recordedDevices (pairs : List (Str × Str)) : List Device :=
  pairs.filterMap (fun p =>
    if p.2 = [] then none else ((splitOn ' ' p.2)[3]?).map (deviceRecord p.1 p.2))

/-- The session after a `Host Number` line has been read in the section
`attached_scsi_devices`, whose properties so far are `fields`: the section
gets a `host` object with the number and state of the line and the devices
given. -/
def sessionWithHost (session : SessionDetail) (fields : Section) (hostLine : Str)
    (devices : Option (List Device)) : SessionDetail :=
  setField "attached_scsi_devices".toList
    (SessionValue.section
      (setField "host".toList
        (SectionValue.host
          { number := (splitOn '\t' (lineValue (trim hostLine))).headD [],
            state := stateOf (lineValue (trim hostLine)),
            devices := devices })
        fields))
    session

/-- The value of `attached_scsi_devices.host.devices` in a session, when the
session has that section and the section has a `host` object. -/
def hostDevices (session : SessionDetail) : Option (Option (List Device)) :=
  match getField "attached_scsi_devices".toList session with
  | some (SessionValue.section fields) =>
    match getField "host".toList fields with
    | some (SectionValue.host h) => some h.devices
    | _ => none
  | _ => none

/-- The string holds no white space. -/
def NoWhiteSpace (s : Str) : Prop := ∀ c ∈ s, isWhiteSpace c = false

/-- Whether a string holds white space can be computed. -/
instance decNoWhiteSpace (s : Str) : Decidable (NoWhiteSpace s) := by
  unfold NoWhiteSpace
  infer_instance

/-- The parts of a line `proto: [n] portal,tag iqn` of the session listing, with
what may follow a further space. -/
structure SessionLine where
  proto : Str
  n : Str
  portal : Str
  tag : Str
  iqn : Str
  rest : Option Str

/-- The text of a line of the session listing. -/
def SessionLine.text (l : SessionLine) : Str :=
  l.proto ++ [ ':', ' ', '['] ++ l.n ++ [ ']', ' '] ++ l.portal ++ [ ','] ++ l.tag ++ [ ' ']
    ++ l.iqn ++ (match l.rest with
      | none => []
      | some r => ' ' :: r)

/-- The record a line of the session listing stands for. -/
def SessionLine.record (l : SessionLine) : SessionSummary :=
  { protocol := l.proto, id := some (decimalValue l.n), portal := l.portal,
    target_portal_group_tag := JsValue.str l.tag, iqn := l.iqn }

/-- The shape of the parts: `proto` without colon or white space, `n` a decimal
numeral, `portal` and `tag` without white space or comma, `iqn` not empty and
without white space, and the rest of the line without a line break. -/
def SessionLine.WellFormed (l : SessionLine) : Prop :=
  (NoWhiteSpace l.proto ∧ ':' ∉ l.proto) ∧ IsDecimalNumeral l.n ∧
  (NoWhiteSpace l.portal ∧ ',' ∉ l.portal) ∧ (NoWhiteSpace l.tag ∧ ',' ∉ l.tag) ∧
  (NoWhiteSpace l.iqn ∧ l.iqn ≠ []) ∧ ∀ r, l.rest = some r → '\n' ∉ r

/-- The entry is not skipped by `getSessions` and parses to the record `r`. -/
def ParsesTo (entry : Str) (r : SessionSummary) : Prop :=
  entry ≠ [] ∧ sessionOfEntry entry = Except.ok r

/-- The parsed value of an optional field of the interface listing with the
text given (`none` when the column has no such field): absent for the
placeholder, the text itself otherwise. -/
def optionalField : Option Str → JsValue
  | none => JsValue.undefined
  | some s => if s = emptyToken then JsValue.null else JsValue.str s

/-- The record `r` is the one the interface listing gives for the line
`entry`: the line has a second column, the name is the first column, the
transport name is the first comma-separated field of the second column as it
stands, and the four optional fields are the next four. -/
def InterfaceOf (entry : Str) (r : Interface) : Prop :=
  ∃ column, (splitOn ' ' entry)[1]? = some column ∧
    r.iface_name = (splitOn ' ' entry).headD [] ∧
    r.transport_name = (splitOn ',' column).headD [] ∧
    r.hwaddress = optionalField (splitOn ',' column)[1]? ∧
    r.ipaddress = optionalField (splitOn ',' column)[2]? ∧
    r.net_ifacename = optionalField (splitOn ',' column)[3]? ∧
    r.initiatorname = optionalField (splitOn ',' column)[4]?

/-- The invocation failed with the database contention diagnostic. -/
def isContention : ExecOutcome → Bool
  | ExecOutcome.resolved _ => false
  | ExecOutcome.rejected err => includes err.stderr contentionPhrase

/-- What an invocation that is not retried gives the caller: nothing on
success, the failure itself otherwise. -/
def surfaced : ExecOutcome → Except JsError Unit
  | ExecOutcome.resolved _ => Except.ok ()
  | ExecOutcome.rejected err => Except.error (JsError.rejected err)

/-- The parse of a group that begins with the lines `pre` stands, once these
are read, at the line after them with the session and section given, whatever
the lines that follow. -/
def Reaches (pre : List (Option Str)) (session : SessionDetail) (currentSection : Option Str) :
    Prop :=
  ∀ rest, parseSession (pre ++ rest) = parseFrom rest session currentSection

/-- The invocation of `logout` for one portal does not stop the loop: it
succeeded, or it failed with exit code 21 (no matching session). -/
def isBenignLogout : ExecOutcome → Bool
  | ExecOutcome.resolved _ => true
  | ExecOutcome.rejected err => decide (err.code = some 21)

/-- A line that, after trimming, is not empty and consists only of `*`. -/
def IsStarLine (raw : Str) : Prop := trim raw ≠ [] ∧ ∀ c ∈ trim raw, c = '*'

/-- The key under which a key/value line is stored in the section `name`, from
the key first computed from the line. -/
def storedKey (name key : Str) : Str :=
  toLowerCase
    (if name = "attached_scsi_devices".toList then toLowerCase key
     else if name = "negotiated_iscsi_params".toList then snakeCase (lowerFirst key)
     else key)

/-- An ASCII letter or digit. -/
def isAsciiAlnum (c : Char) : Bool :=
  (0x41 ≤ c.toNat && c.toNat ≤ 0x5A) || (0x61 ≤ c.toNat && c.toNat ≤ 0x7A) ||
  (0x30 ≤ c.toNat && c.toNat ≤ 0x39)

/-- The lower case of an ASCII character. -/
def asciiLower (c : Char) : Char := if isUpperAZ c then Char.ofNat (c.toNat + 32) else c

/-- The key of the section `negotiated_iscsi_params` for the key `K` of the
line: the first character in lower case, every later upper-case letter replaced
by `_` and its lower case, the other characters as they are. -/
def negotiatedKey : Str → Str
  | [] => []
  | c :: rest =>
    asciiLower c :: rest.flatMap (fun d => if isUpperAZ d then [ '_', asciiLower d] else [d])

/-- An ASCII character that is not an upper-case letter. -/
def IsLowerAscii (c : Char) : Prop := isUpperAZ c = false ∧ c.toNat < 128

/-- The key of a top-level line whose text before the first colon is `a`: the
trimmed text with spaces turned into `_`, non-word characters removed, in
lower case. -/
def topLevelKey (a : Str) : Str := toLowerCase (stripNonWord (spacesToUnderscores (trim a)))

/-- The string is made of tab characters only. -/
def AllTabs (w : Str) : Prop := ∀ c ∈ w, c = '\t'

/-- Whether a string is made of tabs can be computed. -/
instance decAllTabs (w : Str) : Decidable (AllTabs w) := by
  unfold AllTabs
  infer_instance

/-- The parts of a device pair of the canonical shape: the first line
`<lead1>scsi<h> Channel <c> Id <i> Lun: <l>` and the second line
`<lead2>Attached scsi disk <d><gap>State: <s>`. -/
structure DevicePair where
  lead1 : Str
  h : Str
  c : Str
  i : Str
  l : Str
  lead2 : Str
  d : Str
  gap : Str
  s : Str
  deriving DecidableEq

/-- The first line of a device pair. -/
def DevicePair.line1 (p : DevicePair) : Str :=
  p.lead1 ++ "scsi".toList ++ p.h ++ " Channel ".toList ++ p.c ++ " Id ".toList ++ p.i
    ++ " Lun: ".toList ++ p.l

/-- The second line of a device pair. -/
def DevicePair.line2 (p : DevicePair) : Str :=
  p.lead2 ++ "Attached scsi disk ".toList ++ p.d ++ p.gap ++ "State: ".toList ++ p.s

/-- The two lines of a device pair. -/
def DevicePair.lines (p : DevicePair) : Str × Str := (p.line1, p.line2)

/-- The record a device pair stands for. -/
def DevicePair.record (p : DevicePair) : Device :=
  { channel := JsValue.str p.c, id := JsValue.str p.i, lun := JsValue.str p.l,
    attached_scsi_disk := p.d, state := p.s }

/-- The canonical shape of a device pair: the leading parts and the gap before
`State:` are tabs, the gap not empty; `h`, `c`, `i`, `l` and `d` hold no space
and no tab; `s` holds no white space. -/
def DevicePair.Canonical (p : DevicePair) : Prop :=
  AllTabs p.lead1 ∧ AllTabs p.lead2 ∧ (AllTabs p.gap ∧ p.gap ≠ []) ∧
  (' ' ∉ p.h ∧ '\t' ∉ p.h) ∧ (' ' ∉ p.c ∧ '\t' ∉ p.c) ∧ (' ' ∉ p.i ∧ '\t' ∉ p.i) ∧
  (' ' ∉ p.l ∧ '\t' ∉ p.l) ∧ (' ' ∉ p.d ∧ '\t' ∉ p.d) ∧ NoWhiteSpace p.s

/-- The line `<lead>Host Number: <n><tab>State: <t>`. -/
def hostLineText (lead n t : Str) : Str :=
  lead ++ "Host Number: ".toList ++ n ++ '\t' :: "State: ".toList ++ t

/-- What `trim` leaves of a space followed by a token at the end of a line. -/
def endToken (t : Str) : Str := if t = [] then [] else ' ' :: t

/-- Whether a device pair has the canonical shape can be computed. -/
instance decCanonical (p : DevicePair) : Decidable p.Canonical := by
  unfold DevicePair.Canonical
  infer_instance

/-- A group with its seeded first element removed: a group opened by a
`Current Portal:` line, which stands second in it, loses its first element;
any other group is left as it is. -/
def unseed : List (Option Str) → List (Option Str)
  | seed :: some p :: rest => if isPortalLine p then some p :: rest else seed :: some p :: rest
  | g => g

/-- A group not opened by a `Current Portal:` line: it holds lines only, none
of them a `Target:` line or a `Current Portal:` line. -/
def Unseeded (g : List (Option Str)) : Prop :=
  ∀ x ∈ g, ∃ e, x = some e ∧ isTargetLine e = false ∧ isPortalLine e = false

/-- A group opened by a `Current Portal:` line: its first element is the seed,
`undefined` or a `Target:` line, its second the `Current Portal:` line, and the
others are lines of neither kind. -/
def Seeded (g : List (Option Str)) : Prop :=
  ∃ seed p rest, g = seed :: some p :: rest ∧ (∀ t, seed = some t → isTargetLine t = true) ∧
    isTargetLine p = false ∧ isPortalLine p = true ∧ Unseeded rest

/-- The lines held by the groups of a state of the grouping loop, the open
group included, seeds removed. -/
def linesOf (st : GroupState) : List (Option Str) :=
  (st.sessionGroups ++ [st.currentSession]).flatMap unseed

/-- The shape of the groups in a state of the grouping loop. -/
def GroupInv (st : GroupState) : Prop :=
  (∀ g ∈ st.sessionGroups, Unseeded g ∨ Seeded g) ∧
  (Unseeded st.currentSession ∨ Seeded st.currentSession) ∧
  ∀ t, st.currentTarget = some t → isTargetLine t = true
/-! ## Lemmas on strings -/

theorem isWhiteSpace_of_isDigit {c : Char} (h : isDigit c = true) : isWhiteSpace c = false := by
  simp only [isDigit, Bool.and_eq_true, decide_eq_true_eq] at h
  simp only [isWhiteSpace, Bool.or_eq_false_iff, beq_eq_false_iff_ne, Bool.and_eq_false_iff,
    decide_eq_false_iff_not, ne_eq]
  omega

theorem trimStart_eq_self (s : Str) (h : ∀ c, s.head? = some c → isWhiteSpace c = false) :
    trimStart s = s := by
  cases s with
  | nil => rfl
  | cons c t =>
    have hc := h c (by simp)
    simp [trimStart, List.dropWhile_cons, hc]

theorem trimEnd_eq_self (s : Str) (h : ∀ c, s.getLast? = some c → isWhiteSpace c = false) :
    trimEnd s = s := by
  rcases List.eq_nil_or_concat s with rfl | ⟨t, c, rfl⟩
  · rfl
  · have hc := h c (by simp)
    simp [trimEnd, List.dropWhile_cons, hc]

theorem trim_eq_self (s : Str) (h : NoOuterWhiteSpace s) : trim s = s := by
  unfold trim
  rw [trimStart_eq_self s h.1, trimEnd_eq_self s h.2]

theorem startsWith_cons_singleton (c d : Char) (s : Str) :
    startsWith (c :: s) [d] = (c == d) := by
  simp [startsWith]

theorem lastIndexOfFrom_not_mem (c : Char) (s : Str) (i : Nat) (last : Int) (h : c ∉ s) :
    lastIndexOfFrom c s i last = last := by
  induction s generalizing i last with
  | nil => rfl
  | cons x t ih =>
    have hx : x ≠ c := fun e => h (by simp [e])
    have ht : c ∉ t := fun e => h (by simp [e])
    simp [lastIndexOfFrom, hx, ih _ _ ht]

theorem lastIndexOfFrom_append (c : Char) (a b : Str) (i : Nat) (last : Int) (h : c ∉ b) :
    lastIndexOfFrom c (a ++ c :: b) i last = ((i + a.length : Nat) : Int) := by
  induction a generalizing i last with
  | nil => simp [lastIndexOfFrom, lastIndexOfFrom_not_mem c b _ _ h]
  | cons x t ih =>
    show lastIndexOfFrom c (t ++ c :: b) (i + 1) _ = _
    rw [ih, List.length_cons]
    congr 1
    omega

theorem lastIndexOf_append (c : Char) (a b : Str) (h : c ∉ b) :
    lastIndexOf c (a ++ c :: b) = (a.length : Int) := by
  simp [lastIndexOf, lastIndexOfFrom_append c a b 0 (-1) h]

theorem lastIndexOf_not_mem (c : Char) (s : Str) (h : c ∉ s) : lastIndexOf c s = -1 :=
  lastIndexOfFrom_not_mem c s 0 (-1) h

theorem indexOfFrom_append (c : Char) (a b : Str) (i : Nat) (h : c ∉ a) :
    indexOfFrom c (a ++ c :: b) i = ((i + a.length : Nat) : Int) := by
  induction a generalizing i with
  | nil => simp [indexOfFrom]
  | cons x t ih =>
    have hx : x ≠ c := fun e => h (by simp [e])
    have ht : c ∉ t := fun e => h (by simp [e])
    show (if x = c then (i : Int) else indexOfFrom c (t ++ c :: b) (i + 1)) = _
    rw [if_neg hx, ih _ ht, List.length_cons]
    congr 1
    omega

theorem indexOf_append (c : Char) (a b : Str) (h : c ∉ a) :
    indexOf c (a ++ c :: b) = (a.length : Int) := by
  simp [indexOf, indexOfFrom_append c a b 0 h]

theorem digitValue_of_isDigit {c : Char} (h : isDigit c = true) :
    digitValue 10 c = some (c.toNat - 0x30) := by
  simp only [isDigit, Bool.and_eq_true, decide_eq_true_eq] at h
  have h2 : c.toNat - 0x30 < 10 := by omega
  simp [digitValue, h, h2]

theorem takeWhile_digits (p : Str) (h : ∀ c ∈ p, isDigit c = true) :
    p.takeWhile (fun c => (digitValue 10 c).isSome) = p := by
  rw [List.takeWhile_eq_self_iff]
  intro c hc
  simp [digitValue_of_isDigit (h c hc)]

theorem parseInt_decimal (p : Str) (h : IsDecimalNumeral p) :
    parseInt p = some (decimalValue p) := by
  obtain ⟨hne, hd⟩ := h
  cases p with
  | nil => exact absurd rfl hne
  | cons c t =>
    have hc := hd c (by simp)
    have hws := isWhiteSpace_of_isDigit hc
    have hc2 := hc
    simp only [isDigit, Bool.and_eq_true, decide_eq_true_eq] at hc2
    have hm : c ≠ '-' := by
      rintro rfl; revert hc; decide
    have hp : c ≠ '+' := by
      rintro rfl; revert hc; decide
    have hx : startsWith (c :: t) [ '0', 'x'] = false := by
      cases t with
      | nil => simp [startsWith]
      | cons d u =>
        have hdd := hd d (by simp)
        have : d ≠ 'x' := by rintro rfl; revert hdd; decide
        simp [startsWith, this]
    have hX : startsWith (c :: t) [ '0', 'X'] = false := by
      cases t with
      | nil => simp [startsWith]
      | cons d u =>
        have hdd := hd d (by simp)
        have : d ≠ 'X' := by rintro rfl; revert hdd; decide
        simp [startsWith, this]
    have htw := takeWhile_digits (c :: t) hd
    simp only [parseInt, trimStart, List.dropWhile_cons, hws, List.head?_cons, Option.some.injEq,
      hm, hp, or_self, if_false, hx, hX, Bool.or_self, Bool.false_eq_true, htw, decimalValue]
    simp

theorem not_mem_of_digits {p : Str} (h : ∀ c ∈ p, isDigit c = true) {d : Char}
    (hd : isDigit d = false) : d ∉ p := by
  intro hm
  rw [h d hm] at hd
  exact Bool.noConfusion hd

theorem getLast?_digit_not_ws {p : Str} (h : ∀ c ∈ p, isDigit c = true) (a : Str) (c : Char)
    (hne : p ≠ []) (hc : (a ++ p).getLast? = some c) : isWhiteSpace c = false := by
  rw [List.getLast?_append_of_ne_nil _ hne] at hc
  exact isWhiteSpace_of_isDigit (h c (List.mem_of_getLast?_eq_some hc))

theorem startsWith_bracket_false (h : Str) (hb : h.head? ≠ some '[') (t : Str) (ht : t.head? ≠ some '[') :
    startsWith (h ++ t) [ '['] = false := by
  cases h with
  | nil =>
    cases t with
    | nil => simp [startsWith]
    | cons x u =>
      have : x ≠ '[' := fun e => ht (by simp [e])
      simp [startsWith, this]
  | cons x u =>
    have : x ≠ '[' := fun e => hb (by simp [e])
    simp [startsWith, this]

theorem parsePortal_host_colon_port (h p : Str) (hp : IsDecimalNumeral p)
    (hb : h.head? ≠ some '[') (hw : ∀ c, h.head? = some c → isWhiteSpace c = false) :
    parsePortal (h ++ ':' :: p) = { host := h, port := some (decimalValue p) } := by
  have hpne := hp.1
  have hpd := hp.2
  have hcolon : ':' ∉ p := not_mem_of_digits hpd (by decide)
  have htrim : trim (h ++ ':' :: p) = h ++ ':' :: p := by
    apply trim_eq_self
    constructor
    · intro c hc
      cases h with
      | nil =>
        simp only [List.nil_append, List.head?_cons, Option.some.injEq] at hc
        subst hc; decide
      | cons x t => exact hw c (by simpa using hc)
    · intro c hc
      have : h ++ ':' :: p = (h ++ [ ':']) ++ p := by simp
      rw [this] at hc
      exact getLast?_digit_not_ws hpd _ c hpne hc
  have hsw : startsWith (h ++ ':' :: p) [ '['] = false :=
    startsWith_bracket_false h hb (':' :: p) (by simp)
  have hli := lastIndexOf_append ':' h p hcolon
  have hne : ((h.length : Int) ≠ -1) := by omega
  simp only [parsePortal, htrim, hsw, Bool.false_eq_true, if_false, hli, ne_eq, hne,
    not_false_eq_true, if_true, Int.toNat_ofNat]
  have h1 : (h ++ ':' :: p).take h.length = h := by simp
  have h2 : (h ++ ':' :: p).drop ((h.length : Int) + 1).toNat = p := by
    have : ((h.length : Int) + 1).toNat = h.length + 1 := by omega
    rw [this]
    simp
  rw [h1, h2, if_neg hpne, parseInt_decimal p hp]

theorem parsePortal_bracketed (v p : Str) (hp : IsDecimalNumeral p) (hv : ']' ∉ v) :
    parsePortal ('[' :: v ++ ']' :: ':' :: p)
      = { host := '[' :: v ++ [ ']'], port := some (decimalValue p) } := by
  have hpne := hp.1
  have hpd := hp.2
  have htrim : trim ('[' :: v ++ ']' :: ':' :: p) = '[' :: v ++ ']' :: ':' :: p := by
    apply trim_eq_self
    constructor
    · intro c hc
      simp only [List.cons_append, List.head?_cons, Option.some.injEq] at hc
      subst hc; decide
    · intro c hc
      have : '[' :: v ++ ']' :: ':' :: p = ('[' :: v ++ [ ']', ':']) ++ p := by simp
      rw [this] at hc
      exact getLast?_digit_not_ws hpd _ c hpne hc
  have hv2 : ']' ∉ '[' :: v := by
    intro hm
    rcases List.mem_cons.1 hm with e | e
    · revert e; decide
    · exact hv e
  have hio : indexOf ']' ('[' :: v ++ ']' :: ':' :: p) = ((v.length + 1 : Nat) : Int) := by
    have := indexOf_append ']' ('[' :: v) (':' :: p) hv2
    simpa using this
  simp only [parsePortal, htrim]
  rw [hio]
  have e1 : (((v.length + 1 : Nat) : Int) + 1).toNat = v.length + 2 := by omega
  have e2 : (((v.length + 1 : Nat) : Int) + 2).toNat = v.length + 3 := by omega
  have h1 : ('[' :: v ++ ']' :: ':' :: p).take (v.length + 2) = '[' :: v ++ [ ']'] := by
    have : '[' :: v ++ ']' :: ':' :: p = ('[' :: v ++ [ ']']) ++ ':' :: p := by simp
    rw [this, List.take_left']
    simp
  have h2 : ('[' :: v ++ ']' :: ':' :: p).drop (v.length + 3) = p := by
    have : '[' :: v ++ ']' :: ':' :: p = ('[' :: v ++ [ ']', ':']) ++ p := by simp
    rw [this, List.drop_left']
    simp
  rw [e1, e2, h1, h2, if_neg hpne, parseInt_decimal p hp]
  simp [startsWith]

theorem parsePortal_bare (h : Str) (hc : ':' ∉ h) (hb : h.head? ≠ some '[')
    (hw : NoOuterWhiteSpace h) : parsePortal h = { host := h, port := some 3260 } := by
  have hsw : startsWith h [ '['] = false := by
    have := startsWith_bracket_false h hb [] (by simp)
    simpa using this
  simp [parsePortal, trim_eq_self h hw, hsw, lastIndexOf_not_mem ':' h hc]

/-- C1, as amended: with `p` a non-empty decimal numeral, `parsePortal` returns host `h`
and port `p` on `h:p` when `h` does not start with `[` and has no outer white space (the
split is at the last colon); host `[v]` with its brackets and port `p` on `[v]:p` when `v`
has no `]`; and host `h` with port 3260 on a bare `h` that has no colon, does not start
with `[` and has no leading or trailing white space. -/
theorem parsePortal_forms (h v p : Str) (hp : IsDecimalNumeral p) :
    (h.head? ≠ some '[' → NoOuterWhiteSpace h →
      parsePortal (h ++ ':' :: p) = { host := h, port := some (decimalValue p) }) ∧
    (']' ∉ v →
      parsePortal ('[' :: v ++ ']' :: ':' :: p)
        = { host := '[' :: v ++ [ ']'], port := some (decimalValue p) }) ∧
    (':' ∉ h → h.head? ≠ some '[' → NoOuterWhiteSpace h →
      parsePortal h = { host := h, port := some 3260 }) :=
  ⟨fun hb hw => parsePortal_host_colon_port h p hp hb hw.1,
    fun hv => parsePortal_bracketed v p hp hv,
    fun hc hb hw => parsePortal_bare h hc hb hw⟩

/-- C1, witness: the three forms at `10.0.0.5:3260`, `[2001:db8::1]:3260` and `10.0.0.5`. -/
theorem parsePortal_forms_witness :
    parsePortal "10.0.0.5:3260".toList = { host := "10.0.0.5".toList, port := some 3260 } ∧
    parsePortal "[2001:db8::1]:3260".toList
      = { host := "[2001:db8::1]".toList, port := some 3260 } ∧
    parsePortal "10.0.0.5".toList = { host := "10.0.0.5".toList, port := some 3260 } := by
  have hp : IsDecimalNumeral "3260".toList := ⟨by decide, by decide⟩
  have hw : NoOuterWhiteSpace "10.0.0.5".toList := ⟨by decide, by decide⟩
  have h := parsePortal_forms "10.0.0.5".toList "2001:db8::1".toList "3260".toList hp
  exact ⟨h.1 (by decide) hw, h.2.1 (by decide), h.2.2 (by decide) (by decide) hw⟩

/-- C1, counterexample: the bare host ` a` (a space, then `a`) has no colon and does not
start with `[`, yet the host returned is `a`, not the input. -/
theorem parsePortal_bare_host_counterexample :
    ':' ∉ " a".toList ∧ " a".toList.head? ≠ some '[' ∧
    parsePortal " a".toList = { host := "a".toList, port := some 3260 } ∧
    parsePortal " a".toList ≠ { host := " a".toList, port := some 3260 } := by
  decide

/-! ## Decimal rendering -/

theorem toDigitsCore_fuel (n : Nat) : ∀ (fuel : Nat) (ds : List Char), n < fuel →
    Nat.toDigitsCore 10 fuel n ds = Nat.toDigitsCore 10 (n + 1) n [] ++ ds := by
  induction n using Nat.strong_induction_on with
  | _ n ih =>
    intro fuel ds hlt
    obtain ⟨f, rfl⟩ : ∃ f, fuel = f + 1 := ⟨fuel - 1, by omega⟩
    by_cases h0 : n / 10 = 0
    · simp [Nat.toDigitsCore, h0]
    · have hn : n / 10 < n := Nat.div_lt_self (by omega) (by omega)
      have e1 := ih (n / 10) hn f (Nat.digitChar (n % 10) :: ds) (by omega)
      have e2 := ih (n / 10) hn n [Nat.digitChar (n % 10)] hn
      simp only [Nat.toDigitsCore, h0, if_false]
      rw [e1, e2]
      simp

theorem toDigits_small (n : Nat) (h : n < 10) : Nat.toDigits 10 n = [Nat.digitChar n] := by
  have h0 : n / 10 = 0 := by omega
  have h1 : n % 10 = n := by omega
  simp [Nat.toDigits, Nat.toDigitsCore, h0, h1]

theorem toDigits_step (n : Nat) (h : 10 ≤ n) :
    Nat.toDigits 10 n = Nat.toDigits 10 (n / 10) ++ [Nat.digitChar (n % 10)] := by
  have h0 : n / 10 ≠ 0 := by omega
  have hn : n / 10 < n := Nat.div_lt_self (by omega) (by omega)
  have e := toDigitsCore_fuel (n / 10) n [Nat.digitChar (n % 10)] hn
  show Nat.toDigitsCore 10 (n + 1) n [] = Nat.toDigitsCore 10 (n / 10 + 1) (n / 10) [] ++ _
  rw [← e]
  simp [Nat.toDigitsCore, h0]

theorem digitChar_of_isDigit {c : Char} (h : isDigit c = true) :
    Nat.digitChar (c.toNat - 0x30) = c := by
  simp only [isDigit, Bool.and_eq_true, decide_eq_true_eq] at h
  have hc : c = Char.ofNat c.toNat := (Char.ofNat_toNat c).symm
  rw [hc]
  generalize c.toNat = n at h
  obtain ⟨h1, h2⟩ := h
  interval_cases n <;> rfl

theorem digitsValue_append_singleton (q : Str) (c : Char) :
    digitsValue 10 (q ++ [c]) = digitsValue 10 q * 10 + (digitValue 10 c).getD 0 := by
  simp [digitsValue, List.foldl_append]

theorem foldl_digits_ge (t : Str) (a : Nat) :
    a ≤ t.foldl (fun acc c => acc * 10 + (digitValue 10 c).getD 0) a := by
  induction t generalizing a with
  | nil => simp
  | cons c t ih =>
    simp only [List.foldl_cons]
    exact le_trans (by omega) (ih _)

theorem digitsValue_pos (q : Str) (hd : ∀ c ∈ q, isDigit c = true) (hne : q ≠ [])
    (h0 : q.head? ≠ some '0') : 0 < digitsValue 10 q := by
  cases q with
  | nil => exact absurd rfl hne
  | cons c t =>
    have hc := hd c (by simp)
    have hc0 : c ≠ '0' := fun e => h0 (by simp [e])
    have hv := digitValue_of_isDigit hc
    have hpos : 0 < c.toNat - 0x30 := by
      rcases Nat.eq_zero_or_pos (c.toNat - 0x30) with hz | hz
      · exfalso
        apply hc0
        have := digitChar_of_isDigit hc
        rw [hz] at this
        exact this.symm
      · exact hz
    have := foldl_digits_ge t (0 * 10 + (digitValue 10 c).getD 0)
    simp only [digitsValue, List.foldl_cons]
    rw [hv] at this
    simp only [hv]
    simp only [Option.getD_some] at this ⊢
    omega

theorem toDigits_digitsValue (p : Str) (hd : ∀ c ∈ p, isDigit c = true) (hne : p ≠ [])
    (h0 : p.head? = some '0' → p = [ '0']) : Nat.toDigits 10 (digitsValue 10 p) = p := by
  induction p using List.reverseRecOn with
  | nil => exact absurd rfl hne
  | append_singleton q c ih =>
    have hc := hd c (by simp)
    have hv := digitValue_of_isDigit hc
    have hc2 := hc
    simp only [isDigit, Bool.and_eq_true, decide_eq_true_eq] at hc2
    rw [digitsValue_append_singleton, hv, Option.getD_some]
    by_cases hq : q = []
    · subst hq
      have : digitsValue 10 [] = 0 := rfl
      rw [this, toDigits_small _ (by omega)]
      simp [digitChar_of_isDigit hc]
    · have hqd : ∀ c ∈ q, isDigit c = true := fun x hx => hd x (by simp [hx])
      have hq0 : q.head? ≠ some '0' := by
        intro e
        have e2 : (q ++ [c]).head? = some '0' := by
          cases q with
          | nil => exact absurd rfl hq
          | cons x t => simpa using e
        have := h0 e2
        have hl := congrArg List.length this
        simp at hl
        exact hq hl
      have hpos := digitsValue_pos q hqd hq hq0
      have ihq := ih hqd hq (fun e => absurd e hq0)
      rw [toDigits_step _ (by omega)]
      have e1 : (digitsValue 10 q * 10 + (c.toNat - 0x30)) / 10 = digitsValue 10 q := by omega
      have e2 : (digitsValue 10 q * 10 + (c.toNat - 0x30)) % 10 = c.toNat - 0x30 := by omega
      rw [e1, e2, ihq, digitChar_of_isDigit hc]

/-! ## Session resolver -/

theorem everyLoop_eq_some (f : SessionSummary → Bool) (l : List SessionSummary)
    (s : SessionSummary) :
    everyLoop f l = some s ↔ IsFirstWith (fun x => f x = true) l s := by
  induction l with
  | nil =>
    simp only [everyLoop, IsFirstWith]
    constructor
    · intro h; cases h
    · rintro ⟨b, a, h, _⟩
      cases b <;> simp at h
  | cons x t ih =>
    by_cases hx : f x = true
    · simp only [everyLoop, hx, if_true, Option.some.injEq]
      constructor
      · rintro rfl
        exact ⟨[], t, rfl, hx, by simp⟩
      · rintro ⟨b, a, h, hs, hb⟩
        cases b with
        | nil =>
          simp only [List.nil_append, List.cons.injEq] at h
          exact h.1
        | cons y b =>
          simp only [List.cons_append, List.cons.injEq] at h
          exact absurd hx (h.1 ▸ hb y (by simp))
    · simp only [everyLoop, hx, Bool.false_eq_true, if_false, ih]
      constructor
      · rintro ⟨b, a, h, hs, hb⟩
        refine ⟨x :: b, a, by simp [h], hs, ?_⟩
        intro y hy
        rcases List.mem_cons.1 hy with e | e
        · exact e ▸ hx
        · exact hb y e
      · rintro ⟨b, a, h, hs, hb⟩
        cases b with
        | nil =>
          simp only [List.nil_append, List.cons.injEq] at h
          exact absurd hs (h.1 ▸ hx)
        | cons y b =>
          simp only [List.cons_append, List.cons.injEq] at h
          exact ⟨b, a, h.2, hs, fun z hz => hb z (by simp [hz])⟩

theorem everyLoop_eq_none (f : SessionSummary → Bool) (l : List SessionSummary) :
    everyLoop f l = none ↔ ∀ x ∈ l, ¬ f x = true := by
  induction l with
  | nil => simp [everyLoop]
  | cons x t ih =>
    by_cases hx : f x = true
    · simp [everyLoop, hx]
    · simp [everyLoop, hx, ih]

theorem resolvedHostIP_eq (isIP : Str → Nat) (hostname_lookup : Str → Option Str) (pp : Portal) :
    resolvedHostIP isIP hostname_lookup pp = resolvedAddress isIP hostname_lookup pp.host := by
  unfold resolvedHostIP resolvedAddress
  by_cases h1 : pp.host = []
  · simp [h1]
  · by_cases h2 : isIP pp.host = 0
    · cases h3 : hostname_lookup pp.host with
      | none => simp [h1, h2]
      | some ip => simp [h1, h2]
    · simp [h1, h2]

theorem sessionMatches_iff (isIP : Str → Nat) (hostname_lookup : Str → Option Str) (q r : Str)
    (s : SessionSummary) :
    sessionMatches q r (parsePortal r) (resolvedHostIP isIP hostname_lookup (parsePortal r)) s = true
      ↔ SessionAccepted isIP hostname_lookup q r s := by
  rw [resolvedHostIP_eq]
  simp only [sessionMatches, SessionAccepted, portalForms, Bool.and_eq_true, Bool.or_eq_true,
    beq_iff_eq, List.mem_cons, List.mem_singleton, List.not_mem_nil, or_false, List.append_assoc,
    List.cons_append, List.nil_append, List.singleton_append]
  constructor
  · rintro ⟨h1, h2⟩
    refine ⟨h1, ?_⟩
    rcases h2 with (((h | h) | h) | h) | h
    · exact Or.inl h.symm
    · exact Or.inr (Or.inl h.symm)
    · exact Or.inr (Or.inr (Or.inl h.symm))
    · exact Or.inr (Or.inr (Or.inr (Or.inl h.symm)))
    · exact Or.inr (Or.inr (Or.inr (Or.inr h.symm)))
  · rintro ⟨h1, h2⟩
    refine ⟨h1, ?_⟩
    rcases h2 with h | h | h | h | h
    · exact Or.inl (Or.inl (Or.inl (Or.inl h.symm)))
    · exact Or.inl (Or.inl (Or.inl (Or.inr h.symm)))
    · exact Or.inl (Or.inl (Or.inr h.symm))
    · exact Or.inl (Or.inr h.symm)
    · exact Or.inr h.symm

/-- C2: for every session list, target IQN `q` and portal argument `r`, `getSession`
returns `s` exactly when `s` is the first session in list order whose IQN is `q` and whose
printed portal is one of `r`, `host:port`, `ip:port`, `[host]:port`, `[ip]:port`; and it
returns the no-match value exactly when no session of the list satisfies that rule. -/
theorem getSession_first_match (isIP : Str → Nat) (hostname_lookup : Str → Option Str)
    (sessions : List SessionSummary) (q r : Str) :
    (∀ s, getSession isIP hostname_lookup sessions q r = some s ↔
      IsFirstWith (SessionAccepted isIP hostname_lookup q r) sessions s) ∧
    (getSession isIP hostname_lookup sessions q r = none ↔
      ∀ s ∈ sessions, ¬ SessionAccepted isIP hostname_lookup q r s) := by
  constructor
  · intro s
    simp only [getSession, everyLoop_eq_some, IsFirstWith, sessionMatches_iff]
  · simp only [getSession, everyLoop_eq_none, sessionMatches_iff]

theorem numberToStr_decimalValue (p : Str) (hp : IsCanonicalDecimal p) :
    numberToStr (some (decimalValue p)) = p := by
  show Nat.toDigits 10 (digitsValue 10 p) = p
  exact toDigits_digitsValue p hp.1.2 hp.1.1 hp.2

/-- C3: for every host text `h` that starts like an IPv6 literal (no leading white space, no
opening bracket), every canonical decimal port `p` and every IQN `q`, if the list holds a
session with IQN `q` and printed portal `[h]:p`, then `getSession` queried with the
unbracketed `h:p` returns a session, the first one of the list that the acceptance rule
admits, and so never the no-match value. -/
theorem getSession_bracketed_ipv6 (isIP : Str → Nat) (hostname_lookup : Str → Option Str)
    (sessions : List SessionSummary) (h p q : Str) (hh : PlainStart h)
    (hp : IsCanonicalDecimal p)
    (hex : ∃ s ∈ sessions, s.iqn = q ∧ s.portal = [ '['] ++ h ++ [ ']', ':'] ++ p) :
    ∃ s, getSession isIP hostname_lookup sessions q (h ++ [ ':'] ++ p) = some s ∧
      IsFirstWith (SessionAccepted isIP hostname_lookup q (h ++ [ ':'] ++ p)) sessions s := by
  have hpp : parsePortal (h ++ [ ':'] ++ p) = { host := h, port := some (decimalValue p) } := by
    have := parsePortal_host_colon_port h p hp.1
      (fun e => (hh _ e).1 rfl) (fun c e => (hh c e).2)
    simpa using this
  obtain ⟨s0, hs0, hiqn, hportal⟩ := hex
  have hacc : SessionAccepted isIP hostname_lookup q (h ++ [ ':'] ++ p) s0 := by
    refine ⟨hiqn, ?_⟩
    rw [hpp]
    simp only [numberToStr_decimalValue p hp, portalForms, hportal]
    simp
  cases hg : getSession isIP hostname_lookup sessions q (h ++ [ ':'] ++ p) with
  | none =>
    exfalso
    simp only [getSession, everyLoop_eq_none, sessionMatches_iff] at hg
    exact hg s0 hs0 hacc
  | some s =>
    refine ⟨s, rfl, ?_⟩
    simpa only [getSession, everyLoop_eq_some, sessionMatches_iff] using hg

/-- C3, witness: the session printed as `[2001:123:456::1]:3260` is found by the query
`2001:123:456::1:3260`. -/
theorem getSession_bracketed_ipv6_witness :
    ∃ s, getSession (fun _ => 6) (fun _ => none)
        [{ protocol := "tcp".toList, id := some 111, portal := "[2001:123:456::1]:3260".toList,
           target_portal_group_tag := JsValue.str "1".toList, iqn := "iqn.a:b".toList }]
        "iqn.a:b".toList ("2001:123:456::1".toList ++ [ ':'] ++ "3260".toList) = some s ∧
      IsFirstWith
        (SessionAccepted (fun _ => 6) (fun _ => none) "iqn.a:b".toList
          ("2001:123:456::1".toList ++ [ ':'] ++ "3260".toList))
        [{ protocol := "tcp".toList, id := some 111, portal := "[2001:123:456::1]:3260".toList,
           target_portal_group_tag := JsValue.str "1".toList, iqn := "iqn.a:b".toList }] s :=
  getSession_bracketed_ipv6 (fun _ => 6) (fun _ => none) _ "2001:123:456::1".toList
    "3260".toList "iqn.a:b".toList
    (by intro c hc; simp only [String.toList, List.head?_cons, Option.some.injEq] at hc
        subst hc; decide)
    ⟨⟨by decide, by decide⟩, by decide⟩
    ⟨_, List.mem_singleton_self _, rfl, by decide⟩

/-! ## Grouping of the detailed dump -/

theorem dropWhile_append_singleton (f : Char → Bool) (r : Str) (c : Char) (hc : f c = false) :
    (r ++ [c]).dropWhile f = r.dropWhile f ++ [c] := by
  induction r with
  | nil => simp [List.dropWhile, hc]
  | cons x t ih =>
    by_cases hx : f x = true
    · simp [List.dropWhile_cons, hx, ih]
    · simp [List.dropWhile_cons, hx]

theorem trim_cons_of_not_ws (c : Char) (s : Str) (hc : isWhiteSpace c = false) :
    ∃ t, trim (c :: s) = c :: t := by
  refine ⟨(s.reverse.dropWhile isWhiteSpace).reverse, ?_⟩
  have h1 : trimStart (c :: s) = c :: s := by simp [trimStart, List.dropWhile_cons, hc]
  simp [trim, h1, trimEnd, dropWhile_append_singleton _ _ _ hc]

theorem isPortalLine_of_isTargetLine (e : Str) (h : isTargetLine e = true) :
    isPortalLine e = false := by
  cases e with
  | nil => revert h; decide
  | cons c s =>
    have hc : c = 'T' := by
      simp only [isTargetLine, String.toList, startsWith, Bool.and_eq_true, beq_iff_eq] at h
      exact h.1
    subst hc
    obtain ⟨t, ht⟩ := trim_cons_of_not_ws 'T' s (by decide)
    simp [isPortalLine, ht, startsWith]

theorem groupStep_target (st : GroupState) (e : Str) (h : isTargetLine e = true) :
    groupStep st e = { st with currentTarget := some e } := by
  have h1 : startsWith e "Target:".toList = true := h
  rw [groupStep, if_pos h1]

theorem groupStep_portal (st : GroupState) (e : Str) (h1 : isTargetLine e = false)
    (h2 : isPortalLine e = true) :
    groupStep st e =
      { currentTarget := st.currentTarget,
        sessionGroups :=
          if st.currentSession.length > 0 then st.sessionGroups ++ [st.currentSession]
          else st.sessionGroups,
        currentSession := [st.currentTarget, some e] } := by
  have h3 : ¬ startsWith e "Target:".toList = true := by
    intro h; rw [isTargetLine, h] at h1; exact Bool.noConfusion h1
  have h4 : startsWith (trim e) "Current Portal:".toList = true := h2
  rw [groupStep, if_neg h3, if_pos h4]

theorem groupStep_other (st : GroupState) (e : Str) (h1 : isTargetLine e = false)
    (h2 : isPortalLine e = false) :
    groupStep st e = { st with currentSession := st.currentSession ++ [some e] } := by
  have h3 : ¬ startsWith e "Target:".toList = true := by
    intro h; rw [isTargetLine, h] at h1; exact Bool.noConfusion h1
  have h4 : ¬ startsWith (trim e) "Current Portal:".toList = true := by
    intro h; rw [isPortalLine, h] at h2; exact Bool.noConfusion h2
  rw [groupStep, if_neg h3, if_neg h4]

theorem groupLoop_eq_flushed (entries : List Str) (st : GroupState) (h : entries ≠ []) :
    groupLoop entries st = flushed st entries := by
  induction entries generalizing st with
  | nil => exact absurd rfl h
  | cons e es ih =>
    by_cases hes : es = []
    · subst hes
      simp [groupLoop, flushed]
    · simp only [groupLoop, hes, if_false]
      rw [ih _ hes]
      simp [flushed]

theorem flushed_cons (st : GroupState) (e : Str) (es : List Str) :
    flushed st (e :: es) = flushed (groupStep st e) es := rfl

theorem portalHeads_length (target : Str) (es : List Str) :
    (portalHeads target es).length = portalCount es := by
  induction es generalizing target with
  | nil => rfl
  | cons e es ih =>
    by_cases h1 : isTargetLine e = true
    · have h2 := isPortalLine_of_isTargetLine e h1
      simp only [portalHeads, h1, if_true, portalCount, List.filter_cons, h2, ih]
      simp [portalCount]
    · by_cases h2 : isPortalLine e = true
      · simp [portalHeads, h1, h2, portalCount, List.filter_cons, ih]
      · simp [portalHeads, h1, h2, portalCount, List.filter_cons, ih]

theorem take_two_append (l : List (Option Str)) (x : Option Str) (h : 2 ≤ l.length) :
    (l ++ [x]).take 2 = l.take 2 := by
  match l, h with
  | a :: b :: t, _ => rfl

theorem flushed_heads_open (es : List Str) (st : GroupState) (target : Str)
    (hct : st.currentTarget = some target) (hlen : 2 ≤ st.currentSession.length) :
    (flushed st es).map (List.take 2) =
      (st.sessionGroups ++ [st.currentSession]).map (List.take 2) ++
        (portalHeads target es).map (fun te => [some te.1, some te.2]) := by
  induction es generalizing st target with
  | nil => simp [flushed, portalHeads]
  | cons e es ih =>
    rw [flushed_cons]
    by_cases h1 : isTargetLine e = true
    · rw [groupStep_target st e h1, ih { st with currentTarget := some e } e rfl hlen]
      simp [portalHeads, h1]
    · have h1f : isTargetLine e = false := by simpa using h1
      by_cases h2 : isPortalLine e = true
      · have hpos : st.currentSession.length > 0 := by omega
        rw [ih (groupStep st e) target (by rw [groupStep_portal st e h1f h2]; exact hct)
          (by rw [groupStep_portal st e h1f h2]; simp), groupStep_portal st e h1f h2]
        simp [portalHeads, h1, h2, hpos, hct]
      · have h2f : isPortalLine e = false := by simpa using h2
        rw [ih (groupStep st e) target (by rw [groupStep_other st e h1f h2f]; exact hct)
          (by rw [groupStep_other st e h1f h2f]; simp; omega), groupStep_other st e h1f h2f]
        simp [portalHeads, h1, h2, take_two_append _ _ hlen]

theorem flushed_heads_closed (es : List Str) (st : GroupState) (target : Str)
    (hct : st.currentTarget = some target) (hcur : st.currentSession = [])
    (hgs : st.sessionGroups = []) (hwf : blocksStartWithPortal es = true)
    (hN : 1 ≤ portalCount es) :
    (flushed st es).map (List.take 2) =
      (portalHeads target es).map (fun te => [some te.1, some te.2]) := by
  induction es generalizing st target with
  | nil => simp [portalCount] at hN
  | cons e es ih =>
    rw [flushed_cons]
    by_cases h1 : isTargetLine e = true
    · have h2 := isPortalLine_of_isTargetLine e h1
      have hwf2 : blocksStartWithPortal es = true := by
        simp only [blocksStartWithPortal, List.takeWhile_cons, h2, Bool.not_false, if_true,
          List.all_cons, h1, Bool.true_and] at hwf
        exact hwf
      have hN2 : 1 ≤ portalCount es := by
        simpa [portalCount, List.filter_cons, h2] using hN
      rw [groupStep_target st e h1, ih { st with currentTarget := some e } e rfl hcur hgs hwf2 hN2]
      simp [portalHeads, h1]
    · have h1f : isTargetLine e = false := by simpa using h1
      by_cases h2 : isPortalLine e = true
      · rw [flushed_heads_open es (groupStep st e) target
          (by rw [groupStep_portal st e h1f h2]; exact hct)
          (by rw [groupStep_portal st e h1f h2]; simp), groupStep_portal st e h1f h2]
        simp [portalHeads, h1, h2, hcur, hgs, hct]
      · exfalso
        have h2f : isPortalLine e = false := by simpa using h2
        simp [blocksStartWithPortal, List.takeWhile_cons, h2f, h1f] at hwf

theorem groupSessions_heads (t : Str) (rest : List Str) (ht : isTargetLine t = true)
    (hwf : blocksStartWithPortal (t :: rest) = true) (hN : 1 ≤ portalCount (t :: rest)) :
    (groupSessions (t :: rest)).map (List.take 2) =
      (portalHeads t rest).map (fun te => [some te.1, some te.2]) := by
  have h2 := isPortalLine_of_isTargetLine t ht
  have hwf2 : blocksStartWithPortal rest = true := by
    simp only [blocksStartWithPortal, List.takeWhile_cons, h2, Bool.not_false, if_true,
      List.all_cons, ht, Bool.true_and] at hwf
    exact hwf
  have hN2 : 1 ≤ portalCount rest := by
    simpa [portalCount, List.filter_cons, h2] using hN
  rw [groupSessions, groupLoop_eq_flushed _ _ (by simp), flushed_cons, groupStep_target _ _ ht]
  exact flushed_heads_closed rest _ t rfl rfl rfl hwf2 hN2

theorem sessionsOfGroups_ok (gs : List (List (Option Str))) (acc recs : List SessionDetail) :
    sessionsOfGroups gs acc = Except.ok recs ↔
      ∃ rs, recs = acc ++ rs ∧ List.Forall₂ (fun g r => parseSession g = Except.ok r) gs rs := by
  induction gs generalizing acc with
  | nil =>
    simp only [sessionsOfGroups, Except.ok.injEq]
    constructor
    · rintro rfl
      exact ⟨[], by simp, List.Forall₂.nil⟩
    · rintro ⟨rs, h, hf⟩
      cases hf
      simp [h]
  | cons g gs ih =>
    cases hg : parseSession g with
    | error e =>
      simp only [sessionsOfGroups, hg]
      constructor
      · intro h; cases h
      · rintro ⟨rs, _, hf⟩
        obtain ⟨b, u, hb, _, _⟩ := List.forall₂_cons_left_iff.1 hf
        rw [hg] at hb
        cases hb
    | ok r =>
      simp only [sessionsOfGroups, hg, ih]
      constructor
      · rintro ⟨rs, h, hf⟩
        exact ⟨r :: rs, by simp [h], List.Forall₂.cons hg hf⟩
      · rintro ⟨rs, h, hf⟩
        obtain ⟨b, u, hb, hu, rfl⟩ := List.forall₂_cons_left_iff.1 hf
        rw [hg] at hb
        cases hb
        exact ⟨u, by simp [h], hu⟩

/-- C4, as amended: for every dump body that starts with a `Target:` line, in which no other
kind of line precedes the first `Current Portal:` line, and that has `N ≥ 1`
`Current Portal:` lines, the grouping stage yields exactly `N` groups, the `i`-th beginning
with the most recent preceding `Target:` line followed by the `i`-th `Current Portal:` line;
`getSessionsDetails` returns a list of records exactly when every group parses, the `i`-th
record being the parse of the `i`-th group, and that list has exactly `N` records. -/
theorem getSessionsDetails_groups (t : Str) (rest : List Str) (ht : isTargetLine t = true)
    (hwf : blocksStartWithPortal (t :: rest) = true) (hN : 1 ≤ portalCount (t :: rest)) :
    (groupSessions (t :: rest)).length = portalCount (t :: rest) ∧
    (groupSessions (t :: rest)).map (List.take 2) =
      (portalHeads t rest).map (fun te => [some te.1, some te.2]) ∧
    (∀ recs, sessionsOfBody (t :: rest) = Except.ok recs ↔
      List.Forall₂ (fun g r => parseSession g = Except.ok r) (groupSessions (t :: rest)) recs) ∧
    (∀ recs, sessionsOfBody (t :: rest) = Except.ok recs →
      recs.length = portalCount (t :: rest)) ∧
    (∀ result : ExecResult, result.stdout ≠ [] →
      (splitOn '\n' (trim result.stdout)).drop 2 = t :: rest →
      getSessionsDetails (ExecOutcome.resolved result) = sessionsOfBody (t :: rest)) := by
  have hheads := groupSessions_heads t rest ht hwf hN
  have hlen : (groupSessions (t :: rest)).length = portalCount (t :: rest) := by
    have h := congrArg List.length hheads
    simp only [List.length_map, portalHeads_length] at h
    have h2 := isPortalLine_of_isTargetLine t ht
    simpa [portalCount, List.filter_cons, h2] using h
  have hiff : ∀ recs, sessionsOfBody (t :: rest) = Except.ok recs ↔
      List.Forall₂ (fun g r => parseSession g = Except.ok r) (groupSessions (t :: rest)) recs := by
    intro recs
    rw [sessionsOfBody, sessionsOfGroups_ok]
    constructor
    · rintro ⟨rs, h, hf⟩
      rw [List.nil_append] at h
      rw [h]
      exact hf
    · intro hf
      exact ⟨recs, rfl, hf⟩
  refine ⟨hlen, hheads, hiff, ?_, ?_⟩
  · intro recs h
    rw [← hlen]
    exact ((hiff recs).1 h).length_eq.symm
  · intro result hne hbody
    simp [getSessionsDetails, sessionListingResult, sessionDetailsOfStdout, hne, hbody]

/-- C4, witness: a body with one target and two sessions. -/
theorem getSessionsDetails_groups_witness :
    (groupSessions
      ["Target: iqn.a (non-flash)".toList, "\tCurrent Portal: 10.0.0.1:3260,1".toList,
        "\tPersistent Portal: 10.0.0.1:3260,1".toList,
        "\tCurrent Portal: 10.0.0.2:3260,1".toList]).length =
    portalCount
      ["Target: iqn.a (non-flash)".toList, "\tCurrent Portal: 10.0.0.1:3260,1".toList,
        "\tPersistent Portal: 10.0.0.1:3260,1".toList,
        "\tCurrent Portal: 10.0.0.2:3260,1".toList] :=
  (getSessionsDetails_groups "Target: iqn.a (non-flash)".toList
    ["\tCurrent Portal: 10.0.0.1:3260,1".toList, "\tPersistent Portal: 10.0.0.1:3260,1".toList,
      "\tCurrent Portal: 10.0.0.2:3260,1".toList]
    (by decide) (by decide) (by decide)).1

/-- C4, counterexample: a body that is one `Target:` line has no `Current Portal:` line, yet
one (empty) group and one (empty) record come out; and a body whose only session group ends
with a line of stars has one `Current Portal:` line, yet the call raises and returns no
record. -/
theorem getSessionsDetails_groups_counterexample :
    (isTargetLine "Target: a".toList = true ∧
      blocksStartWithPortal ["Target: a".toList] = true ∧
      portalCount ["Target: a".toList] = 0 ∧
      groupSessions ["Target: a".toList] = [[]] ∧
      sessionsOfBody ["Target: a".toList] = Except.ok [[]]) ∧
    (blocksStartWithPortal ["Target: a".toList, "Current Portal: b".toList, "***".toList] = true ∧
      portalCount ["Target: a".toList, "Current Portal: b".toList, "***".toList] = 1 ∧
      sessionsOfBody ["Target: a".toList, "Current Portal: b".toList, "***".toList]
        = Except.error JsError.typeError) := by
  decide

/-! ## The inner loop of the detailed parse -/

theorem devicesLoop_stop (post : List (Option Str)) (devices : Option (List Device))
    (h : StopsScan post) : devicesLoop post devices = Except.ok (devices, post) := by
  match post, h with
  | [], _ => rfl
  | none :: _, _ => rfl
  | some l :: rest, h =>
    have hl := h l rfl
    have hc : ¬ (l ≠ [] ∧ startsWith (trim l) "scsi".toList = true) := by
      intro ⟨h1, h2⟩
      simp only [isScsiLine, h2, Bool.and_true, decide_eq_false_iff_not] at hl
      exact hl h1
    rw [devicesLoop, if_neg hc]

theorem devicesLoop_pairs (pairs : List (Str × Str)) (post : List (Option Str))
    (hscsi : ∀ p ∈ pairs, isScsiLine p.1 = true)
    (hdisk : ∀ p ∈ pairs, p.2 ≠ [] → (splitOn ' ' p.2)[3]? ≠ none)
    (devices : Option (List Device)) :
    devicesLoop (deviceBlock pairs ++ post) devices =
      devicesLoop post
        (if pairs = [] then devices else some (devices.getD [] ++ recordedDevices pairs)) := by
  induction pairs generalizing devices with
  | nil => simp [deviceBlock]
  | cons p ps ih =>
    obtain ⟨a, b⟩ := p
    have ha := hscsi (a, b) (by simp)
    have hc : a ≠ [] ∧ startsWith (trim a) "scsi".toList = true := by
      simp only [isScsiLine, Bool.and_eq_true, decide_eq_true_eq] at ha
      exact ha
    have ih2 := ih (fun q hq => hscsi q (by simp [hq])) (fun q hq => hdisk q (by simp [hq]))
    have hblock : deviceBlock ((a, b) :: ps) ++ post
        = some a :: some b :: (deviceBlock ps ++ post) := by
      simp [deviceBlock]
    rw [hblock, devicesLoop, if_pos hc]
    by_cases hb : b = []
    · subst hb
      simp only [ne_eq, not_true_eq_false, if_false]
      rw [ih2]
      by_cases hps : ps = []
      · subst hps
        simp [recordedDevices]
      · simp [hps, recordedDevices]
    · have hd := hdisk (a, b) (by simp) hb
      obtain ⟨disk, hdk⟩ := Option.ne_none_iff_exists'.1 hd
      simp only [ne_eq, hb, not_false_eq_true, if_true, hdk]
      rw [ih2]
      have hdk2 : (splitOn ' ' b)[3]? = some disk := hdk
      by_cases hps : ps = []
      · subst hps
        simp [recordedDevices, hb, hdk2]
      · simp [hps, recordedDevices, hb, hdk2]

theorem devicesLoop_block (pairs : List (Str × Str)) (post : List (Option Str))
    (hscsi : ∀ p ∈ pairs, isScsiLine p.1 = true)
    (hdisk : ∀ p ∈ pairs, p.2 ≠ [] → (splitOn ' ' p.2)[3]? ≠ none) (hpost : StopsScan post)
    (devices : Option (List Device)) :
    devicesLoop (deviceBlock pairs ++ post) devices =
      Except.ok
        (if pairs = [] then devices else some (devices.getD [] ++ recordedDevices pairs), post) := by
  rw [devicesLoop_pairs pairs post hscsi hdisk, devicesLoop_stop post _ hpost]

theorem devicesLoop_truncated (pairs : List (Str × Str)) (a : Str)
    (hscsi : ∀ p ∈ pairs, isScsiLine p.1 = true)
    (hdisk : ∀ p ∈ pairs, p.2 ≠ [] → (splitOn ' ' p.2)[3]? ≠ none) (ha : isScsiLine a = true) :
    devicesLoop (deviceBlock pairs ++ [some a]) none =
      Except.ok (some (recordedDevices pairs), []) := by
  have hc : a ≠ [] ∧ startsWith (trim a) "scsi".toList = true := by
    simp only [isScsiLine, Bool.and_eq_true, decide_eq_true_eq] at ha
    exact ha
  rw [devicesLoop_pairs pairs [some a] hscsi hdisk, devicesLoop, if_pos hc]
  by_cases hps : pairs = []
  · subst hps
    simp [recordedDevices]
  · simp [hps]

theorem devicesLoop_length (n : Nat) : ∀ (lines : List (Option Str)) (devices d : Option (List Device))
    (rest : List (Option Str)), lines.length ≤ n →
    devicesLoop lines devices = Except.ok (d, rest) → rest.length ≤ lines.length := by
  induction n using Nat.strong_induction_on with
  | _ n ih =>
    intro lines devices d rest hn h
    match lines, hn, h with
    | [], _, h =>
      simp only [devicesLoop, Except.ok.injEq, Prod.mk.injEq] at h
      simp [← h.2]
    | none :: ls, _, h =>
      simp only [devicesLoop, Except.ok.injEq, Prod.mk.injEq] at h
      simp [← h.2]
    | some l1 :: ls, hn, h =>
      rw [devicesLoop] at h
      split at h
      · match ls, hn, h with
        | [], _, h =>
          simp only [Except.ok.injEq, Prod.mk.injEq] at h
          simp [← h.2]
        | none :: l2, hn, h =>
          simp only [List.length_cons] at hn
          have := ih l2.length (by omega) l2 _ d rest (le_refl _) h
          simp only [List.length_cons]
          omega
        | some x :: l2, hn, h =>
          simp only [List.length_cons] at hn
          simp only at h
          split at h
          · split at h
            · cases h
            · have := ih l2.length (by omega) l2 _ d rest (le_refl _) h
              simp only [List.length_cons]
              omega
          · have := ih l2.length (by omega) l2 _ d rest (le_refl _) h
            simp only [List.length_cons]
            omega
      · simp only [Except.ok.injEq, Prod.mk.injEq] at h
        simp [← h.2]

theorem devicesLoop_error (n : Nat) : ∀ (lines : List (Option Str)) (devices : Option (List Device))
    (e : JsError), lines.length ≤ n →
    devicesLoop lines devices = Except.error e → e = JsError.typeError := by
  induction n using Nat.strong_induction_on with
  | _ n ih =>
    intro lines devices e hn h
    match lines, hn, h with
    | [], _, h => simp [devicesLoop] at h
    | none :: ls, _, h => simp [devicesLoop] at h
    | some l1 :: ls, hn, h =>
      rw [devicesLoop] at h
      split at h
      · match ls, hn, h with
        | [], _, h => simp at h
        | none :: l2, hn, h =>
          simp only [List.length_cons] at hn
          exact ih l2.length (by omega) l2 _ e (le_refl _) h
        | some x :: l2, hn, h =>
          simp only [List.length_cons] at hn
          simp only at h
          split at h
          · split at h
            · simp only [Except.error.injEq] at h
              exact h.symm
            · exact ih l2.length (by omega) l2 _ e (le_refl _) h
          · exact ih l2.length (by omega) l2 _ e (le_refl _) h
      · simp at h

theorem openSection_error (session : SessionDetail) (name : Str) (e : JsError)
    (h : openSection session name = Except.error e) : e = JsError.typeError := by
  unfold openSection at h
  split at h
  · cases h
  · cases h
  · split at h
    · cases h
    · simp only [Except.error.injEq] at h
      exact h.symm

theorem forBody_length (entry : Option Str) (lines : List (Option Str)) (session : SessionDetail)
    (cs : Option Str) (lines2 : List (Option Str)) (session2 : SessionDetail) (cs2 : Option Str)
    (h : forBody entry lines session cs = Except.ok (lines2, session2, cs2)) :
    lines2.length ≤ lines.length := by
  unfold forBody at h
  split at h
  · cases h
  · simp only at h
    split at h
    · split at h
      · cases h
      · cases h
      · simp only [Except.ok.injEq, Prod.mk.injEq] at h
        rw [← h.1]
        simp only [List.length_drop, List.length_cons]
        omega
    · split at h
      · split at h
        · cases h
        · split at h
          · split at h
            · cases h
            · rename_i hd
              simp only [Except.ok.injEq, Prod.mk.injEq] at h
              rw [← h.1]
              exact devicesLoop_length _ _ _ _ _ (le_refl _) hd
          · simp only [Except.ok.injEq, Prod.mk.injEq] at h
            rw [← h.1]
      · simp only [Except.ok.injEq, Prod.mk.injEq] at h
        rw [← h.1]

theorem forBody_error (entry : Option Str) (lines : List (Option Str)) (session : SessionDetail)
    (cs : Option Str) (e : JsError) (h : forBody entry lines session cs = Except.error e) :
    e = JsError.typeError := by
  unfold forBody at h
  split at h
  · simp only [Except.error.injEq] at h
    exact h.symm
  · simp only at h
    split at h
    · split at h
      · simp only [Except.error.injEq] at h
        exact h.symm
      · simp only [Except.error.injEq] at h
        exact h.symm
      · cases h
    · split at h
      · split at h
        · rename_i ho
          simp only [Except.error.injEq] at h
          rw [← h]
          exact openSection_error _ _ _ ho
        · split at h
          · split at h
            · rename_i hd
              simp only [Except.error.injEq] at h
              rw [← h]
              exact devicesLoop_error _ _ _ _ (le_refl _) hd
            · cases h
          · cases h
      · cases h

/-- The bound on the iterations of the inner loop is never reached when it is at least the
number of lines left. -/
theorem linesLoop_fuel (fuel : Nat) : ∀ (lines : List (Option Str)) (session : SessionDetail)
    (cs : Option Str), lines.length ≤ fuel →
    linesLoop fuel lines session cs ≠ Except.error JsError.outOfFuel := by
  induction fuel with
  | zero =>
    intro lines session cs hlen
    match lines, hlen with
    | [], _ => simp [linesLoop]
  | succ f ih =>
    intro lines session cs hlen
    match lines, hlen with
    | [], _ => simp [linesLoop]
    | entry :: ls, hlen =>
      rw [linesLoop]
      cases hb : forBody entry ls session cs with
      | error e =>
        have := forBody_error _ _ _ _ _ hb
        subst this
        simp
      | ok r =>
        obtain ⟨l2, s2, c2⟩ := r
        have hl := forBody_length _ _ _ _ _ _ _ hb
        simp only [List.length_cons] at hlen
        exact ih l2 s2 c2 (by omega)

theorem linesLoop_fuel_irrelevant (f1 : Nat) : ∀ (f2 : Nat) (lines : List (Option Str))
    (session : SessionDetail) (cs : Option Str), lines.length ≤ f1 → lines.length ≤ f2 →
    linesLoop f1 lines session cs = linesLoop f2 lines session cs := by
  induction f1 with
  | zero =>
    intro f2 lines session cs h1 h2
    match lines, h1 with
    | [], _ => cases f2 <;> rfl
  | succ f ih =>
    intro f2 lines session cs h1 h2
    match lines, h1, h2 with
    | [], _, _ => cases f2 <;> rfl
    | entry :: ls, h1, h2 =>
      obtain ⟨g, rfl⟩ : ∃ g, f2 = g + 1 := ⟨f2 - 1, by simp only [List.length_cons] at h2; omega⟩
      rw [linesLoop, linesLoop]
      cases hb : forBody entry ls session cs with
      | error e => rfl
      | ok r =>
        obtain ⟨l2, s2, c2⟩ := r
        have hl := forBody_length _ _ _ _ _ _ _ hb
        simp only [List.length_cons] at h1 h2
        exact ih g l2 s2 c2 (by omega) (by omega)

theorem parseFrom_cons (entry : Option Str) (lines : List (Option Str)) (session : SessionDetail)
    (cs : Option Str) (lines2 : List (Option Str)) (session2 : SessionDetail) (cs2 : Option Str)
    (h : forBody entry lines session cs = Except.ok (lines2, session2, cs2)) :
    parseFrom (entry :: lines) session cs = parseFrom lines2 session2 cs2 := by
  have hl := forBody_length _ _ _ _ _ _ _ h
  rw [parseFrom, List.length_cons, linesLoop, h]
  exact linesLoop_fuel_irrelevant _ _ _ _ _ hl (le_refl _)

theorem mem_uniqueChars (line : Str) : ∀ (seen : Str) (c : Char), c ∈ line ∨ c ∈ seen →
    c ∈ uniqueChars line seen := by
  induction line with
  | nil =>
    intro seen c h
    rcases h with h | h
    · cases h
    · exact h
  | cons x t ih =>
    intro seen c h
    rw [uniqueChars]
    split
    · rename_i hx
      apply ih
      rcases h with h | h
      · rcases List.mem_cons.1 h with e | e
        · exact Or.inr (e ▸ hx)
        · exact Or.inl e
      · exact Or.inr h
    · apply ih
      rcases h with h | h
      · rcases List.mem_cons.1 h with e | e
        · exact Or.inr (by simp [e])
        · exact Or.inl e
      · exact Or.inr (by simp [h])

theorem all_stars_of_uniqueChars (line : Str) (h : uniqueChars line [] = [ '*']) :
    ∀ c ∈ line, c = '*' := by
  intro c hc
  have := mem_uniqueChars line [] c (Or.inl hc)
  rw [h] at this
  simpa using this

theorem mem_of_mem_head_splitOn (sep : Char) (s : Str) :
    ∀ c ∈ (splitOn sep s).headD [], c ∈ s := by
  induction s with
  | nil => intro c hc; simp [splitOn] at hc
  | cons x t ih =>
    intro c hc
    rw [splitOn] at hc
    split at hc
    · simp at hc
    · cases hs : splitOn sep t with
      | nil =>
        rw [hs] at hc
        simp only [List.headD_cons, List.mem_singleton] at hc
        simp [hc]
      | cons f fs =>
        rw [hs] at hc ih
        simp only [List.headD_cons, List.mem_cons] at hc ih
        rcases hc with e | e
        · simp [e]
        · exact List.mem_cons_of_mem _ (ih c e)

theorem mem_of_mem_trim (s : Str) : ∀ c ∈ trim s, c ∈ s := by
  intro c hc
  unfold trim trimEnd trimStart at hc
  have h1 := List.mem_reverse.1 hc
  have h2 := (List.dropWhile_suffix isWhiteSpace).subset h1
  have h3 := List.mem_reverse.1 h2
  exact (List.dropWhile_suffix isWhiteSpace).subset h3

theorem lineKey_of_stars (line : Str) (h : uniqueChars line [] = [ '*']) : lineKey line = [] := by
  have hall := all_stars_of_uniqueChars line h
  unfold lineKey stripNonWord spacesToUnderscores
  rw [List.filter_eq_nil_iff]
  intro c hc
  obtain ⟨d, hd, rfl⟩ := List.mem_map.1 hc
  have hd2 := hall d (mem_of_mem_head_splitOn ':' line d (mem_of_mem_trim _ d hd))
  subst hd2
  decide

theorem not_stars_of_hostNumber (line : Str)
    (h : toLowerCase (lineKey line) = "host_number".toList) : uniqueChars line [] ≠ [ '*'] := by
  intro hs
  rw [lineKey_of_stars line hs] at h
  revert h
  decide

theorem forBody_hostNumber (hostLine : Str) (lines : List (Option Str)) (session : SessionDetail)
    (fields : Section) (devices : Option (List Device)) (lines2 : List (Option Str))
    (hkey : toLowerCase (lineKey (trim hostLine)) = "host_number".toList)
    (hopen : openSection session "attached_scsi_devices".toList = Except.ok fields)
    (hdev : devicesLoop lines none = Except.ok (devices, lines2)) :
    forBody (some hostLine) lines session (some "attached_scsi_devices".toList) =
      Except.ok
        (lines2,
          setField "attached_scsi_devices".toList
            (SessionValue.section
              (setField "host".toList
                (SectionValue.host
                  { number := (splitOn '\t' (lineValue (trim hostLine))).headD [],
                    state := stateOf (lineValue (trim hostLine)),
                    devices := devices })
                fields))
            session,
          some "attached_scsi_devices".toList) := by
  have hstar := not_stars_of_hostNumber _ hkey
  have hne : "attached_scsi_devices".toList ≠ [] := by decide
  unfold forBody
  simp only [if_neg hstar, Option.getD_some, hopen, hkey, and_self, if_true, hdev]
  rw [if_pos hne]

theorem getField_setField {α : Type} (key : Str) (value : α) (o : List (Str × α)) :
    getField key (setField key value o) = some value := by
  induction o with
  | nil => simp [setField, getField]
  | cons kv o ih =>
    obtain ⟨k, v⟩ := kv
    by_cases h : k = key
    · simp [setField, getField, h]
    · simp [setField, getField, h, ih]

theorem hostDevices_sessionWithHost (session : SessionDetail) (fields : Section) (hostLine : Str)
    (devices : Option (List Device)) :
    hostDevices (sessionWithHost session fields hostLine devices) = some devices := by
  simp only [hostDevices, sessionWithHost, getField_setField]

/-- C5, as amended: whenever the inner loop stands at a `Host Number` line inside the
`attached_scsi_devices` section and that line is followed by a device block of pairs of
lines (the first of each pair starting, once trimmed, with `scsi`; every non-empty second
line having at least four space-separated fields) after which the scan stops, the parse goes
on after the block with `attached_scsi_devices.host.devices` holding exactly one record for
every pair whose second line is not empty, in the order of the pairs; this holds in the
parse of every group that reaches the line in that state, and it is the parsed session when
the block ends the group, also when a last `scsi` line without a second line follows the
pairs, which adds no record; the number of records is the number of pairs when no second
line is empty. -/
theorem devices_of_block (session : SessionDetail) (fields : Section) (hostLine : Str)
    (pairs : List (Str × Str)) (post : List (Option Str))
    (hkey : toLowerCase (lineKey (trim hostLine)) = "host_number".toList)
    (hopen : openSection session "attached_scsi_devices".toList = Except.ok fields)
    (hscsi : ∀ p ∈ pairs, isScsiLine p.1 = true)
    (hdisk : ∀ p ∈ pairs, p.2 ≠ [] → (splitOn ' ' p.2)[3]? ≠ none)
    (hpost : StopsScan post) :
    parseFrom (some hostLine :: (deviceBlock pairs ++ post)) session
        (some "attached_scsi_devices".toList) =
      parseFrom post
        (sessionWithHost session fields hostLine
          (if pairs = [] then none else some (recordedDevices pairs)))
        (some "attached_scsi_devices".toList) ∧
    hostDevices
        (sessionWithHost session fields hostLine
          (if pairs = [] then none else some (recordedDevices pairs))) =
      some (if pairs = [] then none else some (recordedDevices pairs)) ∧
    (∀ pre, Reaches pre session (some "attached_scsi_devices".toList) →
      parseSession (pre ++ some hostLine :: (deviceBlock pairs ++ post)) =
        parseFrom post
          (sessionWithHost session fields hostLine
            (if pairs = [] then none else some (recordedDevices pairs)))
          (some "attached_scsi_devices".toList)) ∧
    (∀ pre, Reaches pre session (some "attached_scsi_devices".toList) → post = [] →
      parseSession (pre ++ some hostLine :: (deviceBlock pairs ++ post)) =
        Except.ok
          (sessionWithHost session fields hostLine
            (if pairs = [] then none else some (recordedDevices pairs)))) ∧
    (∀ pre a, Reaches pre session (some "attached_scsi_devices".toList) → isScsiLine a = true →
      parseSession (pre ++ some hostLine :: (deviceBlock pairs ++ [some a])) =
        Except.ok (sessionWithHost session fields hostLine (some (recordedDevices pairs)))) ∧
    (recordedDevices pairs).length = (pairs.filter (fun p => decide (p.2 ≠ []))).length ∧
    ((∀ p ∈ pairs, p.2 ≠ []) → (recordedDevices pairs).length = pairs.length) := by
  have hdev := devicesLoop_block pairs post hscsi hdisk hpost none
  simp only [Option.getD_none, List.nil_append] at hdev
  have hlen : (recordedDevices pairs).length
      = (pairs.filter (fun p => decide (p.2 ≠ []))).length := by
    clear hdev hscsi
    induction pairs with
    | nil => rfl
    | cons p ps ih =>
      have ih2 := ih (fun q hq => hdisk q (by simp [hq]))
      by_cases hb : p.2 = []
      · simp only [recordedDevices, List.filterMap_cons, hb, if_true, List.filter_cons]
        simpa [recordedDevices] using ih2
      · obtain ⟨disk, hdk⟩ := Option.ne_none_iff_exists'.1 (hdisk p (by simp) hb)
        simp only [recordedDevices, List.filterMap_cons, hb, if_false, hdk, Option.map_some',
          List.filter_cons, ne_eq, not_false_eq_true, decide_True, if_true, List.length_cons]
        simpa [recordedDevices] using ih2
  have hstep := parseFrom_cons _ _ _ _ _ _ _
    (forBody_hostNumber hostLine _ session fields _ post hkey hopen hdev)
  refine ⟨hstep, hostDevices_sessionWithHost _ _ _ _, ?_, ?_, ?_, hlen, ?_⟩
  · intro pre hpre
    rw [hpre, hstep]
    rfl
  · intro pre hpre hp
    rw [hpre, hstep, hp]
    rfl
  · intro pre a hpre ha
    rw [hpre, parseFrom_cons _ _ _ _ _ _ _
      (forBody_hostNumber hostLine _ session fields _ [] hkey hopen
        (devicesLoop_truncated pairs a hscsi hdisk ha))]
    rfl
  · intro hall
    rw [hlen, List.filter_eq_self.2]
    intro p hp
    simpa using hall p hp

/-- C5, witness: a group whose `Attached SCSI devices` section holds a `Host Number` line
followed by one complete device pair parses to a session with one device record. -/
theorem devices_of_block_witness :
    parseSession
        ([some "Target: a".toList, some "\t\tCurrent Portal: b".toList, some "\t\t***".toList,
            some "\t\tAttached SCSI devices:".toList, some "\t\t***".toList] ++
          some "\t\tHost Number: 6\tState: running".toList ::
            (deviceBlock
              [("\t\tscsi6 Channel 00 Id 0 Lun: 0".toList,
                "\t\t\tAttached scsi disk sdb\t\tState: running".toList)] ++ [])) =
      Except.ok
        (sessionWithHost
          [("target".toList, SessionValue.str "a".toList),
            ("current_portal".toList, SessionValue.str "b".toList)]
          [] "\t\tHost Number: 6\tState: running".toList
          (some
            [{ channel := JsValue.str "00".toList, id := JsValue.str "0".toList,
               lun := JsValue.str "0".toList, attached_scsi_disk := "sdb".toList,
               state := "running".toList }])) :=
  (devices_of_block
    [("target".toList, SessionValue.str "a".toList),
      ("current_portal".toList, SessionValue.str "b".toList)]
    [] "\t\tHost Number: 6\tState: running".toList
    [("\t\tscsi6 Channel 00 Id 0 Lun: 0".toList,
      "\t\t\tAttached scsi disk sdb\t\tState: running".toList)] []
    (by decide) (by decide) (by decide) (by decide)
    (by intro l hl; cases hl)).2.2.2.1 _
    (by
      intro rest
      have h1 : forBody (some "Target: a".toList)
          (some "\t\tCurrent Portal: b".toList :: some "\t\t***".toList ::
            some "\t\tAttached SCSI devices:".toList :: some "\t\t***".toList :: rest) [] none =
          Except.ok
            (some "\t\tCurrent Portal: b".toList :: some "\t\t***".toList ::
              some "\t\tAttached SCSI devices:".toList :: some "\t\t***".toList :: rest,
              [("target".toList, SessionValue.str "a".toList)], none) := rfl
      have h2 : forBody (some "\t\tCurrent Portal: b".toList)
          (some "\t\t***".toList :: some "\t\tAttached SCSI devices:".toList ::
            some "\t\t***".toList :: rest)
          [("target".toList, SessionValue.str "a".toList)] none =
          Except.ok
            (some "\t\t***".toList :: some "\t\tAttached SCSI devices:".toList ::
              some "\t\t***".toList :: rest,
              [("target".toList, SessionValue.str "a".toList),
                ("current_portal".toList, SessionValue.str "b".toList)], none) := rfl
      have h3 : forBody (some "\t\t***".toList)
          (some "\t\tAttached SCSI devices:".toList :: some "\t\t***".toList :: rest)
          [("target".toList, SessionValue.str "a".toList),
            ("current_portal".toList, SessionValue.str "b".toList)] none =
          Except.ok
            (rest,
              [("target".toList, SessionValue.str "a".toList),
                ("current_portal".toList, SessionValue.str "b".toList)],
              some "attached_scsi_devices".toList) := rfl
      show parseFrom _ [] none = _
      simp only [List.cons_append, List.nil_append]
      rw [parseFrom_cons _ _ _ _ _ _ _ h1, parseFrom_cons _ _ _ _ _ _ _ h2,
        parseFrom_cons _ _ _ _ _ _ _ h3])
    rfl

/-- C5, counterexample: in a group whose device block is one `scsi` line followed by an
empty line, and in a group that ends with the `scsi` line, the block has one line starting
with `scsi`, yet `host.devices` holds no record. -/
theorem devices_count_counterexample :
    isScsiLine "scsi1 Channel 00 Id 0 Lun: 0".toList = true ∧
    (parseSession
        [some "Target: a".toList, some "Current Portal: b".toList, some "***".toList,
          some "Attached SCSI devices:".toList, some "***".toList,
          some "Host Number: 1\tState: running".toList,
          some "scsi1 Channel 00 Id 0 Lun: 0".toList, some []]).map hostDevices
      = Except.ok (some (some [])) ∧
    (parseSession
        [some "Target: a".toList, some "Current Portal: b".toList, some "***".toList,
          some "Attached SCSI devices:".toList, some "***".toList,
          some "Host Number: 1\tState: running".toList,
          some "scsi1 Channel 00 Id 0 Lun: 0".toList]).map hostDevices
      = Except.ok (some (some [])) := by
  decide

/-! ## One-line session listing -/

theorem splitOn_ne_nil (sep : Char) (s : Str) : splitOn sep s ≠ [] := by
  induction s with
  | nil => simp [splitOn]
  | cons c t ih =>
    rw [splitOn]
    split
    · simp
    · split <;> simp

theorem splitOn_not_mem (sep : Char) (s : Str) (h : sep ∉ s) : splitOn sep s = [s] := by
  induction s with
  | nil => rfl
  | cons c t ih =>
    have hc : c ≠ sep := fun e => h (by simp [e])
    have ht : sep ∉ t := fun e => h (by simp [e])
    rw [splitOn, if_neg hc, ih ht]

theorem splitOn_append (sep : Char) (a b : Str) (h : sep ∉ a) :
    splitOn sep (a ++ sep :: b) = a :: splitOn sep b := by
  induction a with
  | nil => simp [splitOn]
  | cons c t ih =>
    have hc : c ≠ sep := fun e => h (by simp [e])
    have ht : sep ∉ t := fun e => h (by simp [e])
    rw [List.cons_append, splitOn, if_neg hc, ih ht]

theorem not_mem_of_noWhiteSpace {s : Str} (h : NoWhiteSpace s) {c : Char}
    (hc : isWhiteSpace c = true) : c ∉ s := by
  intro hm
  rw [h c hm] at hc
  exact Bool.noConfusion hc

theorem noWhiteSpace_of_digits {p : Str} (h : ∀ c ∈ p, isDigit c = true) : NoWhiteSpace p :=
  fun c hc => isWhiteSpace_of_isDigit (h c hc)

theorem removeFirst_append (c : Char) (a b : Str) (h : c ∉ a) :
    removeFirst c (a ++ c :: b) = a ++ b := by
  induction a with
  | nil => simp [removeFirst]
  | cons x t ih =>
    have hx : x ≠ c := fun e => h (by simp [e])
    have ht : c ∉ t := fun e => h (by simp [e])
    rw [List.cons_append, removeFirst, if_neg hx, ih ht, List.cons_append]

theorem trim_of_noWhiteSpace (s : Str) (h : NoWhiteSpace s) : trim s = s := by
  apply trim_eq_self
  exact ⟨fun c hc => h c (List.mem_of_mem_head? hc), fun c hc => h c (List.mem_of_getLast?_eq_some hc)⟩

theorem toNumber_decimal (n : Str) (h : IsDecimalNumeral n) :
    toNumber n = some (decimalValue n) := by
  have ht := trim_of_noWhiteSpace n (noWhiteSpace_of_digits h.2)
  have hall : n.all (fun c => (digitValue 10 c).isSome) = true := by
    rw [List.all_eq_true]
    intro c hc
    simp [digitValue_of_isDigit (h.2 c hc)]
  simp only [toNumber, ht, h.1, if_false, hall, if_true, decimalValue]

theorem sessionOfEntry_text (l : SessionLine) (h : l.WellFormed) :
    sessionOfEntry l.text = Except.ok l.record := by
  obtain ⟨⟨hp1, hp2⟩, hn, ⟨hq1, hq2⟩, ⟨ht1, ht2⟩, ⟨hi1, hi2⟩, hr⟩ := h
  have sp : isWhiteSpace ' ' = true := by decide
  have hpsp : ' ' ∉ l.proto ++ [ ':'] := by
    intro hm
    rcases List.mem_append.1 hm with e | e
    · exact not_mem_of_noWhiteSpace hp1 sp e
    · revert e; decide
  have hnsp : ' ' ∉ '[' :: l.n ++ [ ']'] := by
    intro hm
    rcases List.mem_cons.1 hm with e | e
    · revert e; decide
    · rcases List.mem_append.1 e with e | e
      · exact not_mem_of_noWhiteSpace (noWhiteSpace_of_digits hn.2) sp e
      · revert e; decide
  have hptsp : ' ' ∉ l.portal ++ ',' :: l.tag := by
    intro hm
    rcases List.mem_append.1 hm with e | e
    · exact not_mem_of_noWhiteSpace hq1 sp e
    · rcases List.mem_cons.1 e with e | e
      · revert e; decide
      · exact not_mem_of_noWhiteSpace ht1 sp e
  have hisp : ' ' ∉ l.iqn := not_mem_of_noWhiteSpace hi1 sp
  have hfields : ∃ more, splitOn ' ' l.text =
      (l.proto ++ [ ':']) :: ('[' :: l.n ++ [ ']']) :: (l.portal ++ ',' :: l.tag) :: l.iqn :: more := by
    have e : l.text = (l.proto ++ [ ':']) ++ ' ' :: (('[' :: l.n ++ [ ']']) ++ ' ' ::
        ((l.portal ++ ',' :: l.tag) ++ ' ' :: (l.iqn ++ (match l.rest with
          | none => []
          | some r => ' ' :: r)))) := by
      simp [SessionLine.text]
    rw [e, splitOn_append _ _ _ hpsp, splitOn_append _ _ _ hnsp, splitOn_append _ _ _ hptsp]
    cases l.rest with
    | none =>
      refine ⟨[], ?_⟩
      simp [splitOn_not_mem _ _ hisp]
    | some r =>
      refine ⟨splitOn ' ' r, ?_⟩
      simp only
      rw [splitOn_append _ _ _ hisp]
  obtain ⟨more, hf⟩ := hfields
  have hproto : (splitOn ':' l.text).headD [] = l.proto := by
    have e : l.text = l.proto ++ ':' :: ([ ' ', '['] ++ l.n ++ [ ']', ' '] ++ l.portal ++ [ ','] ++ l.tag
        ++ [ ' '] ++ l.iqn ++ (match l.rest with
          | none => []
          | some r => ' ' :: r)) := by
      simp [SessionLine.text]
    rw [e, splitOn_append _ _ _ hp2]
    rfl
  have hid : removeFirst ']' (removeFirst '[' ('[' :: l.n ++ [ ']'])) = l.n := by
    have h1 : removeFirst '[' ('[' :: l.n ++ [ ']']) = l.n ++ [ ']'] := by simp [removeFirst]
    have h2 : ']' ∉ l.n := not_mem_of_digits hn.2 (by decide)
    rw [h1, removeFirst_append _ _ _ h2]
    simp
  have hcomma : splitOn ',' (l.portal ++ ',' :: l.tag) = [l.portal, l.tag] := by
    rw [splitOn_append _ _ _ hq2, splitOn_not_mem _ _ ht2]
  simp only [sessionOfEntry, hf, List.getElem?_cons_succ, List.getElem?_cons_zero, hproto, hid,
    toNumber_decimal l.n hn, hcomma, List.headD_cons, JsValue.ofOption,
    trim_of_noWhiteSpace l.iqn hi1, SessionLine.record]

theorem dropWhile_append_cases (p : Char → Bool) (x y : Str) :
    (x ++ y).dropWhile p = if x.dropWhile p = [] then y.dropWhile p else x.dropWhile p ++ y := by
  induction x with
  | nil => simp
  | cons c t ih =>
    by_cases hc : p c = true
    · simp only [List.cons_append, List.dropWhile_cons, hc, if_true, ih]
    · simp [List.dropWhile_cons, hc]

theorem trimEnd_append (a b : Str) :
    trimEnd (a ++ b) = if trimEnd b = [] then trimEnd a else a ++ trimEnd b := by
  simp only [trimEnd, List.reverse_append, dropWhile_append_cases, List.reverse_eq_nil_iff]
  split <;> simp

theorem trimEnd_all_ws (w : Str) (h : ∀ c ∈ w, isWhiteSpace c = true) : trimEnd w = [] := by
  simp only [trimEnd, List.reverse_eq_nil_iff, List.dropWhile_eq_nil_iff]
  intro c hc
  exact h c (List.mem_reverse.1 hc)

theorem trimStart_all_ws (w : Str) (h : ∀ c ∈ w, isWhiteSpace c = true) : trimStart w = [] := by
  simp only [trimStart, List.dropWhile_eq_nil_iff]
  exact h

theorem trimEnd_ne_nil (s : Str) (c : Char) (hc : c ∈ s) (hw : isWhiteSpace c = false) :
    trimEnd s ≠ [] := by
  intro h
  simp only [trimEnd, List.reverse_eq_nil_iff, List.dropWhile_eq_nil_iff] at h
  rw [h c (List.mem_reverse.2 hc)] at hw
  exact Bool.noConfusion hw

theorem mem_of_mem_trimEnd (s : Str) : ∀ c ∈ trimEnd s, c ∈ s := by
  intro c hc
  unfold trimEnd at hc
  exact List.mem_reverse.1 ((List.dropWhile_suffix isWhiteSpace).subset (List.mem_reverse.1 hc))

theorem SessionLine.text_eq (l : SessionLine) :
    l.text = (l.proto ++ [ ':', ' ', '['] ++ l.n ++ [ ']', ' '] ++ l.portal ++ [ ','] ++ l.tag
      ++ [ ' '] ++ l.iqn) ++ (match l.rest with
        | none => []
        | some r => ' ' :: r) := rfl

theorem SessionLine.newline_not_mem (l : SessionLine) (h : l.WellFormed) : '\n' ∉ l.text := by
  obtain ⟨⟨hp1, hp2⟩, hn, ⟨hq1, hq2⟩, ⟨ht1, ht2⟩, ⟨hi1, hi2⟩, hr⟩ := h
  have nl : isWhiteSpace '\n' = true := by decide
  have h1 := not_mem_of_noWhiteSpace hp1 nl
  have h2 := not_mem_of_noWhiteSpace (noWhiteSpace_of_digits hn.2) nl
  have h3 := not_mem_of_noWhiteSpace hq1 nl
  have h4 := not_mem_of_noWhiteSpace ht1 nl
  have h5 := not_mem_of_noWhiteSpace hi1 nl
  rw [SessionLine.text_eq]
  cases hrest : l.rest with
  | none => simp [h1, h2, h3, h4, h5]
  | some r =>
    have h6 := hr r hrest
    simp [h1, h2, h3, h4, h5, h6]

theorem SessionLine.head_not_ws (l : SessionLine) (h : l.WellFormed) (x : Str) (c : Char)
    (hc : (l.text ++ x).head? = some c) : isWhiteSpace c = false := by
  obtain ⟨⟨hp1, hp2⟩, _⟩ := h
  cases hp : l.proto with
  | nil =>
    simp only [SessionLine.text, hp, List.nil_append, List.cons_append, List.append_assoc,
      List.head?_cons, Option.some.injEq] at hc
    subst hc
    decide
  | cons a t =>
    simp only [SessionLine.text, hp, List.cons_append, List.append_assoc, List.head?_cons,
      Option.some.injEq] at hc
    subst hc
    exact hp1 a (by simp [hp])

theorem SessionLine.exists_non_ws (l : SessionLine) :
    ∃ c ∈ l.text, isWhiteSpace c = false :=
  ⟨':', by simp [SessionLine.text], by decide⟩

theorem SessionLine.trimEnd_text (l : SessionLine) (h : l.WellFormed) :
    ∃ m : SessionLine, m.WellFormed ∧ m.record = l.record ∧ trimEnd l.text = m.text := by
  obtain ⟨hp, hn, hq, ht, ⟨hi1, hi2⟩, hr⟩ := h
  have hcore : trimEnd (l.proto ++ [ ':', ' ', '['] ++ l.n ++ [ ']', ' '] ++ l.portal ++ [ ',']
      ++ l.tag ++ [ ' '] ++ l.iqn) = l.proto ++ [ ':', ' ', '['] ++ l.n ++ [ ']', ' '] ++ l.portal
      ++ [ ','] ++ l.tag ++ [ ' '] ++ l.iqn := by
    apply trimEnd_eq_self
    intro c hc
    rw [List.getLast?_append_of_ne_nil _ hi2] at hc
    exact hi1 c (List.mem_of_getLast?_eq_some hc)
  have key : ∀ suffix : Str, trimEnd ((l.proto ++ [ ':', ' ', '['] ++ l.n ++ [ ']', ' ']
      ++ l.portal ++ [ ','] ++ l.tag ++ [ ' '] ++ l.iqn) ++ suffix) =
      (l.proto ++ [ ':', ' ', '['] ++ l.n ++ [ ']', ' '] ++ l.portal ++ [ ','] ++ l.tag ++ [ ' ']
        ++ l.iqn) ++ trimEnd suffix := by
    intro suffix
    rw [trimEnd_append, hcore]
    split
    · rename_i he
      rw [he, List.append_nil]
    · rfl
  rw [SessionLine.text_eq]
  cases hrest : l.rest with
  | none =>
    refine ⟨{ l with rest := none }, ⟨hp, hn, hq, ht, ⟨hi1, hi2⟩, ?_⟩, rfl, ?_⟩
    · intro r hr2; cases hr2
    · simp only
      rw [key]
      rfl
  | some r =>
    simp only
    rw [key]
    have e : trimEnd (' ' :: r) = if trimEnd r = [] then [] else ' ' :: trimEnd r := by
      have := trimEnd_append [ ' '] r
      simp only [List.singleton_append] at this
      rw [this]
      split
      · rfl
      · rfl
    rw [e]
    by_cases hr0 : trimEnd r = []
    · refine ⟨{ l with rest := none }, ⟨hp, hn, hq, ht, ⟨hi1, hi2⟩, ?_⟩, rfl, ?_⟩
      · intro r hr2; cases hr2
      · simp [hr0, SessionLine.text]
    · refine ⟨{ l with rest := some (trimEnd r) }, ⟨hp, hn, hq, ht, ⟨hi1, hi2⟩, ?_⟩, rfl, ?_⟩
      · intro r2 hr2
        simp only [Option.some.injEq] at hr2
        subst hr2
        exact fun hm => hr r hrest (mem_of_mem_trimEnd r _ hm)
      · simp [hr0, SessionLine.text]

theorem sessionsLoop_parses (entries : List Str) (rs : List SessionSummary)
    (h : List.Forall₂ ParsesTo entries rs) (acc : List SessionSummary) :
    sessionsLoop entries acc = Except.ok (acc ++ rs) := by
  induction h generalizing acc with
  | nil => simp [sessionsLoop]
  | cons hp _ ih =>
    rw [sessionsLoop, if_neg hp.1, hp.2]
    simp only
    rw [ih]
    simp

theorem trimEnd_joined (l : SessionLine) (ls : List SessionLine)
    (hwf : ∀ m ∈ l :: ls, m.WellFormed) :
    List.Forall₂ ParsesTo
      (splitOn '\n' (trimEnd (joinWith '\n' ((l :: ls).map SessionLine.text))))
      ((l :: ls).map SessionLine.record) := by
  induction ls generalizing l with
  | nil =>
    obtain ⟨m, hm, hrec, htxt⟩ := l.trimEnd_text (hwf l (by simp))
    simp only [List.map_cons, List.map_nil, joinWith]
    rw [htxt, splitOn_not_mem _ _ (m.newline_not_mem hm), ← hrec]
    refine List.Forall₂.cons ⟨?_, sessionOfEntry_text m hm⟩ List.Forall₂.nil
    obtain ⟨c, hc, _⟩ := m.exists_non_ws
    exact List.ne_nil_of_mem hc
  | cons l2 ls ih =>
    have hl := hwf l (by simp)
    have ih2 := ih l2 (fun m hm => hwf m (by simp [List.mem_cons.1 hm]))
    have hne : trimEnd ('\n' :: joinWith '\n' ((l2 :: ls).map SessionLine.text)) =
        '\n' :: trimEnd (joinWith '\n' ((l2 :: ls).map SessionLine.text)) := by
      have hj : trimEnd (joinWith '\n' ((l2 :: ls).map SessionLine.text)) ≠ [] := by
        obtain ⟨c, hc, hw⟩ := l2.exists_non_ws
        refine trimEnd_ne_nil _ c ?_ hw
        cases ls with
        | nil => simpa [joinWith] using hc
        | cons l3 ls => simp [joinWith, hc]
      have := trimEnd_append [ '\n'] (joinWith '\n' ((l2 :: ls).map SessionLine.text))
      simp only [List.singleton_append] at this
      rw [this, if_neg hj]
    have hstep : trimEnd (joinWith '\n' ((l :: l2 :: ls).map SessionLine.text)) =
        l.text ++ '\n' :: trimEnd (joinWith '\n' ((l2 :: ls).map SessionLine.text)) := by
      have e : joinWith '\n' ((l :: l2 :: ls).map SessionLine.text) =
          l.text ++ '\n' :: joinWith '\n' ((l2 :: ls).map SessionLine.text) := by
        simp [joinWith]
      rw [e, trimEnd_append, hne]
      simp
    rw [hstep, splitOn_append _ _ _ (l.newline_not_mem hl)]
    refine List.Forall₂.cons ⟨?_, sessionOfEntry_text l hl⟩ ih2
    obtain ⟨c, hc, _⟩ := l.exists_non_ws
    exact List.ne_nil_of_mem hc

theorem joinWith_cons_text (l : SessionLine) (ls : List SessionLine) :
    ∃ x, joinWith '\n' ((l :: ls).map SessionLine.text) = l.text ++ x := by
  cases ls with
  | nil => exact ⟨[], by simp [joinWith]⟩
  | cons l2 ls => exact ⟨'\n' :: joinWith '\n' ((l2 :: ls).map SessionLine.text), by simp [joinWith]⟩

theorem sessionsOfStdout_lines (ls : List SessionLine) (hwf : ∀ l ∈ ls, l.WellFormed)
    (tail : Str) (htail : ∀ c ∈ tail, isWhiteSpace c = true) :
    sessionsOfStdout (joinWith '\n' (ls.map SessionLine.text) ++ tail) =
      Except.ok (ls.map SessionLine.record) := by
  cases ls with
  | nil =>
    simp only [List.map_nil, joinWith, List.nil_append, sessionsOfStdout]
    split
    · rfl
    · have : trim tail = [] := by
        unfold trim
        rw [trimStart_all_ws tail htail]
        rfl
      rw [this]
      rfl
  | cons l ls =>
    obtain ⟨x, hx⟩ := joinWith_cons_text l ls
    have hl := hwf l (by simp)
    have hstart : trimStart (joinWith '\n' ((l :: ls).map SessionLine.text) ++ tail) =
        joinWith '\n' ((l :: ls).map SessionLine.text) ++ tail := by
      apply trimStart_eq_self
      intro c hc
      rw [hx, List.append_assoc] at hc
      exact l.head_not_ws hl _ c hc
    have hend : trimEnd (joinWith '\n' ((l :: ls).map SessionLine.text) ++ tail) =
        trimEnd (joinWith '\n' ((l :: ls).map SessionLine.text)) := by
      rw [trimEnd_append, trimEnd_all_ws tail htail]
      simp
    have hne : joinWith '\n' ((l :: ls).map SessionLine.text) ++ tail ≠ [] := by
      obtain ⟨c, hc, _⟩ := l.exists_non_ws
      rw [hx]
      exact List.ne_nil_of_mem (List.mem_append_left _ (List.mem_append_left _ hc))
    rw [sessionsOfStdout, if_neg hne, trim, hstart, hend,
      sessionsLoop_parses _ _ (trimEnd_joined l ls hwf)]
    rfl

/-- C6: for every output made of `k` lines of the form `proto: [n] portal,tag iqn`, each
possibly followed by a space and further text (`proto` without colon or white space, `n` a
decimal numeral, `portal` and `tag` without white space or comma, `iqn` not empty and
without white space), with the lines joined by line breaks and followed by any white space,
`getSessions` returns exactly the `k` records `{protocol: proto, id: n as a number, portal,
target_portal_group_tag: tag, iqn}` in line order. -/
theorem getSessions_lines (ls : List SessionLine) (hwf : ∀ l ∈ ls, l.WellFormed)
    (tail : Str) (htail : ∀ c ∈ tail, isWhiteSpace c = true) (result : ExecResult)
    (hout : result.stdout = joinWith '\n' (ls.map SessionLine.text) ++ tail) :
    getSessions (ExecOutcome.resolved result) = Except.ok (ls.map SessionLine.record) ∧
    (ls.map SessionLine.record).length = ls.length := by
  refine ⟨?_, by simp⟩
  simp only [getSessions, sessionListingResult]
  rw [hout]
  exact sessionsOfStdout_lines ls hwf tail htail

/-- C6, witness: the line `tcp: [111] [2001:123:456::1]:3260,1
iqn.2005-10.org.freenas.ctl:default-claim` parses to the record with protocol `tcp`, id 111,
portal `[2001:123:456::1]:3260`, tag `1` and that IQN. -/
theorem getSessions_lines_witness :
    getSessions
        (ExecOutcome.resolved
          { code := some 0,
            stdout :=
              "tcp: [111] [2001:123:456::1]:3260,1 iqn.2005-10.org.freenas.ctl:default-claim".toList,
            stderr := [], timeout := false }) =
      Except.ok
        [{ protocol := "tcp".toList, id := some 111, portal := "[2001:123:456::1]:3260".toList,
           target_portal_group_tag := JsValue.str "1".toList,
           iqn := "iqn.2005-10.org.freenas.ctl:default-claim".toList }] :=
  (getSessions_lines
    [{ proto := "tcp".toList, n := "111".toList, portal := "[2001:123:456::1]:3260".toList,
       tag := "1".toList, iqn := "iqn.2005-10.org.freenas.ctl:default-claim".toList,
       rest := none }]
    (by
      intro l hl
      rw [List.mem_singleton] at hl
      subst hl
      exact ⟨⟨by decide, by decide⟩, ⟨by decide, by decide⟩, ⟨by decide, by decide⟩,
        ⟨by decide, by decide⟩, ⟨by decide, by decide⟩, by intro r hr; cases hr⟩)
    [] (by intro c hc; cases hc) _ rfl).1

/-! ## Interface listing -/

theorem getIscsiValue_ofOption (x : Option Str) :
    getIscsiValue (JsValue.ofOption x) = optionalField x := by
  cases x with
  | none => simp [getIscsiValue, JsValue.ofOption, optionalField]
  | some s =>
    by_cases h : s = emptyToken
    · simp [getIscsiValue, JsValue.ofOption, optionalField, h]
    · simp [getIscsiValue, JsValue.ofOption, optionalField, h]

theorem optionalField_ne_token (x : Option Str) : optionalField x ≠ JsValue.str emptyToken := by
  cases x with
  | none => simp [optionalField]
  | some s =>
    by_cases h : s = emptyToken
    · simp [optionalField, h]
    · simp [optionalField, h]

theorem interfaceOfEntry_ok (entry : Str) (r : Interface) :
    interfaceOfEntry entry = Except.ok r ↔ InterfaceOf entry r := by
  cases h1 : (splitOn ' ' entry)[1]? with
  | none =>
    simp only [interfaceOfEntry, InterfaceOf, h1]
    constructor
    · intro h; cases h
    · rintro ⟨c, hc, _⟩; cases hc
  | some f1 =>
    simp only [interfaceOfEntry, InterfaceOf, h1, getIscsiValue_ofOption, Except.ok.injEq,
      Option.some.injEq]
    constructor
    · rintro rfl
      exact ⟨f1, rfl, rfl, rfl, rfl, rfl, rfl, rfl⟩
    · rintro ⟨c, rfl, h2, h3, h4, h5, h6, h7⟩
      cases r
      simp only at h2 h3 h4 h5 h6 h7
      rw [h2, h3, h4, h5, h6, h7]

theorem forall2_mem_right {α β : Type} {R : α → β → Prop} {l1 : List α} {l2 : List β}
    (h : List.Forall₂ R l1 l2) : ∀ b ∈ l2, ∃ a ∈ l1, R a b := by
  induction h with
  | nil => intro b hb; cases hb
  | cons hab _ ih =>
    intro b hb
    rcases List.mem_cons.1 hb with e | e
    · subst e
      exact ⟨_, by simp, hab⟩
    · obtain ⟨a, ha, hr⟩ := ih b e
      exact ⟨a, by simp [ha], hr⟩

theorem interfacesLoop_ok (entries : List Str) (acc recs : List Interface) :
    interfacesLoop entries acc = Except.ok recs ↔
      ∃ rs, recs = acc ++ rs ∧ List.Forall₂ InterfaceOf entries rs := by
  induction entries generalizing acc with
  | nil =>
    simp only [interfacesLoop, Except.ok.injEq]
    constructor
    · rintro rfl
      exact ⟨[], by simp, List.Forall₂.nil⟩
    · rintro ⟨rs, h, hf⟩
      cases hf
      simp [h]
  | cons e es ih =>
    cases he : interfaceOfEntry e with
    | error err =>
      simp only [interfacesLoop, he]
      constructor
      · intro h; cases h
      · rintro ⟨rs, _, hf⟩
        obtain ⟨b, u, hb, _, _⟩ := List.forall₂_cons_left_iff.1 hf
        rw [← interfaceOfEntry_ok, he] at hb
        cases hb
    | ok r =>
      simp only [interfacesLoop, he, ih]
      constructor
      · rintro ⟨rs, h, hf⟩
        exact ⟨r :: rs, by simp [h], List.Forall₂.cons ((interfaceOfEntry_ok e r).1 he) hf⟩
      · rintro ⟨rs, h, hf⟩
        obtain ⟨b, u, hb, hu, rfl⟩ := List.forall₂_cons_left_iff.1 hf
        rw [← interfaceOfEntry_ok, he] at hb
        cases hb
        exact ⟨u, by simp [h], hu⟩

/-- C7, as amended: for every non-empty interface-list output, `listInterfaces` returns a
list of records exactly when every line has a second column, one record per line in order;
in each record the hardware address, IP address, network interface name and initiator name
are absent (null) when the text of the field is `<empty>` and the text itself otherwise, so
none of them is ever the literal `<empty>`; the transport name is the text of its field as
it stands. -/
theorem listInterfaces_placeholder (result : ExecResult) (hne : result.stdout ≠ []) :
    (∀ recs, listInterfaces (ExecOutcome.resolved result) = Except.ok recs ↔
      List.Forall₂ InterfaceOf (splitOn '\n' (trim result.stdout)) recs) ∧
    (∀ recs, listInterfaces (ExecOutcome.resolved result) = Except.ok recs → ∀ r ∈ recs,
      r.hwaddress ≠ JsValue.str emptyToken ∧ r.ipaddress ≠ JsValue.str emptyToken ∧
      r.net_ifacename ≠ JsValue.str emptyToken ∧ r.initiatorname ≠ JsValue.str emptyToken) := by
  have hiff : ∀ recs, listInterfaces (ExecOutcome.resolved result) = Except.ok recs ↔
      List.Forall₂ InterfaceOf (splitOn '\n' (trim result.stdout)) recs := by
    intro recs
    rw [listInterfaces]
    simp only [hne, if_false]
    rw [interfacesLoop_ok]
    constructor
    · rintro ⟨rs, h, hf⟩
      rw [List.nil_append] at h
      rw [h]
      exact hf
    · intro hf
      exact ⟨recs, rfl, hf⟩
  refine ⟨hiff, ?_⟩
  intro recs h r hr
  have hf := (hiff recs).1 h
  obtain ⟨entry, _, c, _, _, _, h4, h5, h6, h7⟩ := forall2_mem_right hf r hr
  rw [h4, h5, h6, h7]
  exact ⟨optionalField_ne_token _, optionalField_ne_token _, optionalField_ne_token _,
    optionalField_ne_token _⟩

/-- C7, witness: a two-line listing, with placeholders in the optional fields of the first
line, and the records it parses to. -/
theorem listInterfaces_placeholder_witness :
    List.Forall₂ InterfaceOf
      (splitOn '\n'
        (trim
          "default tcp,<empty>,<empty>,<empty>,<empty>\niser0 iser,<empty>,10.0.0.9,eth0,<empty>\n".toList))
      [{ iface_name := "default".toList, transport_name := "tcp".toList,
         hwaddress := JsValue.null, ipaddress := JsValue.null, net_ifacename := JsValue.null,
         initiatorname := JsValue.null },
        { iface_name := "iser0".toList, transport_name := "iser".toList,
          hwaddress := JsValue.null, ipaddress := JsValue.str "10.0.0.9".toList,
          net_ifacename := JsValue.str "eth0".toList, initiatorname := JsValue.null }] :=
  ((listInterfaces_placeholder
    { code := some 0,
      stdout :=
        "default tcp,<empty>,<empty>,<empty>,<empty>\niser0 iser,<empty>,10.0.0.9,eth0,<empty>\n".toList,
      stderr := [], timeout := false }
    (by decide)).1 _).1 (by decide)

/-- C7, counterexample: a line whose transport name is the placeholder gives a record
whose transport name is the literal `<empty>`. -/
theorem listInterfaces_transport_counterexample :
    listInterfaces
        (ExecOutcome.resolved
          { code := some 0, stdout := "default <empty>,<empty>,<empty>,<empty>,<empty>".toList,
            stderr := [], timeout := false }) =
      Except.ok
        [{ iface_name := "default".toList, transport_name := "<empty>".toList,
           hwaddress := JsValue.null, ipaddress := JsValue.null, net_ifacename := JsValue.null,
           initiatorname := JsValue.null }] := by
  decide

/-! ## Device path -/

theorem removeAll_brackets (s : Str) :
    removeAll ']' (removeAll '[' s) = s.filter (fun c => decide (c ≠ '[' ∧ c ≠ ']')) := by
  simp only [removeAll, List.filter_filter]
  congr 1
  funext c
  by_cases h1 : c = '[' <;> by_cases h2 : c = ']' <;> simp [h1, h2]

/-- C8: when hostname lookup is not requested, the device path of `portal`, `iqn` and `lun`
is `/dev/disk/by-path/ip-` followed by `H:P-iscsi-iqn-lun-lun`, where `parsePortal portal`
has host `host` and port `P` and `H` is `host` with every `[` and `]` removed; the path of
`10.0.0.5:3260`, `iqn.foo:bar` and `0` is
`/dev/disk/by-path/ip-10.0.0.5:3260-iscsi-iqn.foo:bar-lun-0`. -/
theorem devicePath_rendering (isIP : Str → Nat) (hostname_lookup : Str → Option Str)
    (portal iqn lun : Str) :
    devicePathByPortalIQNLUN isIP hostname_lookup portal iqn lun false =
      "/dev/disk/by-path/ip-".toList
        ++ (parsePortal portal).host.filter (fun c => decide (c ≠ '[' ∧ c ≠ ']'))
        ++ [ ':'] ++ numberToStr (parsePortal portal).port
        ++ "-iscsi-".toList ++ iqn ++ "-lun-".toList ++ lun ∧
    devicePathByPortalIQNLUN isIP hostname_lookup "10.0.0.5:3260".toList "iqn.foo:bar".toList
        "0".toList false =
      "/dev/disk/by-path/ip-10.0.0.5:3260-iscsi-iqn.foo:bar-lun-0".toList := by
  constructor
  · simp only [devicePathByPortalIQNLUN, Bool.false_and, Bool.false_eq_true, if_false,
      removeAll_brackets]
    rfl
  · simp only [devicePathByPortalIQNLUN, Bool.false_and, Bool.false_eq_true, if_false]
    decide

/-! ## Retry of the attribute update -/

theorem updateLoop_step (exec : Nat → ExecOutcome) (fuel retries : Nat)
    (h : retries < maxRetries) :
    updateLoop exec (fuel + 1) retries =
      if retries + 1 < maxRetries ∧ isContention (exec retries) = true then
        updateLoop exec fuel (retries + 1)
      else (surfaced (exec retries), retries + 1) := by
  rw [updateLoop, if_pos h]
  simp only [Nat.add_sub_cancel]
  cases he : exec retries with
  | resolved r => simp [isContention, surfaced]
  | rejected err =>
    by_cases h1 : retries + 1 < maxRetries
    · by_cases h2 : includes err.stderr contentionPhrase = true
      · simp [isContention, h1, h2]
      · simp [isContention, surfaced, h1, h2]
    · simp [isContention, surfaced, h1]

theorem updateLoop_spec (exec : Nat → ExecOutcome) (fuel : Nat) : ∀ retries : Nat,
    retries < maxRetries → maxRetries ≤ fuel + retries →
    (∀ k, k < retries → isContention (exec k) = true) →
    ∃ n, updateLoop exec fuel retries = (surfaced (exec (n - 1)), n) ∧
      retries < n ∧ n ≤ maxRetries ∧
      (∀ k, k + 1 < n → isContention (exec k) = true) ∧
      (n < maxRetries → isContention (exec (n - 1)) = false) := by
  induction fuel with
  | zero =>
    intro retries h1 h2
    omega
  | succ f ih =>
    intro retries h1 h2 hall
    rw [updateLoop_step exec f retries h1]
    by_cases hc : retries + 1 < maxRetries ∧ isContention (exec retries) = true
    · rw [if_pos hc]
      obtain ⟨n, hn, h3, h4, h5, h6⟩ := ih (retries + 1) hc.1 (by omega) (by
        intro k hk
        rcases Nat.lt_succ_iff_lt_or_eq.1 hk with e | e
        · exact hall k e
        · rw [e]; exact hc.2)
      exact ⟨n, hn, by omega, h4, h5, h6⟩
    · rw [if_neg hc]
      refine ⟨retries + 1, by simp, by omega, by omega, ?_, ?_⟩
      · intro k hk
        exact hall k (by omega)
      · intro hlt
        simp only [Nat.add_sub_cancel]
        by_contra hx
        exact hc ⟨hlt, by simpa using hx⟩

/-- C9: for every sequence of outcomes of the update invocation, the update of one attribute
makes `n` invocations and gives the caller the `n`-th outcome (success, or that failure
unchanged), where `1 ≤ n ≤ 5`, every outcome before the `n`-th is a contention failure, and
the `n`-th is not one unless `n = 5`; a larger bound on the iterations changes nothing;
four contention failures followed by a success give success after exactly five
invocations; and inside `createNodeDBEntry` with one attribute the invocations are the
creation followed by these `n`. -/
theorem updateAttribute_bounded_retry (exec : Nat → ExecOutcome) :
    (∃ n, updateAttribute exec = (surfaced (exec (n - 1)), n) ∧ 1 ≤ n ∧ n ≤ 5 ∧
      (∀ k, k + 1 < n → isContention (exec k) = true) ∧
      (n < 5 → isContention (exec (n - 1)) = false)) ∧
    (∀ fuel, 5 ≤ fuel → updateLoop exec fuel 0 = updateAttribute exec) ∧
    ((∀ k, k < 4 → isContention (exec k) = true) → (∃ r, exec 4 = ExecOutcome.resolved r) →
      updateAttribute exec = (Except.ok (), 5)) ∧
    (∀ r, exec 0 = ExecOutcome.resolved r →
      createNodeDBEntry exec 1 =
        ((updateAttribute (fun k => exec (1 + k))).1,
          1 + (updateAttribute (fun k => exec (1 + k))).2)) := by
  have hspec : ∀ fuel, 5 ≤ fuel → ∃ n, updateLoop exec fuel 0 = (surfaced (exec (n - 1)), n) ∧
      1 ≤ n ∧ n ≤ 5 ∧ (∀ k, k + 1 < n → isContention (exec k) = true) ∧
      (n < 5 → isContention (exec (n - 1)) = false) := by
    intro fuel hf
    obtain ⟨n, h1, h2, h3, h4, h5⟩ := updateLoop_spec exec fuel 0 (by decide)
      (by simp only [maxRetries]; omega) (by intro k hk; omega)
    exact ⟨n, h1, by omega, h3, h4, h5⟩
  have huniq : ∀ n m : Nat, 1 ≤ n → n ≤ 5 → 1 ≤ m → m ≤ 5 →
      (∀ k, k + 1 < n → isContention (exec k) = true) →
      (n < 5 → isContention (exec (n - 1)) = false) →
      (∀ k, k + 1 < m → isContention (exec k) = true) →
      (m < 5 → isContention (exec (m - 1)) = false) → n = m := by
    intro n m hn1 hn5 hm1 hm5 ha hb hc hd
    by_contra hne
    rcases Nat.lt_or_gt_of_ne hne with h | h
    · have h1 := hb (by omega)
      have h2 := hc (n - 1) (by omega)
      rw [h1] at h2
      exact Bool.noConfusion h2
    · have h1 := hd (by omega)
      have h2 := ha (m - 1) (by omega)
      rw [h1] at h2
      exact Bool.noConfusion h2
  refine ⟨hspec 5 (le_refl _), ?_, ?_, ?_⟩
  · intro fuel hf
    obtain ⟨n, h1, h2, h3, h4, h5⟩ := hspec fuel hf
    obtain ⟨m, g1, g2, g3, g4, g5⟩ := hspec 5 (le_refl _)
    have := huniq n m h2 h3 g2 g3 h4 h5 g4 g5
    subst this
    rw [h1]
    exact g1.symm
  · intro hall ⟨r, hr⟩
    obtain ⟨n, h1, h2, h3, h4, h5⟩ := hspec 5 (le_refl _)
    have hn : n = 5 := by
      by_contra hne
      have h6 := h5 (by omega)
      have h7 := hall (n - 1) (by omega)
      rw [h6] at h7
      exact Bool.noConfusion h7
    subst hn
    show updateLoop exec 5 0 = _
    rw [h1]
    simp [hr, surfaced]
  · intro r hr
    simp only [createNodeDBEntry, hr, attributesLoop]
    cases h : updateAttribute (fun k => exec (1 + k)) with
    | mk res n =>
      cases res with
      | ok u => simp
      | error e => simp

/-- C9, witness: four contention failures followed by a success return success after
exactly five invocations. -/
theorem updateAttribute_bounded_retry_witness :
    updateAttribute
        (fun k =>
          if k < 4 then
            ExecOutcome.rejected
              { code := some 6, stdout := [], stderr := contentionPhrase, timeout := false }
          else
            ExecOutcome.resolved { code := some 0, stdout := [], stderr := [], timeout := false })
      = (Except.ok (), 5) :=
  (updateAttribute_bounded_retry _).2.2.1
    (by
      intro k hk
      interval_cases k <;> decide)
    ⟨_, rfl⟩

/-! ## Session rescan -/

/-- C10, evaluation at the failing inputs: the bare id 5 makes `rescanSession` throw
without invoking the tool, while the bare id -1 and a record whose id is not a number have
the rescan issued. -/
theorem rescanSession_inverted_check :
    rescanSession
        (ExecOutcome.resolved { code := some 0, stdout := [], stderr := [], timeout := false })
        (SessionArg.bare (IdValue.num 5)) =
      { result := Except.error (JsError.thrown "cannot scan empty session id".toList),
        issued := none } ∧
    rescanSession
        (ExecOutcome.resolved { code := some 0, stdout := [], stderr := [], timeout := false })
        (SessionArg.bare (IdValue.num (-1))) =
      { result := Except.ok true, issued := some (IdValue.num (-1)) } ∧
    rescanSession
        (ExecOutcome.resolved { code := some 0, stdout := [], stderr := [], timeout := false })
        (SessionArg.record IdValue.nan) =
      { result := Except.ok true, issued := some IdValue.nan } := by
  decide

/-! ## Login and logout -/

theorem logoutLoop_cons_benign (exec : Nat → Str → ExecOutcome) (k : Nat) (p : Str)
    (ps : List Str) (h : isBenignLogout (exec k p) = true) :
    logoutLoop exec k (p :: ps) =
      ((logoutLoop exec (k + 1) ps).1, p :: (logoutLoop exec (k + 1) ps).2) := by
  rw [logoutLoop]
  cases he : exec k p with
  | resolved r => rfl
  | rejected err =>
    rw [he] at h
    have hc : err.code = some 21 := by simpa [isBenignLogout] using h
    simp only [hc, if_true]

theorem logoutLoop_cons_fail (exec : Nat → Str → ExecOutcome) (k : Nat) (p : Str)
    (ps : List Str) (err : ExecResult) (he : exec k p = ExecOutcome.rejected err)
    (hc : err.code ≠ some 21) :
    logoutLoop exec k (p :: ps) = (Except.error (JsError.rejected err), [p]) := by
  rw [logoutLoop, he]
  simp only [hc, if_false]

theorem logoutLoop_benign (exec : Nat → Str → ExecOutcome) (ps : List Str) : ∀ k : Nat,
    (∀ i p, ps[i]? = some p → isBenignLogout (exec (k + i) p) = true) →
    logoutLoop exec k ps = (Except.ok true, ps) := by
  induction ps with
  | nil => intro k _; rfl
  | cons q qs ih =>
    intro k h
    have h0 := h 0 q (by simp)
    rw [logoutLoop_cons_benign exec k q qs h0,
      ih (k + 1) (fun i p hp => by
        have := h (i + 1) p (by simpa using hp)
        rwa [show k + (i + 1) = k + 1 + i by omega] at this)]

theorem logoutLoop_fail (exec : Nat → Str → ExecOutcome) (ps : List Str) : ∀ (k i : Nat)
    (p : Str) (err : ExecResult), ps[i]? = some p → exec (k + i) p = ExecOutcome.rejected err →
    err.code ≠ some 21 →
    (∀ j q, j < i → ps[j]? = some q → isBenignLogout (exec (k + j) q) = true) →
    logoutLoop exec k ps = (Except.error (JsError.rejected err), ps.take (i + 1)) := by
  induction ps with
  | nil => intro k i p err hp; cases hp
  | cons q qs ih =>
    intro k i p err hp he hc hb
    cases i with
    | zero =>
      simp only [List.getElem?_cons_zero, Option.some.injEq] at hp
      subst hp
      rw [logoutLoop_cons_fail exec k q qs err he hc]
      simp
    | succ i =>
      have h0 := hb 0 q (by omega) (by simp)
      rw [logoutLoop_cons_benign exec k q qs h0,
        ih (k + 1) i p err (by simpa using hp)
          (by rwa [show k + (i + 1) = k + 1 + i by omega] at he) hc
          (fun j r hj hr => by
            have := hb (j + 1) r (by omega) (by simpa using hr)
            rwa [show k + (j + 1) = k + 1 + j by omega] at this)]
      simp

theorem logoutLoop_ok_iff (exec : Nat → Str → ExecOutcome) (ps : List Str) : ∀ k : Nat,
    (logoutLoop exec k ps).1 = Except.ok true ↔
      ∀ i p, ps[i]? = some p → isBenignLogout (exec (k + i) p) = true := by
  induction ps with
  | nil =>
    intro k
    constructor
    · intro _ i p hp; cases hp
    · intro _; rfl
  | cons q qs ih =>
    intro k
    by_cases hq : isBenignLogout (exec k q) = true
    · rw [logoutLoop_cons_benign exec k q qs hq]
      simp only
      rw [ih (k + 1)]
      constructor
      · intro h i p hp
        cases i with
        | zero =>
          simp only [List.getElem?_cons_zero, Option.some.injEq] at hp
          subst hp
          exact hq
        | succ i =>
          have := h i p (by simpa using hp)
          rwa [show k + 1 + i = k + (i + 1) by omega] at this
      · intro h i p hp
        have := h (i + 1) p (by simpa using hp)
        rwa [show k + (i + 1) = k + 1 + i by omega] at this
    · constructor
      · intro h
        exfalso
        cases he : exec k q with
        | resolved r => rw [he] at hq; exact hq rfl
        | rejected err =>
          have hc : err.code ≠ some 21 := by
            intro hc
            rw [he] at hq
            exact hq (by simp [isBenignLogout, hc])
          rw [logoutLoop_cons_fail exec k q qs err he hc] at h
          cases h
      · intro h
        exact absurd (h 0 q (by simp)) hq

/-- C11: for every IQN and every sequence of portals (a single portal counting as a
one-element sequence), `logout` returns true exactly when every invocation, made once per
portal in order, succeeds or fails with exit code 21, and then the tool has been invoked for
every portal; when the invocation for the portal at index `i` is the first to fail with
another code, that failure is what `logout` raises, unchanged, and the tool has been invoked
for the portals up to index `i` only; with two portals of which only the second fails, with
code 21, both are attempted and `logout` returns true. -/
theorem logout_portals (exec : Nat → Str → ExecOutcome) (portals : PortalsArg) :
    ((logout exec portals).1 = Except.ok true ↔
      ∀ i p, portals.toArray[i]? = some p → isBenignLogout (exec i p) = true) ∧
    ((∀ i p, portals.toArray[i]? = some p → isBenignLogout (exec i p) = true) →
      logout exec portals = (Except.ok true, portals.toArray)) ∧
    (∀ i p err, portals.toArray[i]? = some p → exec i p = ExecOutcome.rejected err →
      err.code ≠ some 21 →
      (∀ j q, j < i → portals.toArray[j]? = some q → isBenignLogout (exec j q) = true) →
      logout exec portals =
        (Except.error (JsError.rejected err), portals.toArray.take (i + 1))) ∧
    (∀ p, logout exec (PortalsArg.single p) = logout exec (PortalsArg.array [p])) ∧
    (∀ p1 p2 r err, exec 0 p1 = ExecOutcome.resolved r → exec 1 p2 = ExecOutcome.rejected err →
      err.code = some 21 →
      logout exec (PortalsArg.array [p1, p2]) = (Except.ok true, [p1, p2])) := by
  refine ⟨?_, ?_, ?_, ?_, ?_⟩
  · have := logoutLoop_ok_iff exec portals.toArray 0
    simpa [logout] using this
  · intro h
    exact logoutLoop_benign exec portals.toArray 0 (by simpa using h)
  · intro i p err hp he hc hb
    exact logoutLoop_fail exec portals.toArray 0 i p err hp (by simpa using he) hc
      (by simpa using hb)
  · intro p
    rfl
  · intro p1 p2 r err h1 h2 hc
    apply logoutLoop_benign exec [p1, p2] 0
    intro i p hp
    match i, hp with
    | 0, hp =>
      simp only [List.getElem?_cons_zero, Option.some.injEq] at hp
      subst hp
      simp [h1, isBenignLogout]
    | 1, hp =>
      simp only [List.getElem?_cons_succ, List.getElem?_cons_zero, Option.some.injEq] at hp
      subst hp
      simp [h2, isBenignLogout, hc]

/-- C11, witness: with two portals of which the second has no session (exit code 21), both
are attempted and `logout` returns true. -/
theorem logout_portals_witness :
    logout
        (fun i _ =>
          if i = 0 then
            ExecOutcome.resolved { code := some 0, stdout := [], stderr := [], timeout := false }
          else
            ExecOutcome.rejected
              { code := some 21, stdout := [], stderr := [], timeout := false })
        (PortalsArg.array ["10.0.0.1:3260".toList, "10.0.0.2:3260".toList]) =
      (Except.ok true, ["10.0.0.1:3260".toList, "10.0.0.2:3260".toList]) :=
  (logout_portals _ (PortalsArg.array ["10.0.0.1:3260".toList, "10.0.0.2:3260".toList])).2.2.2.2
    _ _ { code := some 0, stdout := [], stderr := [], timeout := false }
    { code := some 21, stdout := [], stderr := [], timeout := false } rfl rfl rfl

/-- C12: for every IQN and portal, `login` returns true exactly when the tool invocation
succeeds or fails with exit code 15; a failure with any other code is raised unchanged, and
so is a time-out, whose code is `null`. -/
theorem login_idempotent (outcome : ExecOutcome) :
    (login outcome = Except.ok true ↔
      (∃ r, outcome = ExecOutcome.resolved r) ∨
        ∃ err, outcome = ExecOutcome.rejected err ∧ err.code = some 15) ∧
    (∀ err, outcome = ExecOutcome.rejected err → err.code ≠ some 15 →
      login outcome = Except.error (JsError.rejected err)) ∧
    (∀ stdout stderr, login (execClose none stdout stderr) =
      Except.error
        (JsError.rejected
          { code := none, stdout := stdout, stderr := stderr, timeout := true })) ∧
    (∀ stdout stderr, login (execClose (some 15) stdout stderr) = Except.ok true) ∧
    (∀ stdout stderr, login (execClose (some 0) stdout stderr) = Except.ok true) := by
  refine ⟨?_, ?_, ?_, ?_, ?_⟩
  · cases outcome with
    | resolved r => simp [login]
    | rejected err =>
      by_cases hc : err.code = some 15
      · simp [login, hc]
      · simp [login, hc]
  · intro err he hc
    subst he
    simp [login, hc]
  · intro so se
    simp [login, execClose]
  · intro so se
    simp [login, execClose]
  · intro so se
    simp [login, execClose]

/-! ## Session listing without active sessions -/

/-- C13, as amended: whenever the session-listing invocation fails with exit code 21 and
the failure carries no standard output, `getSessions` and `getSessionsDetails` do not fail
and return the empty sequence, whatever its standard error; a failure with code 21 that
carries standard output has that output parsed like a successful listing; a successful
invocation with empty standard output returns the empty sequence; a failure with any other
exit code is raised unchanged. -/
theorem sessionListing_no_active_session (err : ExecResult) :
    (err.code = some 21 → err.stdout = [] →
      getSessions (ExecOutcome.rejected err) = Except.ok [] ∧
      getSessionsDetails (ExecOutcome.rejected err) = Except.ok []) ∧
    (err.code = some 21 →
      getSessions (ExecOutcome.rejected err) = getSessions (ExecOutcome.resolved err) ∧
      getSessionsDetails (ExecOutcome.rejected err) =
        getSessionsDetails (ExecOutcome.resolved err)) ∧
    (err.stdout = [] →
      getSessions (ExecOutcome.resolved err) = Except.ok [] ∧
      getSessionsDetails (ExecOutcome.resolved err) = Except.ok []) ∧
    (err.code ≠ some 21 →
      getSessions (ExecOutcome.rejected err) = Except.error (JsError.rejected err) ∧
      getSessionsDetails (ExecOutcome.rejected err) = Except.error (JsError.rejected err)) := by
  refine ⟨?_, ?_, ?_, ?_⟩
  · intro hc hs
    simp [getSessions, getSessionsDetails, sessionListingResult, hc, sessionsOfStdout,
      sessionDetailsOfStdout, hs]
  · intro hc
    simp [getSessions, getSessionsDetails, sessionListingResult, hc]
  · intro hs
    simp [getSessions, getSessionsDetails, sessionListingResult, sessionsOfStdout,
      sessionDetailsOfStdout, hs]
  · intro hc
    simp [getSessions, getSessionsDetails, sessionListingResult, hc]

/-- C13, witness: a failure with exit code 21, no standard output and a diagnostic on
standard error gives the empty sequence in both listings. -/
theorem sessionListing_no_active_session_witness :
    getSessions
        (ExecOutcome.rejected
          { code := some 21, stdout := [], stderr := "iscsiadm: No active sessions.".toList,
            timeout := false }) = Except.ok [] ∧
    getSessionsDetails
        (ExecOutcome.rejected
          { code := some 21, stdout := [], stderr := "iscsiadm: No active sessions.".toList,
            timeout := false }) = Except.ok [] :=
  (sessionListing_no_active_session
    { code := some 21, stdout := [], stderr := "iscsiadm: No active sessions.".toList,
      timeout := false }).1 rfl rfl

/-- C13, counterexample: a failure with exit code 21 whose standard output is `x` makes
`getSessions` raise, one whose standard output is a session line makes it return a record,
and one whose standard output has a third line makes `getSessionsDetails` return a
record. -/
theorem sessionListing_code21_counterexample :
    getSessions
        (ExecOutcome.rejected
          { code := some 21, stdout := "x".toList, stderr := [], timeout := false }) =
      Except.error JsError.typeError ∧
    getSessions
        (ExecOutcome.rejected
          { code := some 21, stdout := "tcp: [1] 10.0.0.1:3260,1 iqn.a".toList, stderr := [],
            timeout := false }) =
      Except.ok
        [{ protocol := "tcp".toList, id := some 1, portal := "10.0.0.1:3260".toList,
           target_portal_group_tag := JsValue.str "1".toList, iqn := "iqn.a".toList }] ∧
    getSessionsDetails
        (ExecOutcome.rejected
          { code := some 21, stdout := "a\nb\nc: d".toList, stderr := [], timeout := false }) =
      Except.ok [[("c".toList, SessionValue.str "d".toList)]] := by
  decide

/-! ## Short lines in the flat listings -/

theorem getElem?_none_of_length_le {α : Type} (l : List α) (i : Nat) (h : l.length ≤ i) :
    l[i]? = none := by
  rw [List.getElem?_eq_none_iff]
  exact h

theorem interfaceOfEntry_short (entry : Str) (h : (splitOn ' ' entry).length < 2) :
    interfaceOfEntry entry = Except.error JsError.typeError := by
  simp only [interfaceOfEntry, getElem?_none_of_length_le (splitOn ' ' entry) 1 (by omega)]

theorem interfaceOfEntry_error (entry : Str) (e : JsError)
    (h : interfaceOfEntry entry = Except.error e) : e = JsError.typeError := by
  simp only [interfaceOfEntry] at h
  split at h
  · simp only [Except.error.injEq] at h
    exact h.symm
  · cases h

theorem interfacesLoop_short (entries : List Str) (acc : List Interface)
    (h : ∃ entry ∈ entries, (splitOn ' ' entry).length < 2) :
    interfacesLoop entries acc = Except.error JsError.typeError := by
  induction entries generalizing acc with
  | nil =>
    obtain ⟨e, he, _⟩ := h
    cases he
  | cons x xs ih =>
    rw [interfacesLoop]
    cases hx : interfaceOfEntry x with
    | error e =>
      simp only
      rw [interfaceOfEntry_error x e hx]
    | ok i =>
      simp only
      apply ih
      obtain ⟨e, he, hlen⟩ := h
      rcases List.mem_cons.1 he with rfl | he
      · rw [interfaceOfEntry_short _ hlen] at hx
        cases hx
      · exact ⟨e, he, hlen⟩

theorem targetOfEntry_short (entry : Str) (h : (splitOn ' ' entry).length < 2) :
    targetOfEntry entry = Except.error JsError.typeError := by
  simp only [targetOfEntry, getElem?_none_of_length_le (splitOn ' ' entry) 1 (by omega)]

theorem targetOfEntry_error (entry : Str) (e : JsError)
    (h : targetOfEntry entry = Except.error e) : e = JsError.typeError := by
  simp only [targetOfEntry] at h
  split at h
  · simp only [Except.error.injEq] at h
    exact h.symm
  · cases h

theorem targetsLoop_short (entries : List Str) (acc : List Target)
    (h : ∃ entry ∈ entries, (splitOn ' ' entry).length < 2) :
    targetsLoop entries acc = Except.error JsError.typeError := by
  induction entries generalizing acc with
  | nil =>
    obtain ⟨e, he, _⟩ := h
    cases he
  | cons x xs ih =>
    rw [targetsLoop]
    cases hx : targetOfEntry x with
    | error e =>
      simp only
      rw [targetOfEntry_error x e hx]
    | ok i =>
      simp only
      apply ih
      obtain ⟨e, he, hlen⟩ := h
      rcases List.mem_cons.1 he with rfl | he
      · rw [targetOfEntry_short _ hlen] at hx
        cases hx
      · exact ⟨e, he, hlen⟩

theorem showInterfaceEntry_short (entry : Str) (i : List (Str × JsValue))
    (hc : startsWith entry [ '#'] = false) (h : (splitOn '=' entry).length < 2) :
    showInterfaceEntry entry i = Except.error JsError.typeError := by
  simp only [showInterfaceEntry, hc, Bool.false_eq_true, if_false,
    getElem?_none_of_length_le (splitOn '=' entry) 1 (by omega)]

theorem showInterfaceEntry_error (entry : Str) (i : List (Str × JsValue)) (e : JsError)
    (h : showInterfaceEntry entry i = Except.error e) : e = JsError.typeError := by
  simp only [showInterfaceEntry] at h
  split at h
  · cases h
  · split at h
    · simp only [Except.error.injEq] at h
      exact h.symm
    · cases h

theorem showInterfaceLoop_short (entries : List Str) (i : List (Str × JsValue))
    (h : ∃ entry ∈ entries, startsWith entry [ '#'] = false ∧ (splitOn '=' entry).length < 2) :
    showInterfaceLoop entries i = Except.error JsError.typeError := by
  induction entries generalizing i with
  | nil =>
    obtain ⟨e, he, _⟩ := h
    cases he
  | cons x xs ih =>
    rw [showInterfaceLoop]
    cases hx : showInterfaceEntry x i with
    | error e =>
      simp only
      rw [showInterfaceEntry_error x i e hx]
    | ok i2 =>
      simp only
      apply ih
      obtain ⟨e, he, hc, hlen⟩ := h
      rcases List.mem_cons.1 he with rfl | he
      · rw [showInterfaceEntry_short _ _ hc hlen] at hx
        cases hx
      · exact ⟨e, he, hc, hlen⟩

theorem sessionOfEntry_short (entry : Str) (h : (splitOn ' ' entry).length < 4) :
    sessionOfEntry entry = Except.error JsError.typeError := by
  have h3 := getElem?_none_of_length_le (splitOn ' ' entry) 3 (by omega)
  simp only [sessionOfEntry, h3]
  split
  · rename_i heq
    simp at heq
  · rfl

theorem sessionOfEntry_error (entry : Str) (e : JsError)
    (h : sessionOfEntry entry = Except.error e) : e = JsError.typeError := by
  simp only [sessionOfEntry] at h
  split at h
  · cases h
  · simp only [Except.error.injEq] at h
    exact h.symm

theorem sessionsLoop_short (entries : List Str) (acc : List SessionSummary)
    (h : ∃ entry ∈ entries, entry ≠ [] ∧ (splitOn ' ' entry).length < 4) :
    sessionsLoop entries acc = Except.error JsError.typeError := by
  induction entries generalizing acc with
  | nil =>
    obtain ⟨e, he, _⟩ := h
    cases he
  | cons x xs ih =>
    obtain ⟨e, he, hne, hlen⟩ := h
    rw [sessionsLoop]
    by_cases hx0 : x = []
    · rw [if_pos hx0]
      apply ih
      rcases List.mem_cons.1 he with rfl | he
      · exact absurd hx0 hne
      · exact ⟨e, he, hne, hlen⟩
    · rw [if_neg hx0]
      cases hx : sessionOfEntry x with
      | error err =>
        simp only
        rw [sessionOfEntry_error x err hx]
      | ok s =>
        simp only
        apply ih
        rcases List.mem_cons.1 he with rfl | he
        · rw [sessionOfEntry_short _ hlen] at hx
          cases hx
        · exact ⟨e, he, hne, hlen⟩

/-- C14: for every non-empty output, if some line has fewer than two space-separated fields,
`listInterfaces` and `discoverTargets` raise an error and return no record; if some line
that is not a comment has fewer than two `=`-separated fields, so does `showInterface`; and
if some non-empty line has fewer than four space-separated fields, so does `getSessions`. -/
theorem flat_parsers_reject_short_lines (result : ExecResult) (hne : result.stdout ≠ []) :
    ((∃ entry ∈ splitOn '\n' (trim result.stdout), (splitOn ' ' entry).length < 2) →
      listInterfaces (ExecOutcome.resolved result) = Except.error JsError.typeError) ∧
    ((∃ entry ∈ splitOn '\n' (trim result.stdout), (splitOn ' ' entry).length < 2) →
      discoverTargets (ExecOutcome.resolved result) = Except.error JsError.typeError) ∧
    ((∃ entry ∈ splitOn '\n' (trim result.stdout),
        startsWith entry [ '#'] = false ∧ (splitOn '=' entry).length < 2) →
      showInterface (ExecOutcome.resolved result) = Except.error JsError.typeError) ∧
    ((∃ entry ∈ splitOn '\n' (trim result.stdout),
        entry ≠ [] ∧ (splitOn ' ' entry).length < 4) →
      getSessions (ExecOutcome.resolved result) = Except.error JsError.typeError) := by
  refine ⟨?_, ?_, ?_, ?_⟩
  · intro h
    rw [listInterfaces]
    simp only [hne, if_false]
    exact interfacesLoop_short _ [] h
  · intro h
    rw [discoverTargets]
    simp only [hne, if_false]
    exact targetsLoop_short _ [] h
  · intro h
    rw [showInterface]
    exact showInterfaceLoop_short _ [] h
  · intro h
    simp only [getSessions, sessionListingResult, sessionsOfStdout, hne, if_false]
    exact sessionsLoop_short _ [] h

/-- C14, witness: an output whose second line has a single field makes all four parsers
raise. -/
theorem flat_parsers_reject_short_lines_witness :
    listInterfaces
        (ExecOutcome.resolved
          { code := some 0, stdout := "default tcp,a,b,c,d\nshort".toList, stderr := [],
            timeout := false }) = Except.error JsError.typeError ∧
    discoverTargets
        (ExecOutcome.resolved
          { code := some 0, stdout := "default tcp,a,b,c,d\nshort".toList, stderr := [],
            timeout := false }) = Except.error JsError.typeError ∧
    showInterface
        (ExecOutcome.resolved
          { code := some 0, stdout := "default tcp,a,b,c,d\nshort".toList, stderr := [],
            timeout := false }) = Except.error JsError.typeError ∧
    getSessions
        (ExecOutcome.resolved
          { code := some 0, stdout := "default tcp,a,b,c,d\nshort".toList, stderr := [],
            timeout := false }) = Except.error JsError.typeError :=
  ⟨(flat_parsers_reject_short_lines
      { code := some 0, stdout := "default tcp,a,b,c,d\nshort".toList, stderr := [],
        timeout := false } (by decide)).1 ⟨"short".toList, by decide, by decide⟩,
    (flat_parsers_reject_short_lines
      { code := some 0, stdout := "default tcp,a,b,c,d\nshort".toList, stderr := [],
        timeout := false } (by decide)).2.1 ⟨"short".toList, by decide, by decide⟩,
    (flat_parsers_reject_short_lines
      { code := some 0, stdout := "default tcp,a,b,c,d\nshort".toList, stderr := [],
        timeout := false } (by decide)).2.2.1 ⟨"short".toList, by decide, by decide, by decide⟩,
    (flat_parsers_reject_short_lines
      { code := some 0, stdout := "default tcp,a,b,c,d\nshort".toList, stderr := [],
        timeout := false } (by decide)).2.2.2 ⟨"short".toList, by decide, by decide, by decide⟩⟩

/-! ## Reaching a line of a group -/

theorem reaches_nil : Reaches [] [] none := fun _ => rfl

theorem reaches_step (pre : List (Option Str)) (session : SessionDetail) (cs : Option Str)
    (entry : Option Str) (mid : List (Option Str)) (session2 : SessionDetail) (cs2 : Option Str)
    (h : Reaches pre session cs)
    (hstep : ∀ rest, forBody entry (mid ++ rest) session cs = Except.ok (rest, session2, cs2)) :
    Reaches (pre ++ entry :: mid) session2 cs2 := by
  intro rest
  have e : pre ++ entry :: mid ++ rest = pre ++ (entry :: (mid ++ rest)) := by simp
  rw [e, h, parseFrom_cons _ _ _ _ _ _ _ (hstep rest)]

theorem reaches_sample :
    Reaches
      [some "Target: a".toList, some "\t\tCurrent Portal: b".toList, some "\t\t***".toList,
        some "\t\tAttached SCSI devices:".toList, some "\t\t***".toList]
      [("target".toList, SessionValue.str "a".toList),
        ("current_portal".toList, SessionValue.str "b".toList)]
      (some "attached_scsi_devices".toList) := by
  have h1 := reaches_step [] [] none (some "Target: a".toList) []
    [("target".toList, SessionValue.str "a".toList)] none reaches_nil (fun _ => rfl)
  have h2 := reaches_step _ _ _ (some "\t\tCurrent Portal: b".toList) []
    [("target".toList, SessionValue.str "a".toList),
      ("current_portal".toList, SessionValue.str "b".toList)] none h1 (fun _ => rfl)
  exact reaches_step _ _ _ (some "\t\t***".toList)
    [some "\t\tAttached SCSI devices:".toList, some "\t\t***".toList] _ _ h2 (fun _ => rfl)

/-! ## Device block cut short -/

/-- C15, as amended: for every session group whose parse reaches a `Host Number` line in the
`attached_scsi_devices` section, followed by complete device pairs and then by a last
`scsi` line that is the final line of the group (its state line is missing), the detailed
parse does not fail on that account, and no device is recorded for that last `scsi` line:
`host.devices` holds exactly the records of the complete pairs before it. -/
theorem truncated_device_block (session : SessionDetail) (fields : Section) (hostLine : Str)
    (pairs : List (Str × Str)) (a : Str) (pre : List (Option Str))
    (hkey : toLowerCase (lineKey (trim hostLine)) = "host_number".toList)
    (hopen : openSection session "attached_scsi_devices".toList = Except.ok fields)
    (hscsi : ∀ p ∈ pairs, isScsiLine p.1 = true)
    (hdisk : ∀ p ∈ pairs, p.2 ≠ [] → (splitOn ' ' p.2)[3]? ≠ none)
    (ha : isScsiLine a = true)
    (hpre : Reaches pre session (some "attached_scsi_devices".toList)) :
    parseSession (pre ++ some hostLine :: (deviceBlock pairs ++ [some a])) =
      Except.ok (sessionWithHost session fields hostLine (some (recordedDevices pairs))) ∧
    hostDevices (sessionWithHost session fields hostLine (some (recordedDevices pairs))) =
      some (some (recordedDevices pairs)) ∧
    (recordedDevices pairs).length ≤ pairs.length := by
  refine ⟨?_, hostDevices_sessionWithHost _ _ _ _, ?_⟩
  · rw [hpre, parseFrom_cons _ _ _ _ _ _ _
      (forBody_hostNumber hostLine _ session fields _ [] hkey hopen
        (devicesLoop_truncated pairs a hscsi hdisk ha))]
    rfl
  · exact List.length_filterMap_le _ _

/-- C15, witness: one complete device pair followed by a last `scsi` line without state
line gives one record, that of the complete pair. -/
theorem truncated_device_block_witness :
    parseSession
        ([some "Target: a".toList, some "\t\tCurrent Portal: b".toList, some "\t\t***".toList,
            some "\t\tAttached SCSI devices:".toList, some "\t\t***".toList] ++
          some "\t\tHost Number: 6\tState: running".toList ::
            (deviceBlock
              [("\t\tscsi6 Channel 00 Id 0 Lun: 0".toList,
                "\t\t\tAttached scsi disk sdb\t\tState: running".toList)] ++
              [some "\t\tscsi6 Channel 00 Id 0 Lun: 1".toList])) =
      Except.ok
        (sessionWithHost
          [("target".toList, SessionValue.str "a".toList),
            ("current_portal".toList, SessionValue.str "b".toList)]
          [] "\t\tHost Number: 6\tState: running".toList
          (some
            [{ channel := JsValue.str "00".toList, id := JsValue.str "0".toList,
               lun := JsValue.str "0".toList, attached_scsi_disk := "sdb".toList,
               state := "running".toList }])) :=
  (truncated_device_block
    [("target".toList, SessionValue.str "a".toList),
      ("current_portal".toList, SessionValue.str "b".toList)]
    [] "\t\tHost Number: 6\tState: running".toList
    [("\t\tscsi6 Channel 00 Id 0 Lun: 0".toList,
      "\t\t\tAttached scsi disk sdb\t\tState: running".toList)]
    "\t\tscsi6 Channel 00 Id 0 Lun: 1".toList _
    (by decide) (by decide) (by decide) (by decide) (by decide) reaches_sample).1

/-- C15, counterexample: in a group that ends with the `scsi` line of channel 00, id 0 and
lun 0, the parse succeeds and `host.devices` is empty: that device is not recorded. -/
theorem truncated_device_counterexample :
    (parseSession
        [some "Target: a".toList, some "\t\tCurrent Portal: b".toList, some "\t\t***".toList,
          some "\t\tAttached SCSI devices:".toList, some "\t\t***".toList,
          some "\t\tHost Number: 6\tState: running".toList,
          some "\t\tscsi6 Channel 00 Id 0 Lun: 0".toList]).map hostDevices
      = Except.ok (some (some [])) := by
  decide

/-! ## Brackets of a parsed host -/

theorem filter_brackets_bracketed (v : Str) (h1 : '[' ∉ v) (h2 : ']' ∉ v) :
    ('[' :: v ++ [ ']']).filter (fun c => decide (c ≠ '[' ∧ c ≠ ']')) = v := by
  have hv : v.filter (fun c => decide (c ≠ '[' ∧ c ≠ ']')) = v := by
    rw [List.filter_eq_self]
    intro c hc
    have a1 : c ≠ '[' := fun e => h1 (e ▸ hc)
    have a2 : c ≠ ']' := fun e => h2 (e ▸ hc)
    simp [a1, a2]
  rw [List.cons_append, List.filter_cons, List.filter_append, hv]
  simp

/-- C16, as amended: the host returned by `parsePortal` keeps the brackets of its input: for
every input `[v]:p` (`v` without `]`, `p` a decimal numeral) the stored host is `[v]`; the
brackets are removed only by `devicePathByPortalIQNLUN` when it renders the device path, in
which the host of `[v]:p` appears as `v`, and in which no host has a bracket left. -/
theorem parsePortal_keeps_brackets (v p : Str) (hp : IsDecimalNumeral p) (hv : ']' ∉ v)
    (isIP : Str → Nat) (hostname_lookup : Str → Option Str) (iqn lun : Str) :
    (parsePortal ('[' :: v ++ ']' :: ':' :: p)).host = '[' :: v ++ [ ']'] ∧
    ('[' ∉ v →
      devicePathByPortalIQNLUN isIP hostname_lookup ('[' :: v ++ ']' :: ':' :: p) iqn lun false =
        "/dev/disk/by-path/ip-".toList ++ v ++ [ ':'] ++ numberToStr (some (decimalValue p))
          ++ "-iscsi-".toList ++ iqn ++ "-lun-".toList ++ lun) ∧
    (∀ portal : Str, ∀ c ∈ removeAll ']' (removeAll '[' (parsePortal portal).host),
      c ≠ '[' ∧ c ≠ ']') := by
  have hpp := parsePortal_bracketed v p hp hv
  refine ⟨by rw [hpp], ?_, ?_⟩
  · intro hv1
    simp only [devicePathByPortalIQNLUN, Bool.false_and, Bool.false_eq_true, if_false,
      removeAll_brackets, hpp, filter_brackets_bracketed v hv1 hv]
    rfl
  · intro portal c hc
    rw [removeAll_brackets] at hc
    have := (List.mem_filter.1 hc).2
    simpa using this

/-- C16, witness: the host parsed from `[2001:db8::1]:3260` is `[2001:db8::1]`, with its
brackets. -/
theorem parsePortal_keeps_brackets_witness :
    (parsePortal ('[' :: "2001:db8::1".toList ++ ']' :: ':' :: "3260".toList)).host =
      '[' :: "2001:db8::1".toList ++ [ ']'] :=
  (parsePortal_keeps_brackets "2001:db8::1".toList "3260".toList ⟨by decide, by decide⟩
    (by decide) (fun _ => 6) (fun _ => none) [] []).1

/-- C16, counterexample: the host parsed from `[::1]:3260` is `[::1]`, which starts with `[`
and ends with `]`; it is not `::1`. -/
theorem parsePortal_brackets_counterexample :
    (parsePortal "[::1]:3260".toList).host = "[::1]".toList ∧
    (parsePortal "[::1]:3260".toList).host ≠ "::1".toList := by
  decide

/-! ## Section headers -/

theorem uniqueChars_stars_seen (line : Str) (h : ∀ c ∈ line, c = '*') :
    uniqueChars line [ '*'] = [ '*'] := by
  induction line with
  | nil => rfl
  | cons c t ih =>
    have hc := h c (by simp)
    subst hc
    rw [uniqueChars, if_pos (by simp)]
    exact ih (fun d hd => h d (by simp [hd]))

theorem uniqueChars_stars (line : Str) (hne : line ≠ []) (h : ∀ c ∈ line, c = '*') :
    uniqueChars line [] = [ '*'] := by
  cases line with
  | nil => exact absurd rfl hne
  | cons c t =>
    have hc := h c (by simp)
    subst hc
    rw [uniqueChars, if_neg (by simp)]
    exact uniqueChars_stars_seen t (fun d hd => h d (by simp [hd]))

theorem isStarLine_iff (raw : Str) : IsStarLine raw ↔ uniqueChars (trim raw) [] = [ '*'] := by
  constructor
  · intro h
    exact uniqueChars_stars _ h.1 h.2
  · intro h
    refine ⟨?_, all_stars_of_uniqueChars _ h⟩
    intro e
    rw [e] at h
    revert h
    decide

theorem forBody_header (raw next : Str) (third : Option Str) (rest : List (Option Str))
    (session : SessionDetail) (cs : Option Str) (h : IsStarLine raw) :
    forBody (some raw) (some next :: third :: rest) session cs =
      Except.ok (rest, session, some (sectionName next)) := by
  have hs := (isStarLine_iff raw).1 h
  simp only [forBody, hs, if_true, List.drop_succ_cons, List.drop_zero]

theorem forBody_header_last (raw next : Str) (session : SessionDetail) (cs : Option Str)
    (h : IsStarLine raw) :
    forBody (some raw) [some next] session cs =
      Except.ok ([], session, some (sectionName next)) := by
  have hs := (isStarLine_iff raw).1 h
  simp only [forBody, hs, if_true, List.drop_nil]

theorem forBody_header_alone (raw : Str) (session : SessionDetail) (cs : Option Str)
    (h : IsStarLine raw) :
    forBody (some raw) [] session cs = Except.error JsError.typeError := by
  have hs := (isStarLine_iff raw).1 h
  simp only [forBody, hs, if_true]

theorem forBody_section_field (raw : Str) (lines : List (Option Str)) (session : SessionDetail)
    (name : Str) (fields : Section) (hstar : ¬ IsStarLine raw) (hname : name ≠ [])
    (hopen : openSection session name = Except.ok fields)
    (hnot : ¬ (name = "attached_scsi_devices".toList ∧
      toLowerCase (lineKey (trim raw)) = "host_number".toList)) :
    forBody (some raw) lines session (some name) =
      Except.ok
        (lines,
          setField name
            (SessionValue.section
              (setField (storedKey name (lineKey (trim raw)))
                (SectionValue.str (lineValue (trim raw))) fields))
            session,
          some name) := by
  have hs : ¬ uniqueChars (trim raw) [] = [ '*'] := fun e => hstar ((isStarLine_iff raw).2 e)
  unfold forBody
  simp only [if_neg hs, Option.getD_some, hopen, if_neg hnot, storedKey]
  rw [if_pos hname]

theorem getField_setField_ne {α : Type} (key k : Str) (value : α) (o : List (Str × α))
    (h : k ≠ key) : getField k (setField key value o) = getField k o := by
  induction o with
  | nil => simp [setField, getField, Ne.symm h]
  | cons kv o ih =>
    obtain ⟨k2, v2⟩ := kv
    by_cases h2 : k2 = key
    · subst h2
      simp [setField, getField, Ne.symm h]
    · by_cases h3 : k2 = k
      · subst h3
        simp [setField, getField, h2]
      · simp [setField, getField, h2, h3, ih]

/-- C17, as amended: whenever the scan of a session group stands at a line that, after
trimming, is non-empty and consists only of `*`, and another line follows, that following
line normalised by trim, lower-casing, space to `_` and removal of every non-word character
becomes the current section name (`Attached SCSI devices:` gives `attached_scsi_devices`,
`Negotiated iSCSI params:` gives `negotiated_iscsi_params`); the star line, the name line
and the line after it are consumed and none of them is stored; and while that section name
is current and not empty, every line that is neither a line of stars nor a `Host Number`
line of `attached_scsi_devices` is stored under the object of that section, the other
top-level properties being left as they were. -/
theorem section_header (raw next : Str) (session : SessionDetail) (cs : Option Str)
    (hstar : IsStarLine raw) :
    (∀ third rest, forBody (some raw) (some next :: third :: rest) session cs =
      Except.ok (rest, session, some (sectionName next))) ∧
    (∀ third rest, parseFrom (some raw :: some next :: third :: rest) session cs =
      parseFrom rest session (some (sectionName next))) ∧
    forBody (some raw) [some next] session cs =
      Except.ok ([], session, some (sectionName next)) ∧
    sectionName "Attached SCSI devices:".toList = "attached_scsi_devices".toList ∧
    sectionName "Negotiated iSCSI params:".toList = "negotiated_iscsi_params".toList ∧
    (∀ (line : Str) (lines : List (Option Str)) (session2 : SessionDetail) (fields : Section),
      sectionName next ≠ [] → openSection session2 (sectionName next) = Except.ok fields →
      ¬ IsStarLine line →
      ¬ (sectionName next = "attached_scsi_devices".toList ∧
        toLowerCase (lineKey (trim line)) = "host_number".toList) →
      ∃ session3 fields3,
        forBody (some line) lines session2 (some (sectionName next)) =
          Except.ok (lines, session3, some (sectionName next)) ∧
        getField (sectionName next) session3 = some (SessionValue.section fields3) ∧
        getField (storedKey (sectionName next) (lineKey (trim line))) fields3 =
          some (SectionValue.str (lineValue (trim line))) ∧
        ∀ k, k ≠ sectionName next → getField k session3 = getField k session2) := by
  refine ⟨fun third rest => forBody_header raw next third rest session cs hstar, ?_,
    forBody_header_last raw next session cs hstar, by decide, by decide, ?_⟩
  · intro third rest
    exact parseFrom_cons _ _ _ _ _ _ _ (forBody_header raw next third rest session cs hstar)
  · intro line lines session2 fields hname hopen hline hnot
    refine ⟨_, _, forBody_section_field line lines session2 _ fields hline hname hopen hnot,
      getField_setField _ _ _, getField_setField _ _ _, ?_⟩
    intro k hk
    exact getField_setField_ne _ _ _ _ hk

/-- C17, witness: the header `***`, `Attached SCSI devices:`, `***` sets the section name
`attached_scsi_devices` and is consumed whole. -/
theorem section_header_witness :
    forBody (some "\t\t***".toList)
        [some "\t\tAttached SCSI devices:".toList, some "\t\t***".toList,
          some "\t\tHost Number: 6\tState: running".toList]
        [("target".toList, SessionValue.str "a".toList)] none =
      Except.ok
        ([some "\t\tHost Number: 6\tState: running".toList],
          [("target".toList, SessionValue.str "a".toList)],
          some (sectionName "\t\tAttached SCSI devices:".toList)) :=
  (section_header "\t\t***".toList "\t\tAttached SCSI devices:".toList
    [("target".toList, SessionValue.str "a".toList)] none ⟨by decide, by decide⟩).1 _ _

/-- C17, counterexample: a line of stars that is the last line of its group makes the
parse raise instead of naming a section; and after a header whose name line `!!!` has no
word character the section name is empty, so that the line `a: b` is stored at top level. -/
theorem section_header_counterexample :
    parseSession [some "Target: a".toList, some "***".toList] =
      Except.error JsError.typeError ∧
    sectionName "!!!".toList = [] ∧
    parseSession [some "***".toList, some "!!!".toList, some "***".toList, some "a: b".toList] =
      Except.ok [("a".toList, SessionValue.str "b".toList)] := by
  decide

/-! ## Keys of the negotiated parameters -/

theorem lowerChar_of_isLowerAscii (c : Char) (h : IsLowerAscii c) : lowerChar c = [c] := by
  obtain ⟨h1, h2⟩ := h
  have a1 : ¬ c.toNat = 0x212A := by omega
  have a2 : ¬ c.toNat = 0x130 := by omega
  simp [lowerChar, h1, a1, a2]

theorem toLowerCase_of_isLowerAscii (s : Str) (h : ∀ c ∈ s, IsLowerAscii c) :
    toLowerCase s = s := by
  induction s with
  | nil => rfl
  | cons c t ih =>
    have hc := lowerChar_of_isLowerAscii c (h c (by simp))
    have ht := ih (fun d hd => h d (by simp [hd]))
    simp only [toLowerCase] at ht ⊢
    rw [List.flatMap_cons, hc, ht]
    rfl

theorem asciiLower_upper (c : Char) (h : isUpperAZ c = true) :
    IsLowerAscii (asciiLower c) ∧ lowerChar c = [asciiLower c] := by
  have hl : lowerChar c = [asciiLower c] := by simp [lowerChar, asciiLower, h]
  refine ⟨?_, hl⟩
  simp only [asciiLower, h, if_true]
  simp only [isUpperAZ, Bool.and_eq_true, decide_eq_true_eq] at h
  have hc : c = Char.ofNat c.toNat := (Char.ofNat_toNat c).symm
  rw [hc]
  generalize c.toNat = n at h
  obtain ⟨h1, h2⟩ := h
  interval_cases n <;> exact ⟨by decide, by decide⟩

theorem asciiLower_alnum (c : Char) (h : isAsciiAlnum c = true) :
    IsLowerAscii (asciiLower c) ∧ lowerChar c = [asciiLower c] := by
  by_cases hu : isUpperAZ c = true
  · exact asciiLower_upper c hu
  · have hu2 : isUpperAZ c = false := by simpa using hu
    have hlt : c.toNat < 128 := by
      simp only [isAsciiAlnum, Bool.or_eq_true, Bool.and_eq_true, decide_eq_true_eq] at h
      omega
    have hl : IsLowerAscii c := ⟨hu2, hlt⟩
    simp only [asciiLower, hu2, Bool.false_eq_true, if_false]
    exact ⟨hl, lowerChar_of_isLowerAscii c hl⟩

theorem isLowerAscii_alnum_not_upper (c : Char) (h : isAsciiAlnum c = true)
    (hu : isUpperAZ c = false) : IsLowerAscii c := by
  refine ⟨hu, ?_⟩
  simp only [isAsciiAlnum, Bool.or_eq_true, Bool.and_eq_true, decide_eq_true_eq] at h
  omega

theorem snakeCase_lowerFirst (K : Str) (h : ∀ c ∈ K, isAsciiAlnum c = true) :
    snakeCase (lowerFirst K) = negotiatedKey K := by
  cases K with
  | nil => rfl
  | cons c rest =>
    obtain ⟨⟨h1, _⟩, h2⟩ := asciiLower_alnum c (h c (by simp))
    have e : snakeCase rest =
        rest.flatMap (fun d => if isUpperAZ d then [ '_', asciiLower d] else [d]) := by
      unfold snakeCase
      apply List.flatMap_congr
      intro d hd
      by_cases hu : isUpperAZ d = true
      · simp [hu, (asciiLower_upper d hu).2]
      · simp [hu]
    simp only [lowerFirst, h2, negotiatedKey]
    rw [← e]
    simp [snakeCase, h1]

theorem isLowerAscii_negotiatedKey (K : Str) (h : ∀ c ∈ K, isAsciiAlnum c = true) :
    ∀ c ∈ negotiatedKey K, IsLowerAscii c := by
  cases K with
  | nil => intro c hc; cases hc
  | cons a rest =>
    intro c hc
    simp only [negotiatedKey, List.mem_cons, List.mem_flatMap] at hc
    rcases hc with rfl | ⟨d, hd, hcd⟩
    · exact (asciiLower_alnum a (h a (by simp))).1
    · have hda := h d (by simp [hd])
      by_cases hu : isUpperAZ d = true
      · simp only [hu, if_true, List.mem_cons, List.mem_singleton, List.not_mem_nil,
          or_false] at hcd
        rcases hcd with rfl | rfl
        · exact ⟨by decide, by decide⟩
        · exact (asciiLower_upper d hu).1
      · have hu2 : isUpperAZ d = false := by simpa using hu
        simp only [hu2, Bool.false_eq_true, if_false, List.mem_singleton] at hcd
        subst hcd
        exact isLowerAscii_alnum_not_upper c hda hu2

theorem joinWith_cons_cons (sep c : Char) (f : Str) (fs : List Str) :
    joinWith sep ((c :: f) :: fs) = c :: joinWith sep (f :: fs) := by
  cases fs <;> rfl

theorem joinWith_splitOn (sep : Char) (s : Str) : joinWith sep (splitOn sep s) = s := by
  induction s with
  | nil => rfl
  | cons c t ih =>
    rw [splitOn]
    by_cases hc : c = sep
    · rw [if_pos hc]
      cases hs : splitOn sep t with
      | nil => exact absurd hs (splitOn_ne_nil sep t)
      | cons f fs =>
        rw [hs] at ih
        simp only [joinWith, List.nil_append]
        rw [ih, hc]
    · rw [if_neg hc]
      cases hs : splitOn sep t with
      | nil => exact absurd hs (splitOn_ne_nil sep t)
      | cons f fs =>
        rw [hs] at ih
        simp only
        rw [joinWith_cons_cons, ih]

theorem afterFirst_append (sep : Char) (a b : Str) (h : sep ∉ a) :
    afterFirst sep (a ++ sep :: b) = b := by
  rw [afterFirst, splitOn_append sep a b h]
  exact joinWith_splitOn sep b

theorem head_splitOn_append (sep : Char) (a b : Str) (h : sep ∉ a) :
    (splitOn sep (a ++ sep :: b)).headD [] = a := by
  rw [splitOn_append sep a b h]
  rfl

theorem lineKey_of_alnum (K w : Str) (h : ∀ c ∈ K, isAsciiAlnum c = true) :
    lineKey (K ++ ':' :: w) = K := by
  have hcolon : ':' ∉ K := fun hm => by
    have := h _ hm
    revert this
    decide
  have hws : NoWhiteSpace K := by
    intro c hc
    have := h c hc
    simp only [isAsciiAlnum, Bool.or_eq_true, Bool.and_eq_true, decide_eq_true_eq] at this
    simp only [isWhiteSpace, Bool.or_eq_false_iff, beq_eq_false_iff_ne, Bool.and_eq_false_iff,
      decide_eq_false_iff_not, ne_eq]
    omega
  have hsp : spacesToUnderscores K = K := by
    unfold spacesToUnderscores
    conv_rhs => rw [← List.map_id K]
    apply List.map_congr_left
    intro c hc
    have : c ≠ ' ' := fun e => by
      have := h c hc
      rw [e] at this
      revert this
      decide
    simp [this]
  have hword : stripNonWord K = K := by
    unfold stripNonWord
    rw [List.filter_eq_self]
    intro c hc
    have := h c hc
    simp only [isAsciiAlnum, Bool.or_eq_true, Bool.and_eq_true, decide_eq_true_eq] at this
    simp only [isWordChar, Bool.or_eq_true, Bool.and_eq_true, decide_eq_true_eq, beq_iff_eq]
    omega
  rw [lineKey, head_splitOn_append ':' K w hcolon, trim_of_noWhiteSpace K hws, hsp, hword]

theorem not_isStarLine_of_alnum (raw K w : Str) (hK : K ≠ [])
    (h : ∀ c ∈ K, isAsciiAlnum c = true) (hline : trim raw = K ++ ':' :: w) :
    ¬ IsStarLine raw := by
  intro hs
  cases K with
  | nil => exact hK rfl
  | cons c t =>
    have h1 := hs.2 c (by rw [hline]; simp)
    have h2 := h c (by simp)
    rw [h1] at h2
    revert h2
    decide

/-- C18: for every line `K:` followed by any text inside the section
`negotiated_iscsi_params`, where `K` is a non-empty word of ASCII letters and digits, the
value is stored in that section under the key made of the first character of `K` in lower
case followed by the later characters, each upper-case letter among them replaced by `_`
and its lower case; the stored key has no upper-case letter (`HeaderDigest` gives
`header_digest`, `MaxRecvDataSegmentLength` gives `max_recv_data_segment_length`); and the
stored value is the trimmed text after the first `:`. -/
theorem negotiated_key (raw K w : Str) (lines : List (Option Str)) (session : SessionDetail)
    (fields : Section) (hK : K ≠ []) (halnum : ∀ c ∈ K, isAsciiAlnum c = true)
    (hline : trim raw = K ++ ':' :: w)
    (hopen : openSection session "negotiated_iscsi_params".toList = Except.ok fields) :
    (∃ session2 fields2,
      forBody (some raw) lines session (some "negotiated_iscsi_params".toList) =
        Except.ok (lines, session2, some "negotiated_iscsi_params".toList) ∧
      getField "negotiated_iscsi_params".toList session2 = some (SessionValue.section fields2) ∧
      getField (negotiatedKey K) fields2 = some (SectionValue.str (trim w)) ∧
      fields2 = setField (negotiatedKey K) (SectionValue.str (trim w)) fields) ∧
    (∀ c ∈ negotiatedKey K, isUpperAZ c = false) ∧
    negotiatedKey "HeaderDigest".toList = "header_digest".toList ∧
    negotiatedKey "MaxRecvDataSegmentLength".toList = "max_recv_data_segment_length".toList := by
  have hstar := not_isStarLine_of_alnum raw K w hK halnum hline
  have hcolon : ':' ∉ K := fun hm => by
    have := halnum _ hm
    revert this
    decide
  have hkey : lineKey (trim raw) = K := by rw [hline, lineKey_of_alnum K w halnum]
  have hval : lineValue (trim raw) = trim w := by
    rw [lineValue, hline, afterFirst_append ':' K w hcolon]
  have hstored : storedKey "negotiated_iscsi_params".toList K = negotiatedKey K := by
    have e1 : ¬ ("negotiated_iscsi_params".toList = "attached_scsi_devices".toList) := by decide
    simp only [storedKey, if_neg e1, if_true, snakeCase_lowerFirst K halnum]
    exact toLowerCase_of_isLowerAscii _ (isLowerAscii_negotiatedKey K halnum)
  have hstep := forBody_section_field raw lines session "negotiated_iscsi_params".toList fields
    hstar (by decide) hopen (by
      intro h
      exact absurd h.1 (by decide))
  rw [hkey, hval, hstored] at hstep
  refine ⟨⟨_, _, hstep, getField_setField _ _ _, getField_setField _ _ _, rfl⟩, ?_, by decide,
    by decide⟩
  intro c hc
  exact (isLowerAscii_negotiatedKey K halnum c hc).1

/-- C18, witness: the line `HeaderDigest: None` read in the empty section stores `None`
under `header_digest`. -/
theorem negotiated_key_witness :
    ∃ session2 fields2,
      forBody (some "\t\tHeaderDigest: None".toList) [] []
          (some "negotiated_iscsi_params".toList) =
        Except.ok ([], session2, some "negotiated_iscsi_params".toList) ∧
      getField "negotiated_iscsi_params".toList session2 = some (SessionValue.section fields2) ∧
      getField (negotiatedKey "HeaderDigest".toList) fields2 =
        some (SectionValue.str (trim " None".toList)) ∧
      fields2 =
        setField (negotiatedKey "HeaderDigest".toList) (SectionValue.str (trim " None".toList)) [] :=
  (negotiated_key "\t\tHeaderDigest: None".toList "HeaderDigest".toList " None".toList [] [] []
    (by decide) (by decide) (by decide) (by decide)).1

/-! ## Top-level fields -/

theorem head?_trimStart_not_ws (s : Str) (c : Char) (h : (trimStart s).head? = some c) :
    isWhiteSpace c = false := by
  have := List.head?_dropWhile_not isWhiteSpace s
  unfold trimStart at h
  rw [h] at this
  simpa using this

theorem getLast?_trimEnd_not_ws (s : Str) (c : Char) (h : (trimEnd s).getLast? = some c) :
    isWhiteSpace c = false := by
  unfold trimEnd at h
  rw [List.getLast?_reverse] at h
  have := List.head?_dropWhile_not isWhiteSpace s.reverse
  rw [h] at this
  simpa using this

theorem trimEnd_trimEnd (s : Str) : trimEnd (trimEnd s) = trimEnd s :=
  trimEnd_eq_self _ (getLast?_trimEnd_not_ws s)

theorem head?_trimEnd (s : Str) (c : Char) (h : (trimEnd s).head? = some c) :
    s.head? = some c := by
  cases s with
  | nil => simp [trimEnd] at h
  | cons x t =>
    have e := trimEnd_append [x] t
    simp only [List.singleton_append] at e
    rw [e] at h
    split at h
    · have hx : trimEnd [x] = [x] ∨ trimEnd [x] = [] := by
        by_cases hw : isWhiteSpace x = true
        · right; simp [trimEnd, hw]
        · left; simp [trimEnd, hw]
      rcases hx with hx | hx
      · rw [hx] at h
        simpa using h
      · rw [hx] at h
        cases h
    · simpa using h

theorem noOuterWhiteSpace_trim (s : Str) : NoOuterWhiteSpace (trim s) := by
  constructor
  · intro c hc
    exact head?_trimStart_not_ws s c (head?_trimEnd _ c hc)
  · intro c hc
    exact getLast?_trimEnd_not_ws _ c hc

theorem trim_trim (s : Str) : trim (trim s) = trim s :=
  trim_eq_self _ (noOuterWhiteSpace_trim s)

theorem isWordChar_not_ws (c : Char) (h : isWordChar c = true) :
    isWhiteSpace c = false ∧ c.toNat < 128 := by
  simp only [isWordChar, Bool.or_eq_true, Bool.and_eq_true, decide_eq_true_eq, beq_iff_eq] at h
  have hlt : c.toNat < 128 := by
    rcases h with ((h | h) | h) | h
    · omega
    · omega
    · omega
    · rw [h]; decide
  refine ⟨?_, hlt⟩
  rcases h with ((h | h) | h) | h
  · simp only [isWhiteSpace, Bool.or_eq_false_iff, beq_eq_false_iff_ne, Bool.and_eq_false_iff,
      decide_eq_false_iff_not, ne_eq]
    omega
  · simp only [isWhiteSpace, Bool.or_eq_false_iff, beq_eq_false_iff_ne, Bool.and_eq_false_iff,
      decide_eq_false_iff_not, ne_eq]
    omega
  · simp only [isWhiteSpace, Bool.or_eq_false_iff, beq_eq_false_iff_ne, Bool.and_eq_false_iff,
      decide_eq_false_iff_not, ne_eq]
    omega
  · rw [h]; decide

theorem lowerChar_word_not_ws (c : Char) (h : isWordChar c = true) :
    ∀ d ∈ lowerChar c, isWhiteSpace d = false := by
  by_cases hu : isUpperAZ c = true
  · obtain ⟨⟨h1, h2⟩, h3⟩ := asciiLower_upper c hu
    rw [h3]
    intro d hd
    rw [List.mem_singleton] at hd
    subst hd
    simp only [asciiLower, hu, if_true]
    simp only [isUpperAZ, Bool.and_eq_true, decide_eq_true_eq] at hu
    have hc : c = Char.ofNat c.toNat := (Char.ofNat_toNat c).symm
    rw [hc]
    generalize c.toNat = n at hu
    obtain ⟨a1, a2⟩ := hu
    interval_cases n <;> decide
  · have hu2 : isUpperAZ c = false := by simpa using hu
    obtain ⟨hw, hlt⟩ := isWordChar_not_ws c h
    rw [lowerChar_of_isLowerAscii c ⟨hu2, hlt⟩]
    intro d hd
    rw [List.mem_singleton] at hd
    rw [hd]
    exact hw

theorem noWhiteSpace_topLevelKey (a : Str) : NoWhiteSpace (topLevelKey a) := by
  intro d hd
  simp only [topLevelKey, toLowerCase, List.mem_flatMap] at hd
  obtain ⟨c, hc, hdc⟩ := hd
  have hw : isWordChar c = true := by
    unfold stripNonWord at hc
    exact (List.mem_filter.1 hc).2
  exact lowerChar_word_not_ws c hw d hdc

theorem not_mem_head_splitOn (sep : Char) (s : Str) : sep ∉ (splitOn sep s).headD [] := by
  induction s with
  | nil => simp [splitOn]
  | cons c t ih =>
    rw [splitOn]
    by_cases hc : c = sep
    · rw [if_pos hc]
      simp
    · rw [if_neg hc]
      cases hs : splitOn sep t with
      | nil => simp [Ne.symm hc]
      | cons f fs =>
        rw [hs] at ih
        simp only [List.headD_cons] at ih ⊢
        intro hm
        rcases List.mem_cons.1 hm with e | e
        · exact hc e.symm
        · exact ih e

theorem not_isStarLine_of_colon (raw a b : Str) (hline : trim raw = a ++ ':' :: b) :
    ¬ IsStarLine raw := by
  intro hs
  have := hs.2 ':' (by rw [hline]; simp)
  revert this
  decide

theorem forBody_top (raw : Str) (lines : List (Option Str)) (session : SessionDetail)
    (cs : Option Str) (hstar : ¬ IsStarLine raw) (hcs : cs.getD [] = []) :
    forBody (some raw) lines session cs =
      Except.ok
        (lines,
          setField (trim (toLowerCase (lineKey (trim raw))))
            (SessionValue.str
              (trim
                (if toLowerCase (lineKey (trim raw)) = "target".toList then
                  (splitOn ' ' (lineValue (trim raw))).headD []
                else lineValue (trim raw))))
            session,
          cs) := by
  have hs : ¬ uniqueChars (trim raw) [] = [ '*'] := fun e => hstar ((isStarLine_iff raw).2 e)
  unfold forBody
  simp only [if_neg hs, hcs, ne_eq, not_true_eq_false, if_false]

theorem forBody_top_colon (raw a b : Str) (lines : List (Option Str)) (session : SessionDetail)
    (cs : Option Str) (hcs : cs.getD [] = []) (hline : trim raw = a ++ ':' :: b)
    (ha : ':' ∉ a) :
    forBody (some raw) lines session cs =
      Except.ok
        (lines,
          setField (topLevelKey a)
            (SessionValue.str
              (if topLevelKey a = "target".toList then trim ((splitOn ' ' (trim b)).headD [])
               else trim b))
            session,
          cs) := by
  have hstar := not_isStarLine_of_colon raw a b hline
  have hkey : toLowerCase (lineKey (trim raw)) = topLevelKey a := by
    rw [hline, lineKey, head_splitOn_append ':' a b ha]
    rfl
  have hval : lineValue (trim raw) = trim b := by
    rw [lineValue, hline, afterFirst_append ':' a b ha]
  rw [forBody_top raw lines session cs hstar hcs, hkey, hval,
    trim_of_noWhiteSpace _ (noWhiteSpace_topLevelKey a)]
  by_cases ht : topLevelKey a = "target".toList
  · simp only [ht, if_true]
  · simp only [ht, if_false, trim_trim]

theorem trimEnd_append_of_last (a b : Str)
    (ha : ∀ c, a.getLast? = some c → isWhiteSpace c = false) :
    trimEnd (a ++ b) = a ++ trimEnd b := by
  rw [trimEnd_append]
  split
  · rename_i h
    rw [h, trimEnd_eq_self a ha, List.append_nil]
  · rfl

theorem trimEnd_space_cons (A : Str) :
    trimEnd (' ' :: A) = [] ∨ trimEnd (' ' :: A) = ' ' :: trimEnd A := by
  have e := trimEnd_append [ ' '] A
  simp only [List.singleton_append] at e
  rw [e]
  split
  · left; decide
  · right; rfl

theorem getLast?_append_noWhiteSpace (p X : Str) (hX : X ≠ []) (hXw : NoWhiteSpace X) :
    ∀ c, (p ++ X).getLast? = some c → isWhiteSpace c = false := by
  intro c hc
  rw [List.getLast?_append_of_ne_nil _ hX] at hc
  exact hXw c (List.mem_of_getLast?_eq_some hc)

theorem trim_target_line (X A : Str) (hX : X ≠ []) (hXw : NoWhiteSpace X) :
    trim ("Target: ".toList ++ X ++ ' ' :: A)
        = "Target".toList ++ ':' :: (' ' :: X ++ trimEnd (' ' :: A)) ∧
      trim (' ' :: X ++ trimEnd (' ' :: A)) = X ++ trimEnd (' ' :: A) ∧
      (splitOn ' ' (X ++ trimEnd (' ' :: A))).headD [] = X := by
  obtain ⟨x, X2, rfl⟩ := List.exists_cons_of_ne_nil hX
  have hx : isWhiteSpace x = false := hXw x (by simp)
  have hsp : ' ' ∉ x :: X2 := by
    intro hm
    have := hXw ' ' hm
    revert this
    decide
  refine ⟨?_, ?_, ?_⟩
  · have h1 : trimStart ("Target: ".toList ++ (x :: X2) ++ ' ' :: A)
        = "Target: ".toList ++ (x :: X2) ++ ' ' :: A := by
      apply trimStart_eq_self
      intro c hc
      have : c = 'T' := by
        simp only [String.toList, List.cons_append, List.head?_cons, Option.some.injEq] at hc
        exact hc.symm
      rw [this]
      decide
    rw [trim, h1, trimEnd_append_of_last _ _
      (getLast?_append_noWhiteSpace "Target: ".toList (x :: X2) hX hXw)]
    simp
  · have h1 : trimStart (' ' :: (x :: X2) ++ trimEnd (' ' :: A))
        = (x :: X2) ++ trimEnd (' ' :: A) := by
      have hs : isWhiteSpace ' ' = true := by decide
      rw [trimStart, List.cons_append, List.dropWhile_cons, if_pos hs, List.cons_append,
        List.dropWhile_cons, hx]
      rfl
    have hl : ∀ c, (x :: X2).getLast? = some c → isWhiteSpace c = false :=
      fun c hc => hXw c (List.mem_of_getLast?_eq_some hc)
    rw [trim, h1, trimEnd_append_of_last _ _ hl, trimEnd_trimEnd]
  · rcases trimEnd_space_cons A with e | e
    · rw [e, List.append_nil, splitOn_not_mem _ _ hsp]
      rfl
    · rw [e, splitOn_append _ _ _ hsp]
      rfl

theorem forBody_target_line (X A : Str) (hX : X ≠ []) (hXw : NoWhiteSpace X)
    (lines : List (Option Str)) (session : SessionDetail) (cs : Option Str)
    (hcs : cs.getD [] = []) :
    forBody (some ("Target: ".toList ++ X ++ ' ' :: A)) lines session cs
      = Except.ok (lines, setField "target".toList (SessionValue.str X) session, cs) := by
  obtain ⟨h1, h2, h3⟩ := trim_target_line X A hX hXw
  have hk : topLevelKey "Target".toList = "target".toList := by decide
  rw [forBody_top_colon _ _ _ lines session cs hcs h1 (by decide), hk, if_pos rfl, h2, h3,
    trim_of_noWhiteSpace X hXw]

/-- C19, as amended: outside any section, a line whose trimmed text is `a:b`, with
no colon in `a`, is stored under the key made from the trimmed `a` (spaces turned
into `_`, non-word characters removed, lower case); the stored value is the trimmed
`b`, later colons included, unless the key is `target`, in which case it is the
trimmed `b` cut at its first space and holds no space. A group whose first line is
`Target: X A`, with `X` not empty and free of white space, starts the session with
`target = X`. -/
theorem top_level_field (raw a b : Str) (lines : List (Option Str)) (session : SessionDetail)
    (cs : Option Str) (hcs : cs.getD [] = []) (hline : trim raw = a ++ ':' :: b)
    (ha : ':' ∉ a) :
    (∃ v,
      forBody (some raw) lines session cs =
        Except.ok (lines, setField (topLevelKey a) (SessionValue.str v) session, cs) ∧
      getField (topLevelKey a) (setField (topLevelKey a) (SessionValue.str v) session) =
        some (SessionValue.str v) ∧
      (topLevelKey a ≠ "target".toList → v = trim b) ∧
      (topLevelKey a = "target".toList →
        v = trim ((splitOn ' ' (trim b)).headD []) ∧ ' ' ∉ v)) ∧
    (∀ (X A : Str) (rest : List (Option Str)), X ≠ [] → NoWhiteSpace X →
      parseSession (some ("Target: ".toList ++ X ++ ' ' :: A) :: rest) =
        parseFrom rest [("target".toList, SessionValue.str X)] none) := by
  constructor
  · refine ⟨_, forBody_top_colon raw a b lines session cs hcs hline ha,
      getField_setField _ _ _, ?_, ?_⟩
    · intro h
      rw [if_neg h]
    · intro h
      rw [if_pos h]
      refine ⟨rfl, ?_⟩
      intro hm
      exact not_mem_head_splitOn ' ' (trim b) (mem_of_mem_trim _ _ hm)
  · intro X A rest hX hXw
    exact parseFrom_cons _ _ _ _ _ _ _ (forBody_target_line X A hX hXw rest [] none rfl)

/-- C19, witness: the top-level line `Current Portal: 10.0.0.1:3260,1` is stored
under `current_portal` with the value `10.0.0.1:3260,1`, and the group made of the
single line `Target: iqn.2003-01.org:t (non-flash)` yields the target
`iqn.2003-01.org:t`. -/
theorem top_level_field_witness :
    (none : Option Str).getD [] = [] ∧
    trim "\tCurrent Portal: 10.0.0.1:3260,1".toList
      = "Current Portal".toList ++ ':' :: " 10.0.0.1:3260,1".toList ∧
    ':' ∉ "Current Portal".toList ∧
    topLevelKey "Current Portal".toList = "current_portal".toList ∧
    forBody (some "\tCurrent Portal: 10.0.0.1:3260,1".toList) [] [] none =
      Except.ok ([], [("current_portal".toList, SessionValue.str "10.0.0.1:3260,1".toList)],
        none) ∧
    parseSession [some ("Target: ".toList ++ "iqn.2003-01.org:t".toList ++ ' ' ::
        "(non-flash)".toList)] =
      Except.ok [("target".toList, SessionValue.str "iqn.2003-01.org:t".toList)] := by
  have h := top_level_field "\tCurrent Portal: 10.0.0.1:3260,1".toList "Current Portal".toList
    " 10.0.0.1:3260,1".toList [] [] none rfl (by decide) (by decide)
  refine ⟨rfl, by decide, by decide, by decide, by decide, ?_⟩
  exact h.2 "iqn.2003-01.org:t".toList "(non-flash)".toList [] (by decide) (by decide)

/-- C19, counterexample: the top-level line `a : b` is stored under the key `a`,
whereas the text before its colon, `a ` with its trailing space, gives `a_` once its
spaces are turned into `_`, its non-word characters removed and it is lower-cased. -/
theorem top_level_key_counterexample :
    forBody (some "a : b".toList) [] [] none =
      Except.ok ([], [("a".toList, SessionValue.str "b".toList)], none) ∧
    parseSession [some "a : b".toList] =
      Except.ok [("a".toList, SessionValue.str "b".toList)] ∧
    (splitOn ':' "a : b".toList).headD [] = "a ".toList ∧
    toLowerCase (stripNonWord (spacesToUnderscores "a ".toList)) = "a_".toList ∧
    stripNonWord (spacesToUnderscores (toLowerCase "a ".toList)) = "a_".toList := by
  decide

/-! ## Device records -/

theorem allTabs_no_space (w : Str) (hw : AllTabs w) : ' ' ∉ w := by
  intro hm
  have := hw _ hm
  revert this
  decide

theorem allTabs_no_colon (w : Str) (hw : AllTabs w) : ':' ∉ w := by
  intro hm
  have := hw _ hm
  revert this
  decide

theorem trimStart_tabs (w r : Str) (hw : AllTabs w) : trimStart (w ++ r) = trimStart r := by
  induction w with
  | nil => rfl
  | cons c t ih =>
    have hc : c = '\t' := hw c (by simp)
    have ht : AllTabs t := fun x hx => hw x (by simp [hx])
    have hs : isWhiteSpace c = true := by rw [hc]; decide
    have e := ih ht
    unfold trimStart at e ⊢
    rw [List.cons_append, List.dropWhile_cons, if_pos hs, e]

theorem trimEnd_space_token (t : Str) (ht : NoWhiteSpace t) :
    trimEnd (' ' :: t) = endToken t := by
  have hl : ∀ c, t.getLast? = some c → isWhiteSpace c = false :=
    fun c hc => ht c (List.mem_of_getLast?_eq_some hc)
  by_cases h : t = []
  · subst h
    decide
  · rw [endToken, if_neg h]
    rcases trimEnd_space_cons t with e | e
    · exfalso
      have e2 := trimEnd_append [ ' '] t
      simp only [List.singleton_append] at e2
      rw [e, trimEnd_eq_self t hl, if_neg h] at e2
      cases e2
    · rw [e, trimEnd_eq_self t hl]

theorem trim_endToken (t : Str) (ht : NoWhiteSpace t) : trim (endToken t) = t := by
  by_cases h : t = []
  · subst h
    decide
  · rw [endToken, if_neg h]
    obtain ⟨x, t2, rfl⟩ := List.exists_cons_of_ne_nil h
    have hx : isWhiteSpace x = false := ht x (by simp)
    have hs : isWhiteSpace ' ' = true := by decide
    have h1 : trimStart (' ' :: x :: t2) = x :: t2 := by
      rw [trimStart, List.dropWhile_cons, if_pos hs, List.dropWhile_cons, hx]
      rfl
    rw [trim, h1]
    exact trimEnd_eq_self _ (fun c hc => ht c (List.mem_of_getLast?_eq_some hc))

theorem trim_line_token (lead body t : Str) (x : Char) (hlead : AllTabs lead)
    (hx : isWhiteSpace x = false)
    (hlast : ∀ c, (x :: body).getLast? = some c → isWhiteSpace c = false)
    (ht : NoWhiteSpace t) :
    trim (lead ++ (x :: body) ++ ' ' :: t) = (x :: body) ++ endToken t := by
  have h1 : trimStart (lead ++ (x :: body) ++ ' ' :: t) = (x :: body) ++ ' ' :: t := by
    rw [List.append_assoc, trimStart_tabs _ _ hlead, List.cons_append, trimStart,
      List.dropWhile_cons, hx]
    rfl
  rw [trim, h1, trimEnd_append_of_last _ _ hlast, trimEnd_space_token t ht]

theorem splitOn_line1 (p : DevicePair) (hp : p.Canonical) :
    splitOn ' ' p.line1 =
      [p.lead1 ++ "scsi".toList ++ p.h, "Channel".toList, p.c, "Id".toList, p.i, "Lun:".toList,
        p.l] := by
  obtain ⟨h1, _, _, ⟨hh, _⟩, ⟨hc, _⟩, ⟨hi, _⟩, ⟨hl, _⟩, _, _⟩ := hp
  have e : p.line1 = (p.lead1 ++ "scsi".toList ++ p.h) ++ ' ' :: ("Channel".toList ++ ' ' ::
      (p.c ++ ' ' :: ("Id".toList ++ ' ' :: (p.i ++ ' ' :: ("Lun:".toList ++ ' ' :: p.l))))) := by
    simp [DevicePair.line1]
  have h0 : ' ' ∉ p.lead1 ++ "scsi".toList ++ p.h := by
    have := allTabs_no_space _ h1
    simp [this, hh]
  rw [e, splitOn_append _ _ _ h0, splitOn_append _ _ _ (by decide), splitOn_append _ _ _ hc,
    splitOn_append _ _ _ (by decide), splitOn_append _ _ _ hi, splitOn_append _ _ _ (by decide),
    splitOn_not_mem _ _ hl]

theorem isScsiLine_line1 (p : DevicePair) (hp : p.Canonical) : isScsiLine p.line1 = true := by
  obtain ⟨h1, _, _, _, _, _, _, _, _⟩ := hp
  have e : p.line1 = p.lead1 ++ ("scsi".toList ++ (p.h ++ " Channel ".toList ++ p.c
      ++ " Id ".toList ++ p.i ++ " Lun: ".toList ++ p.l)) := by
    simp [DevicePair.line1]
  have hne : p.line1 ≠ [] := by
    intro h
    have := congrArg List.length h
    simp [DevicePair.line1] at this
  have hs : trimStart p.line1 = "scsi".toList ++ (p.h ++ " Channel ".toList ++ p.c
      ++ " Id ".toList ++ p.i ++ " Lun: ".toList ++ p.l) := by
    rw [e, trimStart_tabs _ _ h1]
    rfl
  have ht : trim p.line1 = "scsi".toList ++ trimEnd (p.h ++ " Channel ".toList ++ p.c
      ++ " Id ".toList ++ p.i ++ " Lun: ".toList ++ p.l) := by
    rw [trim, hs, trimEnd_append_of_last]
    intro c hc
    have : c = 'i' := by
      have h2 : "scsi".toList.getLast? = some 'i' := by decide
      rw [h2] at hc
      exact (Option.some.inj hc).symm
    rw [this]
    decide
  simp only [isScsiLine, Bool.and_eq_true, decide_eq_true_eq]
  refine ⟨hne, ?_⟩
  rw [ht]
  simp [startsWith]

theorem splitOn_line2 (p : DevicePair) (hp : p.Canonical) :
    p.line2 ≠ [] ∧
    (splitOn ' ' p.line2)[3]? = some (p.d ++ p.gap ++ "State:".toList) ∧
    (splitOn '\t' (p.d ++ p.gap ++ "State:".toList)).headD [] = p.d := by
  obtain ⟨_, h2, ⟨hg, hgne⟩, _, _, _, _, ⟨hd, hdt⟩, _⟩ := hp
  have e : p.line2 = (p.lead2 ++ "Attached".toList) ++ ' ' :: ("scsi".toList ++ ' ' ::
      ("disk".toList ++ ' ' :: ((p.d ++ p.gap ++ "State:".toList) ++ ' ' :: p.s))) := by
    simp [DevicePair.line2]
  have h0 : ' ' ∉ p.lead2 ++ "Attached".toList := by
    have := allTabs_no_space _ h2
    simp [this]
  have h3 : ' ' ∉ p.d ++ p.gap ++ "State:".toList := by
    have := allTabs_no_space _ hg
    simp [this, hd]
  refine ⟨?_, ?_, ?_⟩
  · intro h
    have := congrArg List.length h
    simp [DevicePair.line2] at this
  · rw [e, splitOn_append _ _ _ h0, splitOn_append _ _ _ (by decide),
      splitOn_append _ _ _ (by decide), splitOn_append _ _ _ h3]
    simp
  · obtain ⟨g, gs, hgs⟩ := List.exists_cons_of_ne_nil hgne
    have hg0 : g = '\t' := hg g (by rw [hgs]; simp)
    rw [hgs, hg0, List.append_assoc, List.cons_append, head_splitOn_append _ _ _ hdt]

theorem stateOf_line2 (p : DevicePair) (hp : p.Canonical) : stateOf (trim p.line2) = p.s := by
  obtain ⟨_, h2, ⟨hg, hgne⟩, _, _, _, _, ⟨hd, hdt⟩, hs⟩ := hp
  obtain ⟨g, gs, hgs⟩ := List.exists_cons_of_ne_nil hgne
  have hg0 : g = '\t' := hg g (by rw [hgs]; simp)
  have hgs2 : AllTabs gs := fun c hc => hg c (by rw [hgs]; simp [hc])
  have e : p.line2 = p.lead2 ++ ('A' :: ("ttached scsi disk ".toList ++ p.d ++ p.gap
      ++ "State:".toList)) ++ ' ' :: p.s := by
    simp [DevicePair.line2]
  have ht : trim p.line2 = ('A' :: ("ttached scsi disk ".toList ++ p.d ++ p.gap
      ++ "State:".toList)) ++ endToken p.s := by
    rw [e]
    apply trim_line_token _ _ _ _ h2 (by decide) _ hs
    intro c hc
    have h4 : ('A' :: ("ttached scsi disk ".toList ++ p.d ++ p.gap ++ "State:".toList))
        = ('A' :: ("ttached scsi disk ".toList ++ p.d ++ p.gap ++ "State".toList)) ++ [ ':'] := by
      simp
    rw [h4, List.getLast?_append_of_ne_nil _ (by simp)] at hc
    have : c = ':' := by simpa using hc.symm
    rw [this]
    decide
  have e2 : ('A' :: ("ttached scsi disk ".toList ++ p.d ++ p.gap ++ "State:".toList))
      ++ endToken p.s = ("Attached scsi disk ".toList ++ p.d) ++ '\t' ::
        ((gs ++ "State".toList) ++ ':' :: endToken p.s) := by
    rw [hgs, hg0]
    simp
  have ht1 : '\t' ∉ "Attached scsi disk ".toList ++ p.d := by
    simp [hdt]
  have ht2 : ':' ∉ gs ++ "State".toList := by
    have := allTabs_no_colon _ hgs2
    simp [this]
  rw [stateOf, ht, e2, afterFirst_append _ _ _ ht1, afterFirst_append _ _ _ ht2,
    trim_endToken _ hs]

theorem deviceRecord_canonical (p : DevicePair) (hp : p.Canonical) :
    deviceRecord p.line1 p.line2 (p.d ++ p.gap ++ "State:".toList) = p.record := by
  rw [deviceRecord, splitOn_line1 p hp, (splitOn_line2 p hp).2.2, stateOf_line2 p hp]
  rfl

theorem recordedDevices_canonical (pairs : List DevicePair) (hp : ∀ p ∈ pairs, p.Canonical) :
    recordedDevices (pairs.map DevicePair.lines) = pairs.map DevicePair.record := by
  induction pairs with
  | nil => rfl
  | cons p ps ih =>
    have h1 := hp p (by simp)
    have ih2 := ih (fun q hq => hp q (by simp [hq]))
    obtain ⟨hne, h3, _⟩ := splitOn_line2 p h1
    have hne2 : (DevicePair.lines p).2 ≠ [] := hne
    have h32 : (splitOn ' ' (DevicePair.lines p).2)[3]? = some (p.d ++ p.gap ++ "State:".toList) := h3
    unfold recordedDevices at ih2 ⊢
    rw [List.map_cons, List.filterMap_cons, if_neg hne2, h32, Option.map_some', ih2]
    simp only [List.map_cons]
    rw [← deviceRecord_canonical p h1]
    rfl

theorem trimEnd_endToken (t : Str) (ht : NoWhiteSpace t) : trimEnd (endToken t) = endToken t := by
  apply trimEnd_eq_self
  intro c hc
  by_cases h : t = []
  · subst h
    cases hc
  · obtain ⟨x, t2, rfl⟩ := List.exists_cons_of_ne_nil h
    rw [endToken, if_neg h, List.getLast?_cons_cons] at hc
    exact ht c (List.mem_of_getLast?_eq_some hc)

theorem trim_hostLine (lead n t : Str) (hlead : AllTabs lead) (ht : NoWhiteSpace t) :
    trim (hostLineText lead n t) =
      "Host Number".toList ++ ':' :: (' ' :: n ++ '\t' :: ("State".toList ++ ':' :: endToken t)) := by
  have e : hostLineText lead n t
      = lead ++ ('H' :: ("ost Number: ".toList ++ n ++ "\tState:".toList)) ++ ' ' :: t := by
    simp [hostLineText]
  have e2 : "Host Number".toList ++ ':' :: (' ' :: n ++ '\t' :: ("State".toList ++ ':' :: endToken t))
      = ('H' :: ("ost Number: ".toList ++ n ++ "\tState:".toList)) ++ endToken t := by
    simp
  rw [e, e2]
  apply trim_line_token _ _ _ _ hlead (by decide) _ ht
  intro c hc
  have h4 : ('H' :: ("ost Number: ".toList ++ n ++ "\tState:".toList))
      = ('H' :: ("ost Number: ".toList ++ n ++ "\tState".toList)) ++ [ ':'] := by
    simp
  rw [h4, List.getLast?_append_of_ne_nil _ (by simp)] at hc
  have : c = ':' := by simpa using hc.symm
  rw [this]
  decide

theorem hostLine_parts (lead n t : Str) (hlead : AllTabs lead) (hn : n ≠ [])
    (hnw : NoWhiteSpace n) (ht : NoWhiteSpace t) :
    toLowerCase (lineKey (trim (hostLineText lead n t))) = "host_number".toList ∧
    (splitOn '\t' (lineValue (trim (hostLineText lead n t)))).headD [] = n ∧
    stateOf (lineValue (trim (hostLineText lead n t))) = t := by
  have htab : '\t' ∉ n := by
    intro hm
    have := hnw _ hm
    revert this
    decide
  have hv : lineValue (trim (hostLineText lead n t))
      = n ++ '\t' :: ("State".toList ++ ':' :: endToken t) := by
    rw [lineValue, trim_hostLine lead n t hlead ht, afterFirst_append _ _ _ (by decide)]
    obtain ⟨x, n2, rfl⟩ := List.exists_cons_of_ne_nil hn
    have hx : isWhiteSpace x = false := hnw x (by simp)
    have hs : isWhiteSpace ' ' = true := by decide
    have h1 : trimStart (' ' :: (x :: n2) ++ '\t' :: ("State".toList ++ ':' :: endToken t))
        = (x :: n2) ++ '\t' :: ("State".toList ++ ':' :: endToken t) := by
      rw [trimStart, List.cons_append, List.dropWhile_cons, if_pos hs, List.cons_append,
        List.dropWhile_cons, hx]
      rfl
    have e3 : (x :: n2) ++ '\t' :: ("State".toList ++ ':' :: endToken t)
        = ((x :: n2) ++ "\tState:".toList) ++ endToken t := by
      simp
    rw [trim, h1, e3, trimEnd_append_of_last, trimEnd_endToken t ht]
    intro c hc
    have h4 : (x :: n2) ++ "\tState:".toList = ((x :: n2) ++ "\tState".toList) ++ [ ':'] := by
      simp
    rw [h4, List.getLast?_append_of_ne_nil _ (by simp)] at hc
    have : c = ':' := by simpa using hc.symm
    rw [this]
    decide
  refine ⟨?_, ?_, ?_⟩
  · rw [trim_hostLine lead n t hlead ht, lineKey, head_splitOn_append _ _ _ (by decide)]
    decide
  · rw [hv, head_splitOn_append _ _ _ htab]
  · rw [hv, stateOf, afterFirst_append _ _ _ htab, afterFirst_append _ _ _ (by decide),
      trim_endToken t ht]

theorem devicesLoop_canonical (p : DevicePair) (hp : p.Canonical) (rest : List (Option Str))
    (devices : Option (List Device)) :
    devicesLoop (some p.line1 :: some p.line2 :: rest) devices =
      devicesLoop rest (some (devices.getD [] ++ [p.record])) := by
  have h1 := isScsiLine_line1 p hp
  have hc : p.line1 ≠ [] ∧ startsWith (trim p.line1) "scsi".toList = true := by
    simp only [isScsiLine, Bool.and_eq_true, decide_eq_true_eq] at h1
    exact h1
  obtain ⟨hne, h3, _⟩ := splitOn_line2 p hp
  rw [devicesLoop, if_pos hc]
  simp only [ne_eq, hne, not_false_eq_true, if_true, h3]
  rw [deviceRecord_canonical p hp]

/-- C20: in the section `attached_scsi_devices`, the line
`<tabs>Host Number: <n><tab>State: <t>` (`n` not empty, `n` and `t` free of white
space) followed by device pairs of the canonical shape, first line
`<tabs>scsi<h> Channel <c> Id <i> Lun: <l>` and second line
`<tabs>Attached scsi disk <d><tabs>State: <s>` (`h`, `c`, `i`, `l`, `d` free of spaces
and tabs, `s` free of white space), after which the scan stops, opens the `host`
object `{number: n, state: t}` whose `devices` are exactly the records
`{channel: c, id: i, lun: l, attached_scsi_disk: d, state: s}` of the pairs, in
order; this is what the parse of every group reaching the line holds; and wherever
the device scan stands at a canonical pair, the record it appends to `host.devices`
is exactly that record. -/
theorem device_records (session : SessionDetail) (fields : Section) (lead n t : Str)
    (pairs : List DevicePair) (post : List (Option Str))
    (hopen : openSection session "attached_scsi_devices".toList = Except.ok fields)
    (hlead : AllTabs lead) (hn : n ≠ []) (hnw : NoWhiteSpace n) (ht : NoWhiteSpace t)
    (hpairs : ∀ p ∈ pairs, p.Canonical) (hpost : StopsScan post) :
    forBody (some (hostLineText lead n t)) (deviceBlock (pairs.map DevicePair.lines) ++ post)
        session (some "attached_scsi_devices".toList) =
      Except.ok
        (post,
          setField "attached_scsi_devices".toList
            (SessionValue.section
              (setField "host".toList
                (SectionValue.host
                  { number := n, state := t,
                    devices := if pairs = [] then none else some (pairs.map DevicePair.record) })
                fields))
            session,
          some "attached_scsi_devices".toList) ∧
    (∀ pre, Reaches pre session (some "attached_scsi_devices".toList) →
      parseSession
          (pre ++ some (hostLineText lead n t) ::
            (deviceBlock (pairs.map DevicePair.lines) ++ post)) =
        parseFrom post
          (setField "attached_scsi_devices".toList
            (SessionValue.section
              (setField "host".toList
                (SectionValue.host
                  { number := n, state := t,
                    devices := if pairs = [] then none else some (pairs.map DevicePair.record) })
                fields))
            session)
          (some "attached_scsi_devices".toList)) ∧
    (∀ p ∈ pairs, ∀ (rest : List (Option Str)) (devices : Option (List Device)),
      devicesLoop (some p.line1 :: some p.line2 :: rest) devices =
        devicesLoop rest (some (devices.getD [] ++ [p.record]))) := by
  obtain ⟨hkey, hnum, hstate⟩ := hostLine_parts lead n t hlead hn hnw ht
  have hscsi : ∀ q ∈ pairs.map DevicePair.lines, isScsiLine q.1 = true := by
    intro q hq
    obtain ⟨p, hp, rfl⟩ := List.mem_map.1 hq
    exact isScsiLine_line1 p (hpairs p hp)
  have hdisk : ∀ q ∈ pairs.map DevicePair.lines, q.2 ≠ [] → (splitOn ' ' q.2)[3]? ≠ none := by
    intro q hq _
    obtain ⟨p, hp, rfl⟩ := List.mem_map.1 hq
    have h3 : (splitOn ' ' (DevicePair.lines p).2)[3]? = some (p.d ++ p.gap ++ "State:".toList) :=
      (splitOn_line2 p (hpairs p hp)).2.1
    rw [h3]
    exact Option.some_ne_none _
  have hdev := devicesLoop_block (pairs.map DevicePair.lines) post hscsi hdisk hpost none
  rw [recordedDevices_canonical pairs hpairs] at hdev
  have hif : (if pairs.map DevicePair.lines = [] then none
      else some (Option.getD none [] ++ pairs.map DevicePair.record))
      = (if pairs = [] then (none : Option (List Device))
          else some (pairs.map DevicePair.record)) := by
    by_cases hp : pairs = []
    · subst hp
      rfl
    · have hp2 : pairs.map DevicePair.lines ≠ [] := fun e => hp (List.map_eq_nil_iff.1 e)
      rw [if_neg hp, if_neg hp2]
      rfl
  rw [hif] at hdev
  have hbody := forBody_hostNumber (hostLineText lead n t) _ session fields _ post hkey hopen hdev
  rw [hnum, hstate] at hbody
  refine ⟨hbody, ?_, ?_⟩
  · intro pre hpre
    rw [hpre, parseFrom_cons _ _ _ _ _ _ _ hbody]
  · intro p hp rest devices
    exact devicesLoop_canonical p (hpairs p hp) rest devices

/-- C20, witness: in the group of the lines `Target: a`, `Current Portal: b`, the header
of the section `Attached SCSI devices`, `Host Number: 6<tab>State: running`,
`scsi6 Channel 00 Id 0 Lun: 0` and `Attached scsi disk sdb<tabs>State: running`, the
host is `{number: 6, state: running}` with the one device
`{channel: 00, id: 0, lun: 0, attached_scsi_disk: sdb, state: running}`. -/
theorem device_records_witness :
    parseSession
        [some "Target: a".toList, some "\t\tCurrent Portal: b".toList, some "\t\t***".toList,
          some "\t\tAttached SCSI devices:".toList, some "\t\t***".toList,
          some "\t\tHost Number: 6\tState: running".toList,
          some "\t\tscsi6 Channel 00 Id 0 Lun: 0".toList,
          some "\t\t\tAttached scsi disk sdb\t\tState: running".toList] =
      Except.ok
        [("target".toList, SessionValue.str "a".toList),
          ("current_portal".toList, SessionValue.str "b".toList),
          ("attached_scsi_devices".toList,
            SessionValue.section
              [("host".toList,
                SectionValue.host
                  { number := "6".toList, state := "running".toList,
                    devices :=
                      some
                        [{ channel := JsValue.str "00".toList, id := JsValue.str "0".toList,
                           lun := JsValue.str "0".toList, attached_scsi_disk := "sdb".toList,
                           state := "running".toList }] })])] :=
  (device_records
    [("target".toList, SessionValue.str "a".toList),
      ("current_portal".toList, SessionValue.str "b".toList)]
    [] "\t\t".toList "6".toList "running".toList
    [{ lead1 := "\t\t".toList, h := "6".toList, c := "00".toList, i := "0".toList,
       l := "0".toList, lead2 := "\t\t\t".toList, d := "sdb".toList, gap := "\t\t".toList,
       s := "running".toList }]
    [] (by decide) (by decide) (by decide) (by decide) (by decide) (by decide)
    (by intro l hl; cases hl)).2.1 _ reaches_sample

/-! ## The grouping stage keeps the lines -/

theorem unseed_unseeded (g : List (Option Str)) (h : Unseeded g) : unseed g = g := by
  match g, h with
  | [], _ => rfl
  | [_], _ => rfl
  | _ :: none :: _, _ => rfl
  | seed :: some p :: rest, h =>
    obtain ⟨e, he, _, hp⟩ := h (some p) (by simp)
    cases he
    simp [unseed, hp]

theorem unseed_seeded (seed : Option Str) (p : Str) (rest : List (Option Str))
    (hp : isPortalLine p = true) : unseed (seed :: some p :: rest) = some p :: rest := by
  simp [unseed, hp]

theorem unseeded_append (g : List (Option Str)) (e : Str) (hg : Unseeded g)
    (h1 : isTargetLine e = false) (h2 : isPortalLine e = false) : Unseeded (g ++ [some e]) := by
  intro x hx
  rcases List.mem_append.1 hx with h | h
  · exact hg x h
  · rw [List.mem_singleton] at h
    exact ⟨e, h, h1, h2⟩

theorem kind_append (g : List (Option Str)) (e : Str) (hg : Unseeded g ∨ Seeded g)
    (h1 : isTargetLine e = false) (h2 : isPortalLine e = false) :
    (Unseeded (g ++ [some e]) ∨ Seeded (g ++ [some e])) ∧
      unseed (g ++ [some e]) = unseed g ++ [some e] := by
  rcases hg with hg | ⟨seed, p, rest, rfl, hs, hpt, hp, hr⟩
  · have h := unseeded_append g e hg h1 h2
    exact ⟨Or.inl h, by rw [unseed_unseeded _ h, unseed_unseeded _ hg]⟩
  · refine ⟨Or.inr ⟨seed, p, rest ++ [some e], rfl, hs, hpt, hp, unseeded_append rest e hr h1 h2⟩,
      ?_⟩
    rw [List.cons_append, List.cons_append, unseed_seeded _ _ _ hp, unseed_seeded _ _ _ hp]
    rfl

theorem groupStep_inv (st : GroupState) (e : Str) (h : GroupInv st) :
    GroupInv (groupStep st e) ∧
      linesOf (groupStep st e) = linesOf st ++ (if isTargetLine e = true then [] else [some e]) := by
  obtain ⟨hgs, hcs, hct⟩ := h
  by_cases h1 : isTargetLine e = true
  · rw [groupStep_target st e h1, if_pos h1, List.append_nil]
    refine ⟨⟨hgs, hcs, ?_⟩, rfl⟩
    intro t ht
    cases ht
    exact h1
  · have h1f : isTargetLine e = false := by simpa using h1
    rw [if_neg h1]
    by_cases h2 : isPortalLine e = true
    · rw [groupStep_portal st e h1f h2]
      refine ⟨⟨?_, Or.inr ⟨st.currentTarget, e, [], rfl, hct, h1f, h2, ?_⟩, hct⟩, ?_⟩
      · intro g hg
        by_cases hl : st.currentSession.length > 0
        · simp only [hl, if_true] at hg
          rcases List.mem_append.1 hg with hg | hg
          · exact hgs g hg
          · rw [List.mem_singleton] at hg
            rw [hg]
            exact hcs
        · simp only [hl, if_false] at hg
          exact hgs g hg
      · intro x hx
        cases hx
      · by_cases hl : st.currentSession.length > 0
        · simp only [linesOf, hl, if_true, List.flatMap_append, List.flatMap_cons,
            List.flatMap_nil, List.append_nil, unseed_seeded _ _ _ h2]
        · have hnil : st.currentSession = [] := by
            cases hc : st.currentSession with
            | nil => rfl
            | cons x xs => rw [hc] at hl; simp at hl
          have hu : unseed [] = [] := rfl
          simp only [linesOf, hnil, List.length_nil, gt_iff_lt, lt_self_iff_false, if_false,
            List.flatMap_append, List.flatMap_cons, List.flatMap_nil, List.append_nil,
            unseed_seeded _ _ _ h2, hu]
    · have h2f : isPortalLine e = false := by simpa using h2
      rw [groupStep_other st e h1f h2f]
      obtain ⟨hk, hu⟩ := kind_append st.currentSession e hcs h1f h2f
      refine ⟨⟨hgs, hk, hct⟩, ?_⟩
      simp only [linesOf, List.flatMap_append, List.flatMap_cons, List.flatMap_nil,
        List.append_nil, hu, List.append_assoc]

theorem foldl_groupStep_inv (es : List Str) (st : GroupState) (h : GroupInv st) :
    GroupInv (es.foldl groupStep st) ∧
      linesOf (es.foldl groupStep st) =
        linesOf st ++ (es.filter (fun e => !isTargetLine e)).map some := by
  induction es generalizing st with
  | nil => exact ⟨h, by simp⟩
  | cons e es ih =>
    obtain ⟨hi, hl⟩ := groupStep_inv st e h
    obtain ⟨hi2, hl2⟩ := ih (groupStep st e) hi
    refine ⟨hi2, ?_⟩
    rw [List.foldl_cons, hl2, hl, List.append_assoc]
    by_cases h1 : isTargetLine e = true
    · simp [h1, List.filter_cons]
    · simp [h1, List.filter_cons]

theorem groupInv_initial :
    GroupInv { currentTarget := none, sessionGroups := [], currentSession := [] } := by
  refine ⟨?_, Or.inl ?_, ?_⟩
  · intro g hg
    cases hg
  · intro x hx
    cases hx
  · intro t ht
    cases ht

/-- C21: for every dump body, the groups produced by the grouping stage of
`getSessionsDetails`, concatenated in order after the seeded first element has been
removed from each group opened by a `Current Portal:` line, are exactly the lines of the
body that do not start with `Target:`, in their original order; every group produced
either holds lines only, none of them a `Target:` or `Current Portal:` line, or is made of
a seed (`undefined` or a `Target:` line), a `Current Portal:` line and further lines of
neither kind, so the groups opened by a `Current Portal:` line are those with such a line
in second place; an empty body yields no groups; and the body `x`, `Target: a`,
`Current Portal: p`, `y`, `Current Portal: q`, `Target: b` yields the groups `[x]`,
`[Target: a, Current Portal: p, y]` and `[Target: a, Current Portal: q]`. -/
theorem grouping_keeps_lines (body : List Str) :
    (groupSessions body).flatMap unseed = (body.filter (fun e => !isTargetLine e)).map some ∧
    (∀ g ∈ groupSessions body, Unseeded g ∨ Seeded g) ∧
    groupSessions [] = [] ∧
    groupSessions ["x".toList, "Target: a".toList, "\tCurrent Portal: p".toList, "y".toList,
        "\tCurrent Portal: q".toList, "Target: b".toList] =
      [[some "x".toList],
        [some "Target: a".toList, some "\tCurrent Portal: p".toList, some "y".toList],
        [some "Target: a".toList, some "\tCurrent Portal: q".toList]] := by
  refine ⟨?_, ?_, rfl, by decide⟩
  · cases body with
    | nil => rfl
    | cons e es =>
      obtain ⟨_, hl⟩ := foldl_groupStep_inv (e :: es) _ groupInv_initial
      rw [groupSessions, groupLoop_eq_flushed _ _ (by simp)]
      exact hl
  · cases body with
    | nil =>
      intro g hg
      cases hg
    | cons e es =>
      obtain ⟨⟨hgs, hcs, _⟩, _⟩ := foldl_groupStep_inv (e :: es) _ groupInv_initial
      rw [groupSessions, groupLoop_eq_flushed _ _ (by simp)]
      intro g hg
      rcases List.mem_append.1 hg with hg | hg
      · exact hgs g hg
      · rw [List.mem_singleton] at hg
        rw [hg]
        exact hcs
end Iscsi
